import Mathlib

/-!
# CloudComPy: connected components, entity merge, slice parameters

A shallow embedding of `src/pybind11/cloudComPy.cpp`:
`ExtractSlicesAndContours_py` (the envelope-type selection),
`ComponentIndexAndSize`, `createComponentsClouds_`,
`ExtractConnectedComponents_py`, `AddToRemoveListPy` and `MergeEntitiesPy`.

Objects live in a heap addressed by natural numbers; a pointer is an address,
a nullable pointer an `Option Nat`. Calls into the geometry library that can
fail are driven by an environment record that fixes their outcome.
-/

namespace CloudComPy

/-! ## Object graph -/

/-- Modelled from the spec: the class identifiers of the object graph
(`CC_TYPES` of the geometry library, not part of the binding source). -/
inductive CC_TYPES where
  | OBJECT
  | HIERARCHY_OBJECT
  | POINT_CLOUD
  | MESH
  | PRIMITIVE
  | POLY_LINE
deriving DecidableEq, Repr

/-- Modelled from the spec: `isKindOf`, true when the class is `t` or a
specialization of `t`. Primitives are meshes; every class but the bare
`OBJECT` is a hierarchy object. -/
def CC_TYPES.isKindOf (c t : CC_TYPES) : Bool :=
  match t with
  | .OBJECT => true
  | .HIERARCHY_OBJECT => c != .OBJECT
  | .MESH => c == .MESH || c == .PRIMITIVE
  | _ => c == t

/-- ScalarType: the value a scalar field holds for one point, a floating-point
number of the library (`float` by default). `val v` is the number whose value
is the integer `v`: the source writes zeros and cloud indices converted from
`size_t`, a conversion that is `MergeEnv.castIndex`. `nan` is the filler of
the library. -/
inductive ScalarType where
  | nan
  | val (v : Nat)
deriving DecidableEq, Repr

/-- A named per-point attribute of a cloud. -/
structure ScalarField where
  name : String
  values : List ScalarType
deriving DecidableEq, Repr

/-- A point, kept as an uninterpreted payload. -/
abbrev Point := Nat

/-- One node of the object graph (`ccHObject` and its cloud and mesh
specializations in one record). `points`, `scalarFields`, `octree` and the
display fields are used by clouds, `associatedCloud` and `triangles` by
meshes. -/
structure ccHObject where
  classId : CC_TYPES
  name : String
  parent : Option Nat
  children : List Nat
  enabled : Bool
  visible : Bool
  points : List Point
  scalarFields : List ScalarField
  currentInSF : Int
  currentDisplayedSF : Int
  sfShown : Bool
  octree : Bool
  color : Option Nat
  associatedCloud : Option Nat
  triangles : Nat
deriving DecidableEq, Repr

/-- The heap: cell `a` holds the object at address `a`, or `none` once the
object has been destroyed. -/
abbrev Heap := List (Option ccHObject)

/-- Dereference an address. -/
def Heap.lookup (h : Heap) (a : Nat) : Option ccHObject :=
  h[a]?.join

/-- Overwrite the object at an address. -/
def Heap.store (h : Heap) (a : Nat) (o : ccHObject) : Heap :=
  h.set a (some o)

/-- Allocate a new object; its address is the old heap size. -/
def Heap.alloc (h : Heap) (o : ccHObject) : Heap × Nat :=
  (h ++ [some o], h.length)

/-- Release the object at an address (`delete`). -/
def Heap.free (h : Heap) (a : Nat) : Heap :=
  h.set a none

/-- Ways in which a run leaves defined behaviour. -/
inductive Fault where
  | nullDereference
  | outOfRange
  | useAfterFree
deriving DecidableEq, Repr

/-- `entity->isA(t)`: the class of the object is exactly `t`. -/
def isA (h : Heap) (a : Nat) (t : CC_TYPES) : Bool :=
  match h.lookup a with
  | some o => o.classId == t
  | none => false

/-- `entity->isKindOf(t)`. -/
def isKindOf (h : Heap) (a : Nat) (t : CC_TYPES) : Bool :=
  match h.lookup a with
  | some o => o.classId.isKindOf t
  | none => false

/-- `getParent()`. -/
def getParent (h : Heap) (a : Nat) : Option Nat :=
  (h.lookup a).bind (fun o => o.parent)

/-- `getChildrenNumber()`. -/
def getChildrenNumber (h : Heap) (a : Nat) : Nat :=
  match h.lookup a with
  | some o => o.children.length
  | none => 0

/-- `size()` of a cloud: its number of points. -/
def cloudSize (h : Heap) (a : Nat) : Nat :=
  match h.lookup a with
  | some o => o.points.length
  | none => 0

/-- The node reached from `a` by following `n` parent links. -/
def nthParent (h : Heap) : Nat → Nat → Option Nat
  | 0, a => some a
  | n + 1, a => (getParent h a).bind (nthParent h n)

/-- The parent relation is acyclic: from every address the chain of parents
ends. A chain without repetition visits at most `h.length` cells that have a
parent, so the bound loses nothing. -/
def acyclic (h : Heap) : Bool :=
  (List.range h.length).all (fun a => (nthParent h (h.length + 1) a).isNone)

/-- Modelled from the spec: the recursion of `ccHObject::isAncestorOf`
(library): false without a parent, true when the parent is `self`, otherwise
asked of the parent. -/
def isAncestorOfAux (h : Heap) (self : Nat) : Nat → Nat → Bool
  | 0, _ => false
  | fuel + 1, anObject =>
    match getParent h anObject with
    | none => false
    | some parent => if parent = self then true else isAncestorOfAux h self fuel parent

/-- `self->isAncestorOf(anObject)`: `self` is a strict ancestor of `anObject`.
The recursion climbs one parent link per step, and `h.length` steps reach the
end of every chain of an acyclic heap. -/
def isAncestorOf (h : Heap) (self anObject : Nat) : Bool :=
  isAncestorOfAux h self h.length anObject

/-! ## AddToRemoveListPy -/

/-- `toBeRemovedList[j] = toBeRemovedList.back(); toBeRemovedList.pop_back()`. -/
def swapRemove (l : List Nat) (j : Nat) : List Nat :=
  match l.getLast? with
  | none => l
  | some b => (l.set j b).dropLast

/-- The scan of `AddToRemoveListPy` followed by its `push_back`: the list
after the call. `count` of the source is the length of the list throughout.
The first argument bounds the number of iterations left: each one either
advances `j` or shortens the list, so the length of the list is enough. On
the early `return` the entries dropped so far stay dropped, as in the source,
which edits the list in place. -/
def AddToRemoveListPy.run (h : Heap) (toRemove : Nat) : Nat → Nat → List Nat → List Nat
  | 0, _, l => l ++ [toRemove]
  | n + 1, j, l =>
    match l[j]? with
    | none => l ++ [toRemove]
    | some e =>
      if isAncestorOf h e toRemove then l
      else if isAncestorOf h toRemove e then AddToRemoveListPy.run h toRemove n j (swapRemove l j)
      else AddToRemoveListPy.run h toRemove n (j + 1) l

/-- `AddToRemoveListPy`. -/
def AddToRemoveListPy (h : Heap) (toRemove : Nat) (toBeRemovedList : List Nat) : List Nat :=
  AddToRemoveListPy.run h toRemove toBeRemovedList.length 0 toBeRemovedList

/-! ## MergeEntitiesPy -/

/-- Outcomes of the library calls and allocations of one run of
`MergeEntitiesPy`. `badAlloc i`: storing the `i`-th entity in `clouds` or
`meshes` throws `std::bad_alloc`. `addScalarFieldOk`: `addScalarField` can
allocate. `appendOk i`: the append of the `i`-th cloud has the memory it needs.
`meshMergeOk i`: `merge` of the `i`-th mesh returns true. `castIndex k`: the
integer value of `static_cast<ScalarType>(k)` for a `size_t` `k`; `ScalarType`
is a floating type declared by the library, so the conversion is exact up to
a bound only (2^24 for the default `float`) and rounds beyond it. -/
structure MergeEnv where
  badAlloc : Nat → Bool
  addScalarFieldOk : Bool
  appendOk : Nat → Bool
  meshMergeOk : Nat → Bool
  castIndex : Nat → Nat

/-- `CC_ORIGINAL_CLOUD_INDEX_SF_NAME`. -/
def CC_ORIGINAL_CLOUD_INDEX_SF_NAME : String := "Original cloud index"

/-- `std::swap(clouds.front(), clouds.back())`. -/
def swapFrontBack : List Nat → List Nat
  | [] => []
  | a :: t =>
    match t.getLast? with
    | none => [a]
    | some b => b :: (t.dropLast ++ [a])

/-- The cloud branch of the classification loop: `clouds.push_back(cloud)`,
then the swap when the new last cloud is an ancestor of the first. -/
def pushCloud (h : Heap) (clouds : List Nat) (cloud : Nat) : List Nat :=
  let clouds := clouds ++ [cloud]
  if 1 < clouds.length then
    match clouds.getLast?, clouds.head? with
    | some back, some front =>
      if isAncestorOf h back front then swapFrontBack clouds else clouds
    | _, _ => clouds
  else clouds

/-- The test on a mesh: its associated cloud exists and is exactly a point
cloud. -/
def hasStandardVertices (h : Heap) (mesh : Nat) : Bool :=
  match (h.lookup mesh).bind (fun o => o.associatedCloud) with
  | some v => isA h v .POINT_CLOUD
  | none => false

/-- The classification loop of `MergeEntitiesPy` from entity number `i` on;
`none` is the `std::bad_alloc` caught around the loop. -/
def classify (env : MergeEnv) (h : Heap) :
    List (Option Nat) → Nat → List Nat → List Nat → Option (List Nat × List Nat)
  | [], _, clouds, meshes => some (clouds, meshes)
  | none :: rest, i, clouds, meshes => classify env h rest (i + 1) clouds meshes
  | some entity :: rest, i, clouds, meshes =>
    if isA h entity .POINT_CLOUD then
      if env.badAlloc i then none
      else classify env h rest (i + 1) (pushCloud h clouds entity) meshes
    else if isKindOf h entity .MESH then
      if hasStandardVertices h entity then
        if env.badAlloc i then none
        else classify env h rest (i + 1) clouds (meshes ++ [entity])
      else classify env h rest (i + 1) clouds meshes
    else classify env h rest (i + 1) clouds meshes

/-- `getScalarFieldIndexByName`: the index of the first field of that name,
or -1. -/
def getScalarFieldIndexByName (o : ccHObject) (name : String) : Int :=
  let i := o.scalarFields.findIdx (fun sf => sf.name == name)
  if i < o.scalarFields.length then (i : Int) else -1

/-- Modelled from the spec: `addScalarField(name)` of the library. A new field
of the size of the cloud, zero-filled, is added last and its index returned;
-1 when a field of that name exists or the allocation fails. -/
def addScalarField (ok : Bool) (o : ccHObject) (name : String) : ccHObject × Int :=
  if 0 ≤ getScalarFieldIndexByName o name ∨ ok = false then (o, -1)
  else
    ({ o with scalarFields := o.scalarFields ++ [⟨name, List.replicate o.points.length (.val 0)⟩] },
      (o.scalarFields.length : Int))

/-- The lookup of a scalar field by name followed, when it is absent, by its
creation: `sfIdx = getScalarFieldIndexByName(name); if (sfIdx < 0) sfIdx =
addScalarField(name);`. The result is the cloud and `sfIdx`. -/
def acquireScalarField (ok : Bool) (o : ccHObject) (name : String) : ccHObject × Int :=
  let sfIdx := getScalarFieldIndexByName o name
  if sfIdx < 0 then addScalarField ok o name else (o, sfIdx)

/-- `ScalarField::fill(0)`. -/
def ScalarField.fill (sf : ScalarField) (v : ScalarType) : ScalarField :=
  { sf with values := sf.values.map (fun _ => v) }

/-- `ScalarField::resizeSafe(n)`: cut to `n` values or padded with zeros. -/
def ScalarField.resizeSafe (sf : ScalarField) (n : Nat) : ScalarField :=
  { sf with values := sf.values.take n ++ List.replicate (n - sf.values.length) (.val 0) }

/-- `ScalarField::setValue(index, value)`. -/
def ScalarField.setValue (sf : ScalarField) (index : Nat) (v : ScalarType) : ScalarField :=
  { sf with values := sf.values.set index v }

/-- The loop `for (i = 0; i < countAdded; ++i) setValue(countBefore + i, index)`. -/
def setValues (sf : ScalarField) (countBefore : Nat) (index : ScalarType) : Nat → ScalarField
  | 0 => sf
  | i + 1 => (setValues sf countBefore index i).setValue (countBefore + i) index

/-- Apply an update to the scalar field of index `k` of an object. -/
def updateSF (o : ccHObject) (k : Nat) (f : ScalarField → ScalarField) : ccHObject :=
  { o with scalarFields := o.scalarFields.modify f k }

/-- A new object with the defaults of the library. -/
def newObject (classId : CC_TYPES) (name : String) : ccHObject :=
  { classId := classId, name := name, parent := none, children := [], enabled := true,
    visible := true, points := [], scalarFields := [], currentInSF := -1,
    currentDisplayedSF := -1, sfShown := false, octree := false, color := none,
    associatedCloud := none, triangles := 0 }

/-- Modelled from the spec: `cloneThis` of the library, a deep copy of the
points and scalar fields in a new root object without children. -/
def cloneThis (h : Heap) (pc : Nat) : Heap × Nat :=
  match h.lookup pc with
  | some o => h.alloc { o with parent := none, children := [] }
  | none => h.alloc (newObject .POINT_CLOUD "")

/-- Modelled from the spec: what the append of the library does to the scalar
fields of the accumulator. Each one is extended by the values of the field of
the same name of the added cloud, or by the filler; the fields only the added
cloud has follow, the filler standing for the points of the accumulator. -/
def appendScalarFields (acc added : ccHObject) : List ScalarField :=
  acc.scalarFields.map (fun sf =>
      match added.scalarFields.find? (fun s => s.name == sf.name) with
      | some s => { sf with values := sf.values ++ s.values }
      | none => { sf with values := sf.values ++ List.replicate added.points.length .nan })
    ++ (added.scalarFields.filter
          (fun s => !(acc.scalarFields.any (fun sf => sf.name == s.name)))).map
        (fun s => { s with values := List.replicate acc.points.length .nan ++ s.values })

/-- Modelled from the spec: `*firstCloud += pc` of the library. With enough
memory the points of `pc` follow those of the accumulator and the scalar
fields are extended; without, the accumulator is left as it was. -/
def cloudAppend (ok : Bool) (h : Heap) (firstCloud pc : Nat) : Heap :=
  if ok then
    match h.lookup firstCloud, h.lookup pc with
    | some acc, some added =>
      h.store firstCloud
        { acc with points := acc.points ++ added.points,
                   scalarFields := appendScalarFields acc added }
    | _, _ => h
  else h

/-- The state of the cloud loop of `MergeEntitiesPy`. `ocIndexSF`, a pointer
to a scalar field of `firstCloud` in the source, is the index of that field.
`merged` is not a variable of the source: it records, in order, the clouds
whose append passed the size test. -/
structure MergeState where
  heap : Heap
  firstCloud : Option Nat
  ocIndexSF : Option Nat
  cloudIndex : Nat
  sfIdx : Int
  toBeRemoved : List Nat
  merged : List Nat
deriving DecidableEq, Repr

/-- The node to schedule for a merged cloud `pc`: its parent when that is a
plain group with `pc` as only child, else `pc`. -/
def selectToRemove (h : Heap) (pc : Nat) : Nat :=
  match getParent h pc with
  | some parent =>
    if isA h parent .HIERARCHY_OBJECT && getChildrenNumber h parent == 1 then parent else pc
  | none => pc

/-- One iteration of the cloud loop that finds `firstCloud` null: it picks
the accumulator. The flag of the result is true on `return nullptr`. -/
def mergeFirst (env : MergeEnv) (deleteOriginalClouds createSFcloudIndex : Bool)
    (pc : Nat) (st : MergeState) : MergeState × Bool :=
  let alloc := if deleteOriginalClouds then (st.heap, pc) else cloneThis st.heap pc
  let h1 := alloc.1
  let fc := alloc.2
  let st1 := { st with heap := h1, firstCloud := some fc }
  if createSFcloudIndex then
    match h1.lookup fc with
    | none => (st1, true)
    | some o =>
      let acquired := acquireScalarField env.addScalarFieldOk o CC_ORIGINAL_CLOUD_INDEX_SF_NAME
      let o1 := acquired.1
      let sfIdx := acquired.2
      if sfIdx < 0 then
        ({ st1 with heap := h1.store fc o1, sfIdx := sfIdx }, true)
      else
        let o2 := updateSF o1 sfIdx.toNat (fun sf => sf.fill (.val 0))
        let o3 := { o2 with currentDisplayedSF := sfIdx }
        ({ st1 with heap := h1.store fc o3, sfIdx := sfIdx, ocIndexSF := some sfIdx.toNat }, false)
  else (st1, false)

/-- The heap after `*firstCloud += pc` (originals consumed) or
`*firstCloud += pc->cloneThis()` in iteration `i` of the cloud loop. -/
def appendedHeap (env : MergeEnv) (deleteOriginalClouds : Bool) (i pc fc : Nat)
    (st : MergeState) : Heap :=
  if deleteOriginalClouds then cloudAppend (env.appendOk i) st.heap fc pc
  else cloudAppend (env.appendOk i) (cloneThis st.heap pc).1 fc (cloneThis st.heap pc).2

/-- One iteration of the cloud loop with an accumulator `fc`: append cloud
number `i`. The flag of the result is true on `break`. -/
def mergeNext (env : MergeEnv) (deleteOriginalClouds : Bool)
    (i pc fc : Nat) (st : MergeState) : MergeState × Bool :=
  let countBefore := cloudSize st.heap fc
  let countAdded := cloudSize st.heap pc
  let h1 := appendedHeap env deleteOriginalClouds i pc fc st
  if cloudSize h1 fc = countBefore + countAdded then
    let toRemove := selectToRemove h1 pc
    let toBeRemoved :=
      if deleteOriginalClouds then AddToRemoveListPy h1 toRemove st.toBeRemoved
      else st.toBeRemoved
    match st.ocIndexSF, h1.lookup fc with
    | some k, some o =>
      let index := ScalarType.val (env.castIndex (st.cloudIndex + 1))
      let o1 := updateSF o k
        (fun sf => setValues (sf.resizeSafe o.points.length) countBefore index countAdded)
      ({ st with heap := h1.store fc o1, toBeRemoved := toBeRemoved,
                 cloudIndex := st.cloudIndex + 1, merged := st.merged ++ [pc] }, false)
    | _, _ =>
      ({ st with heap := h1, toBeRemoved := toBeRemoved, merged := st.merged ++ [pc] }, false)
  else ({ st with heap := h1 }, true)

/-- Outcome of the cloud loop. -/
inductive LoopExit where
  | finished
  | returnedNull
deriving DecidableEq, Repr

/-- The cloud loop of `MergeEntitiesPy` from cloud number `i` on. -/
def mergeLoop (env : MergeEnv) (deleteOriginalClouds createSFcloudIndex : Bool) :
    List Nat → Nat → MergeState → MergeState × LoopExit
  | [], _, st => (st, .finished)
  | pc :: rest, i, st =>
    match st.firstCloud with
    | none =>
      match mergeFirst env deleteOriginalClouds createSFcloudIndex pc st with
      | (st1, true) => (st1, .returnedNull)
      | (st1, false) => mergeLoop env deleteOriginalClouds createSFcloudIndex rest (i + 1) st1
    | some fc =>
      match mergeNext env deleteOriginalClouds i pc fc st with
      | (st1, true) => (st1, .finished)
      | (st1, false) => mergeLoop env deleteOriginalClouds createSFcloudIndex rest (i + 1) st1

/-- The child leaves the children of its parent. -/
def dropChild (h : Heap) (parent child : Nat) : Heap :=
  match h.lookup parent with
  | some p => h.store parent { p with children := p.children.erase child }
  | none => h

/-- The child has no parent any more. -/
def clearParent (h : Heap) (child : Nat) : Heap :=
  match h.lookup child with
  | some c => h.store child { c with parent := none }
  | none => h

/-- Modelled from the spec: `removeChild` of the library detaches the child:
it leaves the children of its parent and has no parent any more. -/
def removeChild (h : Heap) (parent child : Nat) : Heap :=
  clearParent (dropChild h parent child) child

/-- The removal loop over the schedule: the heap it leaves and the fault, if
any, that ends it. `toRemove->getParent()` reads the scheduled node and
`removeChild` is called on its parent: when the node, or that parent, has
been destroyed (an entry met for the second time was deleted the first time)
the loop uses freed memory, and the heap is given as it stood then. -/
def removeScheduled (h : Heap) : List Nat → Heap × Option Fault
  | [] => (h, none)
  | toRemove :: rest =>
    match h.lookup toRemove with
    | none => (h, some .useAfterFree)
    | some o =>
      match o.parent with
      | some parent =>
        match h.lookup parent with
        | none => (h, some .useAfterFree)
        | some _ => removeScheduled (removeChild h parent toRemove) rest
      | none => removeScheduled (h.free toRemove) rest

/-- What a run of `MergeEntitiesPy` leaves behind: the returned pointer and
the heap, and for reference the removal schedule as it stood before the
removal loop, the clouds whose append passed the size test, and the calls made
to the mesh `merge` of the library (mesh and `createSubMeshes` flag), in
order. `fault` is set when the run leaves defined behaviour; what it returns
and leaves is then worth nothing, and the other fields describe the run up to
that point. -/
structure MergeResult where
  result : Option Nat
  heap : Heap
  scheduled : List Nat
  merged : List Nat
  meshMergeCalls : List (Nat × Bool)
  fault : Option Fault
deriving DecidableEq, Repr

/-- Modelled from the spec: `baseMesh->merge(mesh, createSubMeshes)` of the
library; on success the vertices and triangles of `mesh` are added. -/
def meshMerge (ok : Bool) (h : Heap) (baseMesh baseVertices mesh : Nat) : Heap :=
  if ok then
    match h.lookup baseMesh, h.lookup baseVertices, h.lookup mesh with
    | some bm, some bv, some m =>
      let added := match m.associatedCloud.bind h.lookup with
        | some v => v.points
        | none => []
      (h.store baseVertices { bv with points := bv.points ++ added }).store baseMesh
        { bm with triangles := bm.triangles + m.triangles }
    | _, _, _ => h
  else h

/-- The mesh loop of `MergeEntitiesPy` from mesh number `i` on, with the log
of the calls to `merge`. -/
def meshLoop (env : MergeEnv) (createSubMeshes : Bool) (baseMesh baseVertices : Nat) :
    List Nat → Nat → Heap → List (Nat × Bool) → Heap × List (Nat × Bool)
  | [], _, h, calls => (h, calls)
  | mesh :: rest, i, h, calls =>
    let calls1 := calls ++ [(mesh, createSubMeshes)]
    if env.meshMergeOk i then
      meshLoop env createSubMeshes baseMesh baseVertices rest (i + 1)
        (meshMerge true h baseMesh baseVertices mesh) calls1
    else (h, calls1)

/-- The mesh branch of `MergeEntitiesPy`. -/
def mergeMeshes (env : MergeEnv) (createSubMeshes : Bool) (h : Heap) (meshes : List Nat) :
    MergeResult :=
  let (h1, baseVertices) := h.alloc (newObject .POINT_CLOUD "vertices")
  let (h2, baseMesh) := h1.alloc
    { newObject .MESH "Mesh" with associatedCloud := some baseVertices }
  let h3 := match h2.lookup baseMesh with
    | some bm => h2.store baseMesh { bm with name := "Merged mesh" }
    | none => h2
  let h4 := match h3.lookup baseMesh, h3.lookup baseVertices with
    | some bm, some bv =>
      (h3.store baseMesh { bm with children := bm.children ++ [baseVertices] }).store
        baseVertices { bv with parent := some baseMesh }
    | _, _ => h3
  let h5 := match h4.lookup baseVertices with
    | some bv => h4.store baseVertices { bv with enabled := false }
    | none => h4
  let (h6, calls) := meshLoop env createSubMeshes baseMesh baseVertices meshes 0 h5 []
  let h7 := match h6.lookup baseMesh with
    | some bm => h6.store baseMesh { bm with visible := true }
    | none => h6
  { result := some baseMesh, heap := h7, scheduled := [], merged := [], meshMergeCalls := calls,
    fault := none }

/-- The state in which the cloud loop of `MergeEntitiesPy` starts. -/
def initialMergeState (h : Heap) : MergeState :=
  { heap := h, firstCloud := none, ocIndexSF := none, cloudIndex := 0, sfIdx := -1,
    toBeRemoved := [], merged := [] }

/-- The cloud branch of `MergeEntitiesPy`. -/
def mergeClouds (env : MergeEnv) (deleteOriginalClouds createSFcloudIndex : Bool)
    (h : Heap) (clouds : List Nat) : MergeResult :=
  match mergeLoop env deleteOriginalClouds createSFcloudIndex clouds 0 (initialMergeState h) with
  | (st, .returnedNull) =>
    { result := none, heap := st.heap, scheduled := st.toBeRemoved, merged := st.merged,
      meshMergeCalls := [], fault := none }
  | (st, .finished) =>
    let h1 := match st.ocIndexSF, st.firstCloud with
      | some _, some fc =>
        match st.heap.lookup fc with
        | some o => st.heap.store fc { o with currentDisplayedSF := st.sfIdx, sfShown := true }
        | none => st.heap
      | _, _ => st.heap
    let removed := if deleteOriginalClouds then removeScheduled h1 st.toBeRemoved else (h1, none)
    { result := st.firstCloud, heap := removed.1, scheduled := st.toBeRemoved,
      merged := st.merged, meshMergeCalls := [], fault := removed.2 }

/-- `MergeEntitiesPy(entities, deleteOriginalClouds, createSFcloudIndex,
createSubMeshes)` on the heap `h`. -/
def MergeEntitiesPy (env : MergeEnv) (h : Heap) (entities : List (Option Nat))
    (deleteOriginalClouds createSFcloudIndex createSubMeshes : Bool) : MergeResult :=
  match classify env h entities 0 [] [] with
  | none =>
    { result := none, heap := h, scheduled := [], merged := [], meshMergeCalls := [],
      fault := none }
  | some (clouds, meshes) =>
    if clouds.isEmpty && meshes.isEmpty then
      { result := none, heap := h, scheduled := [], merged := [], meshMergeCalls := [],
        fault := none }
    else if !clouds.isEmpty then
      mergeClouds env deleteOriginalClouds createSFcloudIndex h clouds
    else
      mergeMeshes env createSubMeshes h meshes

/-! ## ExtractSlicesAndContours_py: the envelope type -/

/-- `Envelope_Type`. -/
inductive Envelope_Type where
  | LOWER
  | UPPER
  | FULL
deriving DecidableEq, Repr

/-- `Envelope_Type val[3] = {LOWER, UPPER, FULL}`. -/
def val : List Envelope_Type := [.LOWER, .UPPER, .FULL]

/-- The two saturation tests on `envelopeType`, in the order of the source. -/
def saturateEnvelopeType (envelopeType : Int) : Int :=
  let envelopeType := if envelopeType < 0 then 0 else envelopeType
  if envelopeType > 2 then 2 else envelopeType

/-- `envelType = val[envelopeType]` after the saturation; `none` would be a
read outside the table. -/
def envelType (envelopeType : Int) : Option Envelope_Type :=
  let k := saturateEnvelopeType envelopeType
  if 0 ≤ k then val[k.toNat]? else none

/-- The clamp of the specification: `clamp(x, lo, hi)`. -/
def clamp (x lo hi : Int) : Int := max lo (min x hi)

/-! ## createComponentsClouds_ -/

/-- `ReferenceCloud`: a selection of points of a cloud by their indices. -/
structure ReferenceCloud where
  indices : List Nat
deriving DecidableEq, Repr

/-- `ReferenceCloud::size()`. -/
def ReferenceCloud.size (r : ReferenceCloud) : Nat := r.indices.length

/-- `ReferenceCloud::addPointIndex(globalIndex)` when it has the memory. -/
def ReferenceCloud.addPointIndex (r : ReferenceCloud) (globalIndex : Nat) : ReferenceCloud :=
  ⟨r.indices ++ [globalIndex]⟩

/-- `ComponentIndexAndSize`. -/
structure ComponentIndexAndSize where
  index : Nat
  size : Nat
deriving DecidableEq, Repr

/-- `ComponentIndexAndSize::DescendingCompOperator`. -/
def ComponentIndexAndSize.DescendingCompOperator (a b : ComponentIndexAndSize) : Bool :=
  decide (a.size > b.size)

/-- Outcomes of the library calls and allocations of one run of
`createComponentsClouds_`. `reserveOk`: `sortedIndexes.reserve` does not throw.
`ParallelSort`: what `ParallelSort(begin, end, DescendingCompOperator)` leaves
in `sortedIndexes`. `cloneOk i`: the clone made in iteration `i` of the main
loop is not null. `addPointIndexOk i k`: `addPointIndex(k)` in iteration `i`
returns true. `residualCloneOk`: the clone of the residual selection is not
null. `Random k`: the colour drawn for the kept cloud number `k`. -/
structure CreateEnv where
  reserveOk : Bool
  ParallelSort : List ComponentIndexAndSize → List ComponentIndexAndSize
  cloneOk : Nat → Bool
  addPointIndexOk : Nat → Nat → Bool
  residualCloneOk : Bool
  Random : Nat → Nat

/-- What the standard asks of a sort with comparator `comp`: the result is a
rearrangement of the input in which no later element goes before an earlier
one according to `comp`. Nothing is asked about elements that `comp` does not
order. -/
def SortsBy (comp : ComponentIndexAndSize → ComponentIndexAndSize → Bool)
    (sort : List ComponentIndexAndSize → List ComponentIndexAndSize) : Prop :=
  ∀ l, (sort l).Perm l ∧ (sort l).Pairwise (fun a b => comp b a = false)

/-- The points a selection picks in a cloud. -/
def selectPoints (src : ccHObject) (sel : ReferenceCloud) : List Point :=
  sel.indices.map (fun k => src.points.getD k 0)

/-- Modelled from the spec: `partialClone(selection)` of the library, a new
cloud with the selected points, the scalar fields restricted to them and the
colour of the source. -/
def partialClone (src : ccHObject) (sel : ReferenceCloud) : ccHObject :=
  { newObject .POINT_CLOUD src.name with
    points := selectPoints src sel,
    scalarFields := src.scalarFields.map
      (fun sf => { sf with values := sel.indices.map (fun k => sf.values.getD k .nan) }),
    color := src.color }

/-- Modelled from the spec: `ccPointCloud::From(selection)` of the library, a
new cloud with the selected points. -/
def ccPointCloud.From (src : ccHObject) (sel : ReferenceCloud) : ccHObject :=
  { newObject .POINT_CLOUD "Cloud" with points := selectPoints src sel }

/-- `pc ? pc->partialClone(sel) : ccPointCloud::From(sel)`, where `pc` is the
cloud when it is exactly a point cloud. -/
def cloneSelection (cloud : ccHObject) (sel : ReferenceCloud) : ccHObject :=
  if cloud.classId == .POINT_CLOUD then partialClone cloud sel else ccPointCloud.From cloud sel

/-- The order in which the main loop visits the components: position `i`
holds the index of the component taken in iteration `i`. -/
def visitOrder (env : CreateEnv) (components : List ReferenceCloud) (sortBysize : Bool) :
    List Nat :=
  if sortBysize && env.reserveOk then
    let sortedIndexes :=
      (List.range components.length).map (fun i => ComponentIndexAndSize.mk i (components.getD i ⟨[]⟩).size)
    (env.ParallelSort sortedIndexes).map (fun s => s.index)
  else List.range components.length

/-- The loop over the points of a small component, with `n` iterations left
from point `k` on: `refCloud->addPointIndex(k)`, which dereferences
`refCloud`; on failure the selection is deleted, set to null, and the loop
left. -/
def addSmall (ok : Nat → Bool) : Nat → Nat → Option ReferenceCloud →
    Except Fault (Option ReferenceCloud)
  | 0, _, refCloud => .ok refCloud
  | _ + 1, _, none => .error .nullDereference
  | n + 1, k, some r =>
    if ok k then addSmall ok n (k + 1) (some (r.addPointIndex k)) else .ok none

/-- The state of the main loop of `createComponentsClouds_`. -/
structure CreateState where
  resultClouds : List ccHObject
  refCloud : Option ReferenceCloud
  nbComp : Nat
deriving DecidableEq, Repr

/-- `setName(QString("CC#%1").arg(nbComp))`. -/
def componentName (nbComp : Nat) : String := "CC#" ++ toString nbComp

/-- The main loop of `createComponentsClouds_` from iteration `i` on; the
list holds the component indices still to visit. -/
def createLoop (env : CreateEnv) (cloud : ccHObject) (components : List ReferenceCloud)
    (minPointsPerComponent : Nat) (randomColors : Bool) :
    List Nat → Nat → CreateState → Except Fault CreateState
  | [], _, st => .ok st
  | c :: rest, i, st =>
    match components[c]? with
    | none => .error .outOfRange
    | some compIndexes =>
      if compIndexes.size ≥ minPointsPerComponent then
        if env.cloneOk i then
          let compCloud := cloneSelection cloud compIndexes
          let compCloud :=
            if randomColors then { compCloud with color := some (env.Random st.nbComp) }
            else compCloud
          let compCloud := { compCloud with name := componentName st.nbComp }
          createLoop env cloud components minPointsPerComponent randomColors rest (i + 1)
            { st with resultClouds := st.resultClouds ++ [compCloud], nbComp := st.nbComp + 1 }
        else
          createLoop env cloud components minPointsPerComponent randomColors rest (i + 1) st
      else
        match addSmall (env.addPointIndexOk i) compIndexes.size 0 st.refCloud with
        | .error f => .error f
        | .ok refCloud =>
          createLoop env cloud components minPointsPerComponent randomColors rest (i + 1)
            { st with refCloud := refCloud }

/-- `createComponentsClouds_(cloud, components, minPointsPerComponent,
randomColors, sortBysize)`: the kept clouds and the residual clouds; a null
entry of the residuals is a failed clone. The numbers of components and of
points are taken to fit `unsigned`. -/
def createComponentsClouds_ (env : CreateEnv) (cloud : Option ccHObject)
    (components : List ReferenceCloud) (minPointsPerComponent : Nat)
    (randomColors sortBysize : Bool) :
    Except Fault (List ccHObject × List (Option ccHObject)) :=
  match cloud with
  | none => .ok ([], [])
  | some cloud =>
    if components.isEmpty then .ok ([], [])
    else
      let order := (visitOrder env components sortBysize).take components.length
      match createLoop env cloud components minPointsPerComponent randomColors order 0
          { resultClouds := [], refCloud := some ⟨[]⟩, nbComp := 0 } with
      | .error f => .error f
      | .ok st =>
        match st.refCloud with
        | some refCloud =>
          let residualCloud :=
            if env.residualCloneOk then some (cloneSelection cloud refCloud) else none
          .ok (st.resultClouds, [residualCloud])
        | none => .ok (st.resultClouds, [])

/-! ## ExtractConnectedComponents_py -/

/-- `CC_CONNECTED_COMPONENTS_DEFAULT_LABEL_NAME`. -/
def CC_CONNECTED_COMPONENTS_DEFAULT_LABEL_NAME : String := "CC labels"

/-- Conversion of an `int` to `unsigned`, as in the comparison of a size with
`minComponentSize` and in the call of `createComponentsClouds_`. -/
def toUnsigned (i : Int) : Nat := (i % 4294967296).toNat

/-- Outcomes of the library calls made for cloud number `i` of one run of
`ExtractConnectedComponents_py`. `computeOctreeOk i`: `computeOctree` gives an
octree. `addScalarFieldOk i`: `addScalarField` can allocate.
`labelConnectedComponents i`: the count returned by the labelling, negative on
failure. `extractConnectedComponents i`: the components left in `components`
by the extraction. `create i`: the environment of the call of
`createComponentsClouds_`. -/
structure CCEnv where
  computeOctreeOk : Nat → Bool
  addScalarFieldOk : Nat → Bool
  labelConnectedComponents : Nat → Int
  extractConnectedComponents : Nat → List ReferenceCloud
  create : Nat → CreateEnv

/-- A value inside the returned tuple: an integer or a list of clouds (a null
pointer is `none`). -/
inductive PyObject where
  | int (n : Int)
  | list (clouds : List (Option ccHObject))
deriving DecidableEq, Repr

/-- `py::tuple`. -/
abbrev PyTuple := List PyObject

/-- Modelled from the spec: `deleteScalarField(index)` of the library removes
the field of that index; an index out of range changes nothing. -/
def deleteScalarField (o : ccHObject) (index : Int) : ccHObject :=
  if 0 ≤ index ∧ index.toNat < o.scalarFields.length then
    { o with scalarFields := o.scalarFields.eraseIdx index.toNat,
             currentInSF := if o.currentInSF = index then -1 else o.currentInSF }
  else o

/-- The state of the loop over the clouds. -/
structure CCState where
  heap : Heap
  realComponentCount : Int
  nbCloudDone : Int
  resultComponents : List ccHObject
  residualComponents : List (Option ccHObject)
deriving DecidableEq, Repr

/-- How one iteration of the loop over the clouds ends. -/
inductive CCStep where
  | next (st : CCState)
  | stop (st : CCState)
  | ret (res : PyTuple) (heap : Heap)
deriving DecidableEq, Repr

/-- `py::make_tuple(nbCloudDone, resultComponents, residualComponents)`. -/
def tuple3 (st : CCState) : PyTuple :=
  [.int st.nbCloudDone, .list (st.resultComponents.map some), .list st.residualComponents]

/-- `py::make_tuple(nbCloudDone, resultComponents)`. -/
def tuple2 (st : CCState) : PyTuple :=
  [.int st.nbCloudDone, .list (st.resultComponents.map some)]

/-- The number of components of size at least `minComponentSize`, the
increment of `realComponentCount` in the safety test. -/
def countLarge (components : List ReferenceCloud) (minComponentSize : Int) : Nat :=
  components.countP (fun c => decide (c.size ≥ toUnsigned minComponentSize))

/-- One iteration of the loop over the clouds, for cloud number `i` at
address `cloud`. -/
def processCloud (env : CCEnv) (minComponentSize maxNumberComponents : Int)
    (randColors : Bool) (i cloud : Nat) (st : CCState) : Except Fault CCStep :=
  match st.heap.lookup cloud with
  | none => .ok (.next st)
  | some pc =>
    if pc.classId != .POINT_CLOUD then .ok (.next st)
    else if !pc.octree && !env.computeOctreeOk i then .ok (.stop st)
    else
      let acquired := acquireScalarField (env.addScalarFieldOk i) { pc with octree := true }
        CC_CONNECTED_COMPONENTS_DEFAULT_LABEL_NAME
      let sfIdx := acquired.2
      if sfIdx < 0 then .ok (.stop { st with heap := st.heap.store cloud acquired.1 })
      else
        let pc1 := { acquired.1 with currentInSF := sfIdx }
        let componentCount := env.labelConnectedComponents i
        let components := if componentCount ≥ 0 then env.extractConnectedComponents i else []
        let realComponentCount := st.realComponentCount + countLarge components minComponentSize
        let pc2 := deleteScalarField pc1 sfIdx
        if componentCount ≥ 0 ∧ realComponentCount > maxNumberComponents then
          .ok (.ret (tuple2 st) (st.heap.store cloud pc2))
        else
          let st1 := { st with heap := st.heap.store cloud pc2,
                               realComponentCount := realComponentCount }
          if components.isEmpty then .ok (.next { st1 with nbCloudDone := st.nbCloudDone + 1 })
          else
            match createComponentsClouds_ (env.create i) (some pc2) components
                (toUnsigned minComponentSize) randColors true with
            | .error f => .error f
            | .ok created =>
              .ok (.next { st1 with
                resultComponents := st.resultComponents ++ created.1,
                residualComponents := st.residualComponents ++ created.2,
                nbCloudDone := st.nbCloudDone + 1 })

/-- The heap an iteration leaves. -/
def CCStep.heap : CCStep → Heap
  | .next st => st.heap
  | .stop st => st.heap
  | .ret _ heap => heap

/-- The loop over the clouds from cloud number `i` on, then the final
`return`. -/
def ccLoop (env : CCEnv) (minComponentSize maxNumberComponents : Int) (randColors : Bool) :
    List Nat → Nat → CCState → Except Fault (PyTuple × Heap)
  | [], _, st => .ok (tuple3 st, st.heap)
  | cloud :: rest, i, st =>
    match processCloud env minComponentSize maxNumberComponents randColors i cloud st with
    | .error f => .error f
    | .ok (.next st1) => ccLoop env minComponentSize maxNumberComponents randColors rest (i + 1) st1
    | .ok (.stop st1) => .ok (tuple3 st1, st1.heap)
    | .ok (.ret res heap) => .ok (res, heap)

/-- `ExtractConnectedComponents_py(entities, octreeLevel, minComponentSize,
maxNumberComponents, randomColors)` on the heap `h`: the returned tuple and
the heap after the call. The octree level only reaches the labelling of the
library. -/
def ExtractConnectedComponents_py (env : CCEnv) (h : Heap) (entities : List Nat)
    (_octreeLevel minComponentSize maxNumberComponents : Int) (randomColors : Bool) :
    Except Fault (PyTuple × Heap) :=
  let st0 : CCState :=
    { heap := h, realComponentCount := 0, nbCloudDone := 0, resultComponents := [],
      residualComponents := [] }
  let clouds := entities.filter (fun entity => isKindOf h entity .POINT_CLOUD)
  if clouds.isEmpty then .ok (tuple3 st0, h)
  else ccLoop env minComponentSize maxNumberComponents randomColors clouds 0 st0

/-! ## Reference functions used to state the properties -/

/-- The components met by the main loop of `createComponentsClouds_` when it
follows `order`. -/
def visited (components : List ReferenceCloud) (order : List Nat) : List ReferenceCloud :=
  order.filterMap (fun c => components[c]?)

/-- The components for which the main loop of `createComponentsClouds_`,
following `order` from iteration `i` on, adds a kept cloud: those of size at
least `minPointsPerComponent` whose clone is not null. -/
def keptList (env : CreateEnv) (components : List ReferenceCloud) (minPointsPerComponent : Nat) :
    List Nat → Nat → List ReferenceCloud
  | [], _ => []
  | c :: rest, i =>
    match components[c]? with
    | none => keptList env components minPointsPerComponent rest (i + 1)
    | some comp =>
      if comp.size ≥ minPointsPerComponent ∧ env.cloneOk i = true then
        comp :: keptList env components minPointsPerComponent rest (i + 1)
      else keptList env components minPointsPerComponent rest (i + 1)

/-- The number of points of a cloud that may be null. -/
def pointCount (c : Option ccHObject) : Nat :=
  match c with
  | some o => o.points.length
  | none => 0

/-- Larger size first. -/
def sizeGe (a b : ComponentIndexAndSize) : Prop := a.size ≥ b.size

instance sizeGe.decidable : DecidableRel sizeGe :=
  fun a b => inferInstanceAs (Decidable (a.size ≥ b.size))

/-- Larger size first, and for equal sizes larger index first. -/
def sizeGeIndexGe (a b : ComponentIndexAndSize) : Prop :=
  a.size > b.size ∨ (a.size = b.size ∧ a.index ≥ b.index)

instance sizeGeIndexGe.decidable : DecidableRel sizeGeIndexGe :=
  fun a b => inferInstanceAs (Decidable (a.size > b.size ∨ (a.size = b.size ∧ a.index ≥ b.index)))

/-- A sort by decreasing size that keeps elements of equal size in their
order. -/
def stableSortDesc (l : List ComponentIndexAndSize) : List ComponentIndexAndSize :=
  l.insertionSort sizeGe

/-- A sort by decreasing size that puts elements of equal size in decreasing
order of index. -/
def tieReversingSort (l : List ComponentIndexAndSize) : List ComponentIndexAndSize :=
  l.insertionSort sizeGeIndexGe

/-- An environment of `createComponentsClouds_` in which nothing fails and
the sort is stable. -/
def okCreateEnv : CreateEnv :=
  { reserveOk := true, ParallelSort := stableSortDesc, cloneOk := fun _ => true,
    addPointIndexOk := fun _ _ => true, residualCloneOk := true, Random := fun k => k }

/-- The same with a sort that reverses ties. -/
def tieReversingEnv : CreateEnv := { okCreateEnv with ParallelSort := tieReversingSort }

/-- A cloud of seven points. -/
def sevenPoints : ccHObject :=
  { newObject .POINT_CLOUD "S" with points := [100, 101, 102, 103, 104, 105, 106] }

/-- Three components of `sevenPoints`, of sizes 2, 3 and 1. -/
def threeComponents : List ReferenceCloud := [⟨[0, 1]⟩, ⟨[2, 3, 4]⟩, ⟨[5]⟩]

/-- Two components of `sevenPoints` of the same size 2. -/
def twoEqualComponents : List ReferenceCloud := [⟨[0, 1]⟩, ⟨[2, 3]⟩]

/-- The cloud at an address carries a scalar field of that name. -/
def hasScalarField (h : Heap) (a : Nat) (name : String) : Bool :=
  match h.lookup a with
  | some o => o.scalarFields.any (fun sf => sf.name == name)
  | none => false

/-- An environment of `ExtractConnectedComponents_py` in which every cloud
has the two components of size 2 and no call fails. -/
def twoComponentsEnv : CCEnv :=
  { computeOctreeOk := fun _ => true, addScalarFieldOk := fun _ => true,
    labelConnectedComponents := fun _ => 2,
    extractConnectedComponents := fun _ => twoEqualComponents,
    create := fun _ => okCreateEnv }

/-- A heap with the cloud of seven points at address 0. -/
def sevenPointsHeap : Heap := [some sevenPoints]

/-- The field of the specification for clouds of the given sizes, numbered
from `s`: as many copies of `s` as the first size, then of `s + 1` as the
second, and so on. -/
def expectedIndexField : List Nat → Nat → List ScalarType
  | [], _ => []
  | n :: rest, s => List.replicate n (.val s) ++ expectedIndexField rest (s + 1)

/-- The number of distinct values of a list. -/
def distinctValues (l : List ScalarType) : Nat := l.dedup.length

/-- The object a run of `MergeEntitiesPy` returns, read in the heap it
leaves. -/
def MergeResult.cloud (r : MergeResult) : Option ccHObject :=
  r.result.bind r.heap.lookup

/-- The values of the scalar field of that name of an object. -/
def fieldValues (o : ccHObject) (name : String) : Option (List ScalarType) :=
  (o.scalarFields.find? (fun sf => sf.name == name)).map (fun sf => sf.values)

/-- Every scalar field of the cloud at `a` has one value for each point, as
the data model asks. -/
def wellFormedCloud (h : Heap) (a : Nat) : Bool :=
  match h.lookup a with
  | some o => o.scalarFields.all (fun sf => sf.values.length == o.points.length)
  | none => true

/-- The accumulator after the clouds of sizes `blocks` have been merged, seen
just after the library has appended `m` more points: it is a point cloud
with all these points; its field of index `k` is the first one named
`Original cloud index` and starts with the values for `blocks`. -/
def AccAppended (o : ccHObject) (k : Nat) (blocks : List Nat) (m : Nat) : Prop :=
  o.classId = .POINT_CLOUD ∧ o.points.length = blocks.sum + m ∧
    (∃ sf X, o.scalarFields[k]? = some sf ∧ sf.name = CC_ORIGINAL_CLOUD_INDEX_SF_NAME ∧
      sf.values = expectedIndexField blocks 0 ++ X) ∧
    ∀ j, j < k → ∀ s, o.scalarFields[j]? = some s →
      (s.name == CC_ORIGINAL_CLOUD_INDEX_SF_NAME) = false

/-- The accumulator between two iterations of the cloud loop, after the
clouds of sizes `blocks` have been merged. -/
def AccState (o : ccHObject) (k : Nat) (blocks : List Nat) : Prop :=
  o.classId = .POINT_CLOUD ∧ o.points.length = blocks.sum ∧
    (∃ sf, o.scalarFields[k]? = some sf ∧ sf.name = CC_ORIGINAL_CLOUD_INDEX_SF_NAME ∧
      sf.values = expectedIndexField blocks 0) ∧
    ∀ j, j < k → ∀ s, o.scalarFields[j]? = some s →
      (s.name == CC_ORIGINAL_CLOUD_INDEX_SF_NAME) = false

/-- The invariant of the cloud loop of `MergeEntitiesPy` run on the heap `h`
with the index field requested: `fc` is the accumulator, `k` the index of its
field, `blocks` the sizes of the clouds merged so far; the objects of `h`
other than the accumulator are as they were, and the accumulator is not
scheduled for removal. -/
def MergeInv (h : Heap) (fc k : Nat) (blocks : List Nat) (st : MergeState) : Prop :=
  st.firstCloud = some fc ∧ st.ocIndexSF = some k ∧ st.cloudIndex + 1 = blocks.length ∧
    (∃ o, st.heap.lookup fc = some o ∧ AccState o k blocks) ∧
    (∀ a, a ≠ fc → a < h.length → st.heap.lookup a = h.lookup a) ∧
    (∀ x ∈ st.toBeRemoved, x ≠ fc) ∧ h.length ≤ st.heap.length

/-- The address of the accumulator: the first cloud itself when the originals
are consumed, else its clone, allocated first. -/
def accumulatorOf (h : Heap) (deleteOriginalClouds : Bool) (c0 : Nat) : Nat :=
  if deleteOriginalClouds then c0 else h.length

/-- The points and scalar fields of an object that may be absent. -/
def cloudData (o : Option ccHObject) : Option (List Point × List ScalarField) :=
  o.map (fun c => (c.points, c.scalarFields))

/-- An environment of `createComponentsClouds_` in which the clone made in
iteration 1 of the main loop fails. -/
def secondCloneFailsEnv : CreateEnv := { okCreateEnv with cloneOk := fun i => i != 1 }

/-- A heap with two clouds of seven points, at addresses 0 and 1. -/
def twoCloudsHeap : Heap := [some sevenPoints, some { sevenPoints with name := "T" }]

/-- An environment of `ExtractConnectedComponents_py` in which the octree of
the first cloud cannot be computed and nothing else fails. -/
def firstOctreeFailsEnv : CCEnv := { twoComponentsEnv with computeOctreeOk := fun i => i != 0 }

/-- The entities of the input that are exactly point clouds. -/
def cloudsOnly (h : Heap) (entities : List (Option Nat)) : List (Option Nat) :=
  entities.filter (fun e =>
    match e with
    | some a => isA h a .POINT_CLOUD
    | none => false)

/-- A heap with a cloud at 0, and at 2 a mesh on the vertices at 1. -/
def meshHeap : Heap :=
  [ some { newObject .POINT_CLOUD "A" with points := [10, 11] },
    some { newObject .POINT_CLOUD "vertices" with parent := some 2, points := [20, 21, 22] },
    some { newObject .MESH "M" with children := [1], associatedCloud := some 1, triangles := 1 } ]

/-- The heap `g` holds every cell of the heap `h` as it is in `h`: what has
been done since `h` allocated objects or wrote to new objects only. -/
def Extends (h g : Heap) : Prop :=
  h.length ≤ g.length ∧ ∀ a, a < h.length → g.lookup a = h.lookup a

/-- The place of an object in the tree: its class, its parent and its
children. -/
def treeData (o : Option ccHObject) : Option (CC_TYPES × Option Nat × List Nat) :=
  o.map (fun c => (c.classId, c.parent, c.children))

/-- The heaps `h` and `g` hold the same tree: the same cells, and in each the
same class, parent and children. -/
def TreeEq (h g : Heap) : Prop :=
  g.length = h.length ∧ ∀ a, treeData (g.lookup a) = treeData (h.lookup a)

/-- No object of the heap lists a child twice. -/
def childrenNodup (h : Heap) : Bool :=
  h.all (fun c =>
    match c with
    | some o => decide o.children.Nodup
    | none => true)

/-- The schedule built by handing to `AddToRemoveListPy`, for each cloud of
the list in turn, the node chosen for it on the heap `h`. -/
def scheduleOf (h : Heap) (merged : List Nat) : List Nat :=
  merged.foldl (fun l c => AddToRemoveListPy h (selectToRemove h c) l) []

/-- The children of the object at an address, if there is one. -/
def childrenOf (h : Heap) (a : Nat) : Option (List Nat) :=
  (h.lookup a).map (fun o => o.children)

/-- The size invariant of the cloud loop of `MergeEntitiesPy` run on the heap
`h`, for every setting of the flags: `fc` is the accumulator, it has as many
points as the clouds of sizes `blocks` merged so far, and the objects of `h`
other than the accumulator are as they were. -/
def SizeInv (h : Heap) (fc : Nat) (blocks : List Nat) (st : MergeState) : Prop :=
  st.firstCloud = some fc ∧
    (∃ o, st.heap.lookup fc = some o ∧ o.points.length = blocks.sum) ∧
    (∀ a, a ≠ fc → a < h.length → st.heap.lookup a = h.lookup a) ∧
    h.length ≤ st.heap.length

/-- The counting invariant of the loop over the clouds: the kept components
gathered so far are not more than `realComponentCount`, which is not more than
the maximum. -/
def CountInv (maxNumberComponents : Int) (st : CCState) : Prop :=
  (st.resultComponents.length : Int) ≤ st.realComponentCount ∧
    st.realComponentCount ≤ maxNumberComponents

/-- What the counting invariant gives for the outcome of one iteration begun
in the state `st`. -/
def StepCount (maxNumberComponents : Int) (st : CCState) : CCStep → Prop
  | .next st1 => CountInv maxNumberComponents st1
  | .stop st1 => CountInv maxNumberComponents st1
  | .ret res _ => res = tuple2 st

/-- An environment of `createComponentsClouds_` in which `addPointIndex` fails
for the second point of the component visited in iteration 1 and nothing else
fails. -/
def secondAddFailsEnv : CreateEnv :=
  { okCreateEnv with addPointIndexOk := fun i k => !(i == 1 && k == 1) }

/-- The entity is a mesh that `MergeEntitiesPy` can merge: not null, a kind
of mesh, with standard vertices. -/
def mergeableMesh (h : Heap) (e : Option Nat) : Bool :=
  match e with
  | some m => isKindOf h m .MESH && hasStandardVertices h m
  | none => false

/-- What the mesh branch of `MergeEntitiesPy` builds at the two addresses
that follow the `n` cells of the heap it was given: at `n + 1` a mesh named
`Merged mesh` on the vertices at `n`, its only child, and at `n` a cloud named
`vertices`, disabled, with the mesh as parent. -/
def MergedMesh (n : Nat) (g : Heap) : Prop :=
  ∃ bm bv, g.lookup (n + 1) = some bm ∧ g.lookup n = some bv ∧
    bm.classId = .MESH ∧ bm.name = "Merged mesh" ∧ bm.associatedCloud = some n ∧
    bm.children = [n] ∧ bv.classId = .POINT_CLOUD ∧ bv.name = "vertices" ∧
    bv.parent = some (n + 1) ∧ bv.enabled = false

/-- A heap with two meshes, at 1 and 3, on the vertices at 0 and 2. -/
def twoMeshesHeap : Heap :=
  [ some { newObject .POINT_CLOUD "v1" with parent := some 1, points := [1, 2, 3] },
    some { newObject .MESH "M1" with children := [0], associatedCloud := some 0, triangles := 1 },
    some { newObject .POINT_CLOUD "v2" with parent := some 3, points := [4, 5, 6] },
    some { newObject .MESH "M2" with children := [2], associatedCloud := some 2, triangles := 1 } ]

/-- Every object that has a parent is listed among the children of that
parent: the parent links and the children lists describe one tree. -/
def childrenListed (h : Heap) : Bool :=
  (List.range h.length).all (fun a =>
    match getParent h a with
    | some p =>
      match h.lookup p with
      | some o => o.children.contains a
      | none => false
    | none => true)

/-- The spacing of the 32-bit floats around `n`, for `n` from 2^24 on: 2
below 2^25, 4 below 2^26, and so on. The first argument bounds the number of
halvings; 64 is enough for a `size_t`. -/
def ulpFloat32 : Nat → Nat → Nat
  | 0, _ => 1
  | fuel + 1, n => if n < 16777216 then 1 else 2 * ulpFloat32 fuel (n / 2)

/-- The value of `static_cast<float>(n)` for a `size_t` `n`: `n` itself up to
2^24; beyond, the nearest multiple of the spacing of the floats around `n`,
the even one of the two when `n` is half-way. -/
def castFloat32 (n : Nat) : Nat :=
  if n ≤ 16777216 then n
  else
    let ulp := ulpFloat32 64 n
    let q := n / ulp
    let r := n % ulp
    if 2 * r < ulp ∨ (2 * r = ulp ∧ q % 2 = 0) then q * ulp else (q + 1) * ulp

/-- No entry of the list is an ancestor of another entry. -/
def Antichain (h : Heap) (l : List Nat) : Prop :=
  l.Pairwise (fun a b => isAncestorOf h a b = false ∧ isAncestorOf h b a = false)

/-- No cloud of the list is an ancestor of the first one. -/
def FrontOnTop (h : Heap) (clouds : List Nat) : Prop :=
  ∀ front, clouds.head? = some front → ∀ c ∈ clouds, isAncestorOf h c front = false

/-- A heap with three clouds on one chain: 0 is the parent of 1, 1 the parent
of 2; 3 is a group with the cloud 4 as only child; 5 is a cloud without
parent, and so is 6, which has no point. -/
def chainHeap : Heap :=
  [ some { newObject .POINT_CLOUD "A" with children := [1], points := [10, 11] },
    some { newObject .POINT_CLOUD "B" with parent := some 0, children := [2], points := [20] },
    some { newObject .POINT_CLOUD "C" with parent := some 1, points := [30, 31, 32] },
    some { newObject .HIERARCHY_OBJECT "G" with children := [4] },
    some { newObject .POINT_CLOUD "D" with parent := some 3, points := [40, 41] },
    some { newObject .POINT_CLOUD "E" with points := [50] },
    some (newObject .POINT_CLOUD "F") ]

/-- An environment in which no library call fails and `ScalarType` is the
default `float`. -/
def okEnv : MergeEnv :=
  { badAlloc := fun _ => false, addScalarFieldOk := true, appendOk := fun _ => true,
    meshMergeOk := fun _ => true, castIndex := castFloat32 }

/-- An environment in which the append of the cloud number 2 lacks memory
and nothing else fails. -/
def secondAppendFailsEnv : MergeEnv := { okEnv with appendOk := fun i => i != 2 }

/-- An environment in which the append of the cloud number 3 lacks memory
and nothing else fails. -/
def thirdAppendFailsEnv : MergeEnv := { okEnv with appendOk := fun i => i != 3 }

/-- An environment in which the merge of the first mesh fails. -/
def firstMeshFailsEnv : MergeEnv := { okEnv with meshMergeOk := fun i => i != 0 }

theorem nthParent_add (h : Heap) (m n x : Nat) :
    nthParent h (m + n) x = (nthParent h m x).bind (nthParent h n) := by
  induction m generalizing x with
  | zero => simp [nthParent]
  | succ m ih =>
    rw [Nat.succ_add]
    simp only [nthParent]
    cases getParent h x with
    | none => rfl
    | some p => simpa using ih p

theorem nthParent_none_of_le (h : Heap) (m n x : Nat) (hmn : m ≤ n)
    (hm : nthParent h m x = none) : nthParent h n x = none := by
  obtain ⟨d, rfl⟩ := Nat.exists_eq_add_of_le hmn
  rw [nthParent_add, hm]
  rfl

theorem isAncestorOfAux_iff (h : Heap) (s fuel x : Nat) :
    isAncestorOfAux h s fuel x = true ↔ ∃ k, k < fuel ∧ nthParent h (k + 1) x = some s := by
  induction fuel generalizing x with
  | zero => simp [isAncestorOfAux]
  | succ fuel ih =>
    simp only [isAncestorOfAux, nthParent]
    cases hp : getParent h x with
    | none => simp
    | some p =>
      by_cases hps : p = s
      · simp only [hps, if_true, true_iff]
        exact ⟨0, Nat.succ_pos _, by simp [nthParent]⟩
      · simp only [hps, if_false, ih, Option.some_bind]
        constructor
        · rintro ⟨k, hk, hk2⟩
          exact ⟨k + 1, Nat.succ_lt_succ hk, by simpa [nthParent] using hk2⟩
        · rintro ⟨k, hk, hk2⟩
          cases k with
          | zero => simp [nthParent] at hk2; exact absurd hk2 hps
          | succ k => exact ⟨k, Nat.lt_of_succ_lt_succ hk, by simpa [nthParent] using hk2⟩

theorem nthParent_end (h : Heap) (hac : acyclic h = true) (a : Nat) :
    nthParent h (h.length + 1) a = none := by
  by_cases ha : a < h.length
  · have := List.all_eq_true.mp hac a (List.mem_range.mpr ha)
    simpa using this
  · have hl : h.lookup a = none := by
      simp [Heap.lookup, List.getElem?_eq_none (Nat.le_of_not_lt ha)]
    simp [nthParent, getParent, hl]

theorem isAncestorOf_iff (h : Heap) (hac : acyclic h = true) (s x : Nat) :
    isAncestorOf h s x = true ↔ ∃ k, nthParent h (k + 1) x = some s := by
  unfold isAncestorOf
  rw [isAncestorOfAux_iff]
  constructor
  · rintro ⟨k, _, hk⟩
    exact ⟨k, hk⟩
  · rintro ⟨k, hk⟩
    refine ⟨k, ?_, hk⟩
    by_contra hlt
    have := nthParent_none_of_le h (h.length + 1) (k + 1) x (by omega) (nthParent_end h hac x)
    rw [this] at hk
    exact Option.noConfusion hk

/-- On an acyclic heap `isAncestorOf` is transitive. -/
theorem isAncestorOf_trans (h : Heap) (hac : acyclic h = true) (a b c : Nat)
    (hab : isAncestorOf h a b = true) (hbc : isAncestorOf h b c = true) :
    isAncestorOf h a c = true := by
  rw [isAncestorOf_iff h hac] at *
  obtain ⟨j, hj⟩ := hab
  obtain ⟨k, hk⟩ := hbc
  refine ⟨k + 1 + j, ?_⟩
  have := nthParent_add h (k + 1) (j + 1) c
  rw [hk] at this
  simpa [hj, Nat.add_assoc] using this

theorem nthParent_cycle (h : Heap) (k x : Nat) (hk : nthParent h k x = some x) (m : Nat) :
    nthParent h (k * m) x = some x := by
  induction m with
  | zero => simp [nthParent]
  | succ m ih =>
    rw [Nat.mul_succ, nthParent_add, ih]
    simpa using hk

/-- On an acyclic heap no node is its own ancestor. -/
theorem isAncestorOf_irrefl (h : Heap) (hac : acyclic h = true) (x : Nat) :
    isAncestorOf h x x = false := by
  cases hx : isAncestorOf h x x with
  | false => rfl
  | true =>
    obtain ⟨k, hk⟩ := (isAncestorOf_iff h hac x x).mp hx
    have h1 := nthParent_cycle h (k + 1) x hk (h.length + 1)
    have h2 := nthParent_none_of_le h (h.length + 1) ((k + 1) * (h.length + 1)) x
      (Nat.le_mul_of_pos_left _ (Nat.succ_pos k)) (nthParent_end h hac x)
    rw [h2] at h1
    exact Option.noConfusion h1

/-! ## Classification pass of MergeEntitiesPy -/

theorem pushCloud_nil (h : Heap) (cloud : Nat) : pushCloud h [] cloud = [cloud] := by
  simp [pushCloud]

theorem pushCloud_cons (h : Heap) (f : Nat) (t : List Nat) (cloud : Nat) :
    pushCloud h (f :: t) cloud =
      if isAncestorOf h cloud f then cloud :: (t ++ [f]) else f :: (t ++ [cloud]) := by
  have hlast : (f :: (t ++ [cloud])).getLast? = some cloud := by
    rw [← List.cons_append, List.getLast?_append]
    rfl
  simp [pushCloud, swapFrontBack, hlast]

theorem pushCloud_frontOnTop (h : Heap) (hac : acyclic h = true) (clouds : List Nat)
    (cloud : Nat) (inv : FrontOnTop h clouds) : FrontOnTop h (pushCloud h clouds cloud) := by
  cases clouds with
  | nil =>
    rw [pushCloud_nil]
    intro front hf c hc
    simp at hf hc
    subst hf; subst hc
    exact isAncestorOf_irrefl h hac _
  | cons f t =>
    rw [pushCloud_cons]
    have invf := inv f rfl
    by_cases hanc : isAncestorOf h cloud f = true
    · simp only [hanc, if_true]
      intro front hf c hc
      simp at hf
      subst hf
      cases hcf : isAncestorOf h c cloud with
      | false => rfl
      | true =>
        have hcf2 := isAncestorOf_trans h hac c cloud f hcf hanc
        simp at hc
        rcases hc with rfl | hc | rfl
        · rw [isAncestorOf_irrefl h hac] at hcf
          exact absurd hcf (by simp)
        · rw [invf c (List.mem_cons_of_mem _ hc)] at hcf2
          exact absurd hcf2 (by simp)
        · rw [isAncestorOf_irrefl h hac] at hcf2
          exact absurd hcf2 (by simp)
    · simp only [hanc, if_false]
      intro front hf c hc
      simp at hf
      subst hf
      simp at hc
      rcases hc with rfl | hc | rfl
      · exact invf _ (List.mem_cons_self _ _)
      · exact invf c (List.mem_cons_of_mem _ hc)
      · simpa using hanc

theorem classify_frontOnTop (env : MergeEnv) (h : Heap) (hac : acyclic h = true)
    (entities : List (Option Nat)) (i : Nat) (clouds meshes : List Nat)
    (inv : FrontOnTop h clouds) (res : List Nat × List Nat)
    (hres : classify env h entities i clouds meshes = some res) : FrontOnTop h res.1 := by
  induction entities generalizing i clouds meshes with
  | nil =>
    simp [classify] at hres
    subst hres
    exact inv
  | cons e rest ih =>
    cases e with
    | none => exact ih _ _ _ inv (by simpa [classify] using hres)
    | some entity =>
      simp only [classify] at hres
      split at hres
      · split at hres
        · exact Option.noConfusion hres
        · exact ih _ _ _ (pushCloud_frontOnTop h hac clouds entity inv) hres
      · split at hres
        · split at hres
          · split at hres
            · exact Option.noConfusion hres
            · exact ih _ _ _ inv hres
          · exact ih _ _ _ inv hres
        · exact ih _ _ _ inv hres

/-- C2: on an acyclic object tree, whatever the input list, no cloud of the
list built by the classification pass of `MergeEntitiesPy` is an ancestor of
its first cloud, the accumulator. -/
theorem classify_accumulator_not_below (env : MergeEnv) (h : Heap)
    (entities : List (Option Nat)) (clouds meshes : List Nat) (front : Nat)
    (hac : acyclic h = true)
    (hres : classify env h entities 0 [] [] = some (clouds, meshes))
    (hfront : clouds.head? = some front) :
    ∀ c ∈ clouds, isAncestorOf h c front = false :=
  classify_frontOnTop env h hac entities 0 [] []
    (by intro f hf; simp at hf) (clouds, meshes) hres front hfront

/-- Witness of C2: the three clouds of the chain, deepest first, end with the
topmost one in front. -/
theorem classify_accumulator_not_below_witness :
    classify okEnv chainHeap [some 2, some 1, some 0] 0 [] [] = some ([0, 2, 1], []) ∧
      ∀ c ∈ [0, 2, 1], isAncestorOf chainHeap c 0 = false :=
  ⟨by decide,
    classify_accumulator_not_below okEnv chainHeap [some 2, some 1, some 0] [0, 2, 1] [] 0
      (by decide) (by decide) (by decide)⟩

/-! ## AddToRemoveListPy keeps the schedule an antichain -/

theorem swapRemove_last (l1 : List Nat) (e : Nat) :
    swapRemove (l1 ++ [e]) l1.length = l1 := by
  simp [swapRemove]

theorem swapRemove_inner (l1 l2 : List Nat) (e b : Nat) :
    swapRemove (l1 ++ e :: (l2 ++ [b])) l1.length = l1 ++ b :: l2 := by
  have hlast : (l1 ++ e :: (l2 ++ [b])).getLast? = some b := by
    rw [← List.cons_append, ← List.append_assoc, List.getLast?_append]
    rfl
  have hset : (l1 ++ e :: (l2 ++ [b])).set l1.length b = l1 ++ b :: (l2 ++ [b]) := by
    rw [List.set_append_right _ _ (Nat.le_refl _)]
    simp
  simp only [swapRemove, hlast, hset]
  rw [← List.cons_append, ← List.append_assoc, List.dropLast_concat]

theorem split_at_index (l : List Nat) (j e : Nat) (hj : l[j]? = some e) :
    l = l.take j ++ e :: l.drop (j + 1) ∧ (l.take j).length = j := by
  obtain ⟨hlt, he⟩ := List.getElem?_eq_some.mp hj
  refine ⟨?_, by simp [Nat.le_of_lt hlt]⟩
  conv_lhs => rw [← List.take_append_drop j l, List.drop_eq_getElem_cons hlt, he]

theorem antichain_swapRemove (h : Heap) (l1 l2 : List Nat) (e : Nat)
    (ha : Antichain h (l1 ++ e :: l2)) : Antichain h (swapRemove (l1 ++ e :: l2) l1.length) := by
  have hsub : Antichain h (l1 ++ l2) :=
    List.Pairwise.sublist (List.Sublist.append_left (List.sublist_cons_self e l2) l1) ha
  rcases List.eq_nil_or_concat l2 with rfl | ⟨l2a, b, rfl⟩
  · rw [swapRemove_last]
    simpa [Antichain] using hsub
  · rw [List.concat_eq_append] at *
    rw [swapRemove_inner]
    have hperm : (l1 ++ (l2a ++ [b])).Perm (l1 ++ b :: l2a) :=
      List.Perm.append_left l1 (by simp)
    exact (List.Perm.pairwise_iff (fun hxy => ⟨hxy.2, hxy.1⟩) hperm).mp hsub

theorem take_swapRemove (l1 l2 : List Nat) (e : Nat) :
    (swapRemove (l1 ++ e :: l2) l1.length).take l1.length = l1 ∧
      (swapRemove (l1 ++ e :: l2) l1.length).length = (l1 ++ l2).length := by
  rcases List.eq_nil_or_concat l2 with rfl | ⟨l2a, b, rfl⟩
  · rw [swapRemove_last]
    simp
  · rw [List.concat_eq_append, swapRemove_inner]
    simp

theorem antichain_push (h : Heap) (l : List Nat) (c : Nat) (ha : Antichain h l)
    (hc : ∀ e ∈ l, isAncestorOf h e c = false ∧ isAncestorOf h c e = false) :
    Antichain h (l ++ [c]) := by
  unfold Antichain
  rw [List.pairwise_append]
  refine ⟨ha, List.pairwise_singleton _ _, ?_⟩
  intro a hal b hb
  simp at hb
  subst hb
  exact hc a hal

theorem run_antichain (h : Heap) (c : Nat) (n j : Nat) (l : List Nat)
    (hlen : l.length ≤ j + n) (ha : Antichain h l)
    (hchk : ∀ e ∈ l.take j, isAncestorOf h e c = false ∧ isAncestorOf h c e = false) :
    Antichain h (AddToRemoveListPy.run h c n j l) := by
  induction n generalizing j l with
  | zero =>
    simp only [AddToRemoveListPy.run]
    rw [List.take_of_length_le (by omega)] at hchk
    exact antichain_push h l c ha hchk
  | succ n ih =>
    simp only [AddToRemoveListPy.run]
    cases hj : l[j]? with
    | none =>
      simp only
      rw [List.take_of_length_le (List.getElem?_eq_none_iff.mp hj)] at hchk
      exact antichain_push h l c ha hchk
    | some e =>
      simp only
      have key : ∃ l1 l2, l = l1 ++ e :: l2 ∧ l1.length = j :=
        ⟨_, _, (split_at_index l j e hj).1, (split_at_index l j e hj).2⟩
      obtain ⟨l1, l2, rfl, rfl⟩ := key
      rw [List.take_left] at hchk
      by_cases h1 : isAncestorOf h e c = true
      · rw [if_pos h1]
        exact ha
      · rw [if_neg h1]
        by_cases h2 : isAncestorOf h c e = true
        · rw [if_pos h2]
          obtain ⟨htake, hlen3⟩ := take_swapRemove l1 l2 e
          apply ih
          · rw [hlen3]
            simp at hlen ⊢
            omega
          · exact antichain_swapRemove h l1 l2 e ha
          · rw [htake]
            exact hchk
        · rw [if_neg h2]
          apply ih
          · omega
          · exact ha
          · intro x hx
            rw [List.take_succ, hj, List.take_left] at hx
            simp at hx
            rcases hx with hx | rfl
            · exact hchk x hx
            · exact ⟨by simpa using h1, by simpa using h2⟩

/-- C3: `AddToRemoveListPy` keeps the schedule an antichain: when no entry is
an ancestor of another entry before the call, none is after it, whatever the
candidate. -/
theorem AddToRemoveListPy_antichain (h : Heap) (toRemove : Nat) (toBeRemovedList : List Nat)
    (ha : Antichain h toBeRemovedList) :
    Antichain h (AddToRemoveListPy h toRemove toBeRemovedList) :=
  run_antichain h toRemove toBeRemovedList.length 0 toBeRemovedList (by omega) ha
    (by intro e he; simp at he)

/-- Witness of C3: the cloud 1 enters a schedule holding its child 2 and the
unrelated cloud 4; the child leaves and the result is an antichain. -/
theorem AddToRemoveListPy_antichain_witness :
    Antichain chainHeap [2, 4] ∧ AddToRemoveListPy chainHeap 1 [2, 4] = [4, 1] ∧
      Antichain chainHeap (AddToRemoveListPy chainHeap 1 [2, 4]) :=
  ⟨by unfold Antichain; decide, by decide,
    AddToRemoveListPy_antichain chainHeap 1 [2, 4] (by unfold Antichain; decide)⟩

/-! ## ExtractSlicesAndContours_py: the envelope type -/

theorem saturate_eq_clamp (e : Int) : saturateEnvelopeType e = clamp e 0 2 := by
  unfold saturateEnvelopeType clamp
  by_cases h0 : e < 0
  · simp only [h0, if_true]
    rw [min_eq_left (by omega), max_eq_left (by omega)]
    simp
  · simp only [h0, if_false]
    by_cases h2 : e > 2
    · simp only [h2, if_true]
      rw [min_eq_right (by omega), max_eq_right (by omega)]
    · simp only [h2, if_false]
      rw [min_eq_left (by omega), max_eq_right (by omega)]

/-- C9: for every integer `envelopeType` the envelope type handed to the
slicing library is `val[clamp(envelopeType, 0, 2)]`; the index into the table
is within bounds; every negative value gives `LOWER`, as 0 does, and every
value above 2 gives `FULL`, as 2 does. -/
theorem envelType_clamp (envelopeType : Int) :
    envelType envelopeType = val[(clamp envelopeType 0 2).toNat]? ∧
      (0 ≤ saturateEnvelopeType envelopeType ∧
        (saturateEnvelopeType envelopeType).toNat < val.length) ∧
      (envelopeType < 0 → envelType envelopeType = some .LOWER) ∧
      (envelopeType > 2 → envelType envelopeType = some .FULL) ∧
      envelType 0 = some .LOWER ∧ envelType 2 = some .FULL := by
  have hc := saturate_eq_clamp envelopeType
  have hb : 0 ≤ clamp envelopeType 0 2 ∧ clamp envelopeType 0 2 ≤ 2 := by
    unfold clamp
    constructor
    · exact le_max_left _ _
    · exact max_le (by omega) (min_le_right _ _)
  have hcases : clamp envelopeType 0 2 = 0 ∨ clamp envelopeType 0 2 = 1 ∨
      clamp envelopeType 0 2 = 2 := by omega
  refine ⟨?_, ?_, ?_, ?_, by decide, by decide⟩
  · simp only [envelType, hc, hb.1, if_true]
  · rw [hc]
    refine ⟨hb.1, ?_⟩
    rcases hcases with h | h | h <;> rw [h] <;> decide
  · intro h
    have : clamp envelopeType 0 2 = 0 := by
      unfold clamp
      rw [min_eq_left (by omega), max_eq_left (by omega)]
    simp only [envelType, hc, this]
    decide
  · intro h
    have : clamp envelopeType 0 2 = 2 := by
      unfold clamp
      rw [min_eq_right (by omega), max_eq_right (by omega)]
    simp only [envelType, hc, this]
    decide

/-- Witness of C9: -7 selects `LOWER` and 9 selects `FULL`. -/
theorem envelType_clamp_witness :
    envelType (-7) = some .LOWER ∧ envelType 9 = some .FULL :=
  ⟨(envelType_clamp (-7)).2.2.1 (by decide), (envelType_clamp 9).2.2.2.1 (by decide)⟩

/-! ## createComponentsClouds_ -/

theorem cloneSelection_points (cloud : ccHObject) (sel : ReferenceCloud) :
    (cloneSelection cloud sel).points = selectPoints cloud sel := by
  unfold cloneSelection
  split <;> rfl

theorem selectPoints_length (cloud : ccHObject) (sel : ReferenceCloud) :
    (selectPoints cloud sel).length = sel.size := by
  simp [selectPoints, ReferenceCloud.size]

theorem createLoop_points (env : CreateEnv) (cloud : ccHObject)
    (components : List ReferenceCloud) (minPts : Nat) (rc : Bool)
    (order : List Nat) (i : Nat) (st st1 : CreateState)
    (hrun : createLoop env cloud components minPts rc order i st = .ok st1) :
    st1.resultClouds.map (fun c => c.points) =
      st.resultClouds.map (fun c => c.points) ++
        (keptList env components minPts order i).map (selectPoints cloud) := by
  induction order generalizing i st with
  | nil =>
    simp only [createLoop, Except.ok.injEq] at hrun
    subst hrun
    simp [keptList]
  | cons c rest ih =>
    simp only [createLoop] at hrun
    simp only [keptList]
    cases hc : components[c]? with
    | none => simp [hc] at hrun
    | some comp =>
      simp only [hc] at hrun ⊢
      by_cases hbig : comp.size ≥ minPts
      · by_cases hcl : env.cloneOk i = true
        · simp only [hbig, hcl, if_true, and_self] at hrun ⊢
          rw [ih _ _ hrun]
          cases rc <;> simp [cloneSelection_points]
        · simp only [hbig, hcl, if_true, and_false] at hrun ⊢
          simpa using ih _ _ hrun
      · simp only [hbig, if_false, false_and] at hrun ⊢
        cases hadd : addSmall (env.addPointIndexOk i) comp.size 0 st.refCloud with
        | error f => simp [hadd] at hrun
        | ok r =>
          simp only [hadd] at hrun
          simpa using ih _ _ hrun

theorem keptList_sublist (env : CreateEnv) (components : List ReferenceCloud) (minPts : Nat)
    (order : List Nat) (i : Nat) :
    (keptList env components minPts order i).Sublist
      ((visited components order).filter (fun c => decide (c.size ≥ minPts))) := by
  induction order generalizing i with
  | nil => simp [keptList, visited]
  | cons c rest ih =>
    simp only [keptList, visited, List.filterMap_cons]
    cases hc : components[c]? with
    | none => exact ih _
    | some comp =>
      simp only
      by_cases hbig : comp.size ≥ minPts
      · by_cases hcl : env.cloneOk i = true
        · simp only [hbig, hcl, and_self, if_true, List.filter_cons, decide_True]
          exact List.Sublist.cons₂ _ (ih _)
        · simp only [hbig, hcl, and_false, if_false, List.filter_cons, decide_True, if_true]
          exact List.Sublist.cons _ (ih _)
      · simp only [hbig, false_and, if_false, List.filter_cons, decide_False]
        exact ih _

theorem keptList_eq (env : CreateEnv) (components : List ReferenceCloud) (minPts : Nat)
    (hclone : ∀ i, env.cloneOk i = true) (order : List Nat) (i : Nat) :
    keptList env components minPts order i =
      (visited components order).filter (fun c => decide (c.size ≥ minPts)) := by
  induction order generalizing i with
  | nil => simp [keptList, visited]
  | cons c rest ih =>
    simp only [keptList, visited, List.filterMap_cons]
    cases hc : components[c]? with
    | none => exact ih _
    | some comp =>
      simp only
      by_cases hbig : comp.size ≥ minPts
      · simp only [hbig, hclone i, and_self, if_true, List.filter_cons, decide_True]
        rw [ih]
        rfl
      · simp only [hbig, false_and, if_false, List.filter_cons, decide_False]
        exact ih _

theorem addSmall_ok (ok : Nat → Bool) (hok : ∀ k, ok k = true) (n k : Nat)
    (r : ReferenceCloud) :
    addSmall ok n k (some r) = .ok (some ⟨r.indices ++ List.range' k n⟩) := by
  induction n generalizing k r with
  | zero => simp [addSmall]
  | succ n ih =>
    simp only [addSmall, hok k, if_true]
    rw [ih]
    simp [ReferenceCloud.addPointIndex, List.range'_succ]

/-- The indices the residual selection receives for the components of a list:
for each one the numbers below its size. -/
theorem createLoop_residual (env : CreateEnv) (cloud : ccHObject)
    (components : List ReferenceCloud) (minPts : Nat) (rc : Bool)
    (hadd : ∀ i k, env.addPointIndexOk i k = true)
    (order : List Nat) (horder : ∀ c ∈ order, c < components.length)
    (i : Nat) (st : CreateState) (r : ReferenceCloud) (hr : st.refCloud = some r) :
    ∃ st1, createLoop env cloud components minPts rc order i st = .ok st1 ∧
      st1.refCloud = some ⟨r.indices ++
        (((visited components order).filter (fun c => !decide (c.size ≥ minPts))).flatMap
          (fun c => List.range' 0 c.size))⟩ := by
  induction order generalizing i st r with
  | nil => exact ⟨st, by simp [createLoop], by simp [visited, hr]⟩
  | cons c rest ih =>
    have hc : c < components.length := horder c (List.mem_cons_self _ _)
    have hrest : ∀ x ∈ rest, x < components.length :=
      fun x hx => horder x (List.mem_cons_of_mem _ hx)
    have hget : components[c]? = some components[c] := List.getElem?_eq_getElem hc
    simp only [createLoop, visited, List.filterMap_cons, hget]
    by_cases hbig : components[c].size ≥ minPts
    · simp only [hbig, if_true, List.filter_cons, decide_True, Bool.not_true]
      by_cases hcl : env.cloneOk i = true
      · simp only [hcl, if_true]
        exact ih hrest _ _ r hr
      · simp only [hcl]
        exact ih hrest _ _ r hr
    · simp only [hbig, if_false, List.filter_cons, decide_False, Bool.not_false, if_true,
        List.flatMap_cons]
      rw [hr, addSmall_ok _ (hadd i)]
      simp only
      obtain ⟨st1, h1, h2⟩ := ih hrest (i + 1)
        { st with refCloud := some ⟨r.indices ++ List.range' 0 components[c].size⟩ }
        ⟨r.indices ++ List.range' 0 components[c].size⟩ rfl
      exact ⟨st1, h1, by simpa [visited, List.append_assoc] using h2⟩

theorem visited_range (components : List ReferenceCloud) :
    visited components (List.range components.length) = components := by
  unfold visited
  induction components using List.reverseRecOn with
  | nil => simp
  | append_singleton l a ih =>
    rw [List.length_append, List.length_singleton, List.range_succ, List.filterMap_append]
    have h1 : List.filterMap (fun c => (l ++ [a])[c]?) (List.range l.length) =
        List.filterMap (fun c => l[c]?) (List.range l.length) := by
      apply List.filterMap_congr
      intro x hx
      rw [List.getElem?_append_left (List.mem_range.mp hx)]
    rw [h1, ih]
    simp

theorem visitOrder_perm (env : CreateEnv) (components : List ReferenceCloud) (sb : Bool)
    (hsort : SortsBy ComponentIndexAndSize.DescendingCompOperator env.ParallelSort) :
    (visitOrder env components sb).Perm (List.range components.length) := by
  unfold visitOrder
  split
  · have hp := ((hsort ((List.range components.length).map
      (fun i => ComponentIndexAndSize.mk i (components.getD i ⟨[]⟩).size))).1).map
      (fun s => s.index)
    simpa [Function.comp_def] using hp
  · exact List.Perm.refl _

theorem visitOrder_take (env : CreateEnv) (components : List ReferenceCloud) (sb : Bool)
    (hsort : SortsBy ComponentIndexAndSize.DescendingCompOperator env.ParallelSort) :
    (visitOrder env components sb).take components.length = visitOrder env components sb := by
  apply List.take_of_length_le
  rw [(visitOrder_perm env components sb hsort).length_eq]
  simp

theorem visitOrder_valid (env : CreateEnv) (components : List ReferenceCloud) (sb : Bool)
    (hsort : SortsBy ComponentIndexAndSize.DescendingCompOperator env.ParallelSort) :
    ∀ c ∈ visitOrder env components sb, c < components.length := by
  intro c hc
  exact List.mem_range.mp ((visitOrder_perm env components sb hsort).mem_iff.mp hc)

theorem visited_perm (env : CreateEnv) (components : List ReferenceCloud) (sb : Bool)
    (hsort : SortsBy ComponentIndexAndSize.DescendingCompOperator env.ParallelSort) :
    (visited components (visitOrder env components sb)).Perm components := by
  have hp := (visitOrder_perm env components sb hsort).filterMap (fun c => components[c]?)
  rw [show List.filterMap (fun c => components[c]?) (List.range components.length) =
    components from visited_range components] at hp
  exact hp

theorem sum_filter_split (l : List ReferenceCloud) (p : ReferenceCloud → Bool) :
    ((l.filter p).map ReferenceCloud.size).sum +
      ((l.filter (fun c => !p c)).map ReferenceCloud.size).sum =
      (l.map ReferenceCloud.size).sum := by
  induction l with
  | nil => simp
  | cons a t ih =>
    cases hp : p a
    · simp [List.filter_cons, hp]
      omega
    · simp [List.filter_cons, hp]
      omega

theorem length_flatMap_range (l : List ReferenceCloud) :
    (l.flatMap (fun c => List.range' 0 c.size)).length = (l.map ReferenceCloud.size).sum := by
  induction l with
  | nil => simp
  | cons a t ih => simp [List.flatMap_cons, ih]

theorem filterMap_eq_map_of_forall {α β : Type} (f : α → Option β) (g : α → β) (l : List α)
    (hfg : ∀ x ∈ l, f x = some (g x)) : l.filterMap f = l.map g := by
  induction l with
  | nil => rfl
  | cons a t ih =>
    rw [List.filterMap_cons, hfg a (List.mem_cons_self _ _), List.map_cons,
      ih (fun x hx => hfg x (List.mem_cons_of_mem _ hx))]

theorem visited_sorted (env : CreateEnv) (components : List ReferenceCloud)
    (hsort : SortsBy ComponentIndexAndSize.DescendingCompOperator env.ParallelSort)
    (hres : env.reserveOk = true) :
    ((visited components (visitOrder env components true)).map ReferenceCloud.size).Pairwise
      (fun a b => a ≥ b) := by
  obtain ⟨hperm, hpw⟩ := hsort ((List.range components.length).map
    (fun i => ComponentIndexAndSize.mk i (components.getD i ⟨[]⟩).size))
  have hmem : ∀ s ∈ env.ParallelSort ((List.range components.length).map
      (fun i => ComponentIndexAndSize.mk i (components.getD i ⟨[]⟩).size)),
      components[s.index]? = some (components.getD s.index ⟨[]⟩) ∧
        s.size = (components.getD s.index ⟨[]⟩).size := by
    intro s hs
    have hs2 := hperm.mem_iff.mp hs
    simp only [List.mem_map, List.mem_range] at hs2
    obtain ⟨i, hi, rfl⟩ := hs2
    simp [List.getD_eq_getElem?_getD, List.getElem?_eq_getElem hi]
  have hv : (visited components (visitOrder env components true)).map ReferenceCloud.size =
      (env.ParallelSort ((List.range components.length).map
        (fun i => ComponentIndexAndSize.mk i (components.getD i ⟨[]⟩).size))).map
        (fun s => s.size) := by
    simp only [visited, visitOrder, hres, Bool.and_self, if_true, List.filterMap_map]
    rw [filterMap_eq_map_of_forall
      ((fun c => components[c]?) ∘ fun (s : ComponentIndexAndSize) => s.index)
      (fun (s : ComponentIndexAndSize) => components.getD s.index ⟨[]⟩) _
      (fun s hs => (hmem s hs).1), List.map_map]
    apply List.map_congr_left
    intro s hs
    exact ((hmem s hs).2).symm
  rw [hv, List.pairwise_map]
  refine hpw.imp ?_
  intro a b hab
  simpa [ComponentIndexAndSize.DescendingCompOperator] using hab

/-- What a normal return of `createComponentsClouds_` on a cloud and a
non-empty component list is made of. -/
theorem createComponentsClouds_ok (env : CreateEnv) (cloud : ccHObject)
    (components : List ReferenceCloud) (minPts : Nat) (rc sb : Bool)
    (hne : components ≠ []) (kept : List ccHObject) (resid : List (Option ccHObject))
    (hrun : createComponentsClouds_ env (some cloud) components minPts rc sb = .ok (kept, resid)) :
    ∃ st1, createLoop env cloud components minPts rc
        ((visitOrder env components sb).take components.length) 0
        { resultClouds := [], refCloud := some ⟨[]⟩, nbComp := 0 } = .ok st1 ∧
      kept = st1.resultClouds ∧
      resid = (match st1.refCloud with
        | some r => [if env.residualCloneOk then some (cloneSelection cloud r) else none]
        | none => []) := by
  have hemp : components.isEmpty = false := by
    cases components with
    | nil => exact absurd rfl hne
    | cons a t => rfl
  simp only [createComponentsClouds_, hemp] at hrun
  cases hloop : createLoop env cloud components minPts rc
      ((visitOrder env components sb).take components.length) 0
      { resultClouds := [], refCloud := some ⟨[]⟩, nbComp := 0 } with
  | error f => simp [hloop] at hrun
  | ok st1 =>
    refine ⟨st1, rfl, ?_⟩
    simp only [hloop] at hrun
    cases href : st1.refCloud with
    | none =>
      simp only [href, Bool.false_eq_true, if_false, Except.ok.injEq, Prod.mk.injEq] at hrun
      exact ⟨hrun.1.symm, hrun.2.symm⟩
    | some r =>
      simp only [href, Bool.false_eq_true, if_false, Except.ok.injEq, Prod.mk.injEq] at hrun
      exact ⟨hrun.1.symm, hrun.2.symm⟩

/-- Without a failure of `addPointIndex` the function returns. -/
theorem createComponentsClouds_returns (env : CreateEnv) (cloud : Option ccHObject)
    (components : List ReferenceCloud) (minPts : Nat) (rc sb : Bool)
    (hsort : SortsBy ComponentIndexAndSize.DescendingCompOperator env.ParallelSort)
    (hadd : ∀ i k, env.addPointIndexOk i k = true) :
    ∃ kept resid,
      createComponentsClouds_ env cloud components minPts rc sb = .ok (kept, resid) := by
  cases cloud with
  | none => exact ⟨[], [], rfl⟩
  | some cloud =>
    simp only [createComponentsClouds_]
    split
    · exact ⟨[], [], rfl⟩
    · rw [visitOrder_take env components sb hsort]
      obtain ⟨st1, h1, h2⟩ := createLoop_residual env cloud components minPts rc hadd
        (visitOrder env components sb) (visitOrder_valid env components sb hsort) 0
        { resultClouds := [], refCloud := some ⟨[]⟩, nbComp := 0 } ⟨[]⟩ rfl
      rw [h1]
      simp only [h2]
      exact ⟨_, _, rfl⟩

/-- The stable sort is a sort for `DescendingCompOperator`. -/
theorem stableSortDesc_sorts :
    SortsBy ComponentIndexAndSize.DescendingCompOperator stableSortDesc := by
  intro l
  haveI : IsTotal ComponentIndexAndSize sizeGe := ⟨fun a b => by unfold sizeGe; omega⟩
  haveI : IsTrans ComponentIndexAndSize sizeGe :=
    ⟨fun a b c hab hbc => by unfold sizeGe at *; omega⟩
  refine ⟨List.perm_insertionSort sizeGe l, ?_⟩
  refine (List.sorted_insertionSort sizeGe l).imp ?_
  intro a b hab
  unfold sizeGe at hab
  simp only [ComponentIndexAndSize.DescendingCompOperator, decide_eq_false_iff_not]
  omega

/-- The sort that reverses ties is a sort for `DescendingCompOperator` too:
the comparator looks at sizes only. -/
theorem tieReversingSort_sorts :
    SortsBy ComponentIndexAndSize.DescendingCompOperator tieReversingSort := by
  intro l
  haveI : IsTotal ComponentIndexAndSize sizeGeIndexGe :=
    ⟨fun a b => by unfold sizeGeIndexGe; omega⟩
  haveI : IsTrans ComponentIndexAndSize sizeGeIndexGe :=
    ⟨fun a b c hab hbc => by unfold sizeGeIndexGe at *; omega⟩
  refine ⟨List.perm_insertionSort sizeGeIndexGe l, ?_⟩
  refine (List.sorted_insertionSort sizeGeIndexGe l).imp ?_
  intro a b hab
  unfold sizeGeIndexGe at hab
  simp only [ComponentIndexAndSize.DescendingCompOperator, decide_eq_false_iff_not]
  omega

theorem keptList_sizes (env : CreateEnv) (cloud : ccHObject)
    (components : List ReferenceCloud) (minPts : Nat) (rc : Bool)
    (order : List Nat) (st1 : CreateState)
    (hrun : createLoop env cloud components minPts rc order 0
      { resultClouds := [], refCloud := some ⟨[]⟩, nbComp := 0 } = .ok st1) :
    st1.resultClouds.map (fun c => c.points.length) =
      (keptList env components minPts order 0).map ReferenceCloud.size := by
  have h1 := congrArg (List.map List.length)
    (createLoop_points env cloud components minPts rc order 0 _ st1 hrun)
  simp only [List.map_map, List.map_nil, List.nil_append] at h1
  have hfun : (List.length ∘ selectPoints cloud) = ReferenceCloud.size := by
    funext c
    exact selectPoints_length cloud c
  rw [hfun] at h1
  exact h1

/-- C5, as amended: when the sort by size is in effect (`sortBysize` is set
and the reservation succeeds), the kept clouds returned by
`createComponentsClouds_` come in non-increasing order of point count; and the
function does return as long as `addPointIndex` does not fail. -/
theorem createComponentsClouds_sorted (env : CreateEnv) (cloud : ccHObject)
    (components : List ReferenceCloud) (minPointsPerComponent : Nat) (randomColors : Bool)
    (hsort : SortsBy ComponentIndexAndSize.DescendingCompOperator env.ParallelSort)
    (hres : env.reserveOk = true) :
    (∀ kept resid,
      createComponentsClouds_ env (some cloud) components minPointsPerComponent randomColors
          true = .ok (kept, resid) →
        (kept.map (fun c => c.points.length)).Pairwise (fun a b => a ≥ b)) ∧
      ((∀ i k, env.addPointIndexOk i k = true) →
        ∃ kept resid,
          createComponentsClouds_ env (some cloud) components minPointsPerComponent
            randomColors true = .ok (kept, resid)) := by
  refine ⟨?_, createComponentsClouds_returns env (some cloud) components minPointsPerComponent
    randomColors true hsort⟩
  intro kept resid hrun
  by_cases hne : components = []
  · subst hne
    simp only [createComponentsClouds_, List.isEmpty_nil, if_true, Except.ok.injEq,
      Prod.mk.injEq] at hrun
    rw [← hrun.1]
    simp
  · obtain ⟨st1, hloop, hk, _⟩ := createComponentsClouds_ok env cloud components
      minPointsPerComponent randomColors true hne kept resid hrun
    rw [visitOrder_take env components true hsort] at hloop
    rw [hk, keptList_sizes env cloud components minPointsPerComponent randomColors _ st1 hloop]
    have hsub := ((keptList_sublist env components minPointsPerComponent
      (visitOrder env components true) 0).trans (List.filter_sublist _)).map ReferenceCloud.size
    exact (visited_sorted env components hsort hres).sublist hsub

/-- Witness of C5 as amended: the components of sizes 2, 3 and 1 with
threshold 1 are kept as clouds of 3, 2 and 1 points. -/
theorem createComponentsClouds_sorted_witness :
    (∃ kept resid,
      createComponentsClouds_ okCreateEnv (some sevenPoints) threeComponents 1 false true =
        .ok (kept, resid) ∧ kept.map (fun c => c.points.length) = [3, 2, 1]) ∧
      ∀ kept resid,
        createComponentsClouds_ okCreateEnv (some sevenPoints) threeComponents 1 false true =
          .ok (kept, resid) →
        (kept.map (fun c => c.points.length)).Pairwise (fun a b => a ≥ b) :=
  ⟨⟨_, _, rfl, by decide⟩,
    (createComponentsClouds_sorted okCreateEnv sevenPoints threeComponents 1 false
      stableSortDesc_sorts rfl).1⟩

/-- Counterexample to C5 as stated: `ParallelSort` is only asked to sort for
`DescendingCompOperator`, which compares sizes. With a sort that meets this
and leaves equal sizes in decreasing order of index, the two components of
size 2 are visited as 1 then 0, and the kept cloud of component 1 comes
first. -/
theorem createComponentsClouds_ties_counterexample :
    SortsBy ComponentIndexAndSize.DescendingCompOperator tieReversingEnv.ParallelSort ∧
      tieReversingEnv.reserveOk = true ∧
      twoEqualComponents.map ReferenceCloud.size = [2, 2] ∧
      visitOrder tieReversingEnv twoEqualComponents true = [1, 0] ∧
      ∃ kept resid,
        createComponentsClouds_ tieReversingEnv (some sevenPoints) twoEqualComponents 1 false
            true = .ok (kept, resid) ∧
          kept.map (fun c => c.points) =
            [selectPoints sevenPoints ⟨[2, 3]⟩, selectPoints sevenPoints ⟨[0, 1]⟩] :=
  ⟨tieReversingSort_sorts, rfl, by decide, by decide, _, _, rfl, by decide⟩

/-- C6: without allocation failure (every clone succeeds, that of the
residual selection included, and every `addPointIndex` succeeds), the point
counts of the kept clouds and of the residual cloud returned by
`createComponentsClouds_` add up to the sum of the sizes of the components. -/
theorem createComponentsClouds_residual_sum (env : CreateEnv) (cloud : ccHObject)
    (components : List ReferenceCloud) (minPointsPerComponent : Nat)
    (randomColors sortBysize : Bool)
    (hsort : SortsBy ComponentIndexAndSize.DescendingCompOperator env.ParallelSort)
    (hclone : ∀ i, env.cloneOk i = true)
    (hadd : ∀ i k, env.addPointIndexOk i k = true)
    (hresid : env.residualCloneOk = true) :
    ∃ kept resid,
      createComponentsClouds_ env (some cloud) components minPointsPerComponent randomColors
          sortBysize = .ok (kept, resid) ∧
        (kept.map (fun c => c.points.length)).sum + (resid.map pointCount).sum =
          (components.map ReferenceCloud.size).sum := by
  by_cases hne : components = []
  · subst hne
    exact ⟨[], [], rfl, rfl⟩
  · have hemp : components.isEmpty = false := by
      cases components with
      | nil => exact absurd rfl hne
      | cons a t => rfl
    obtain ⟨st1, h1, h2⟩ := createLoop_residual env cloud components minPointsPerComponent
      randomColors hadd (visitOrder env components sortBysize)
      (visitOrder_valid env components sortBysize hsort) 0
      { resultClouds := [], refCloud := some ⟨[]⟩, nbComp := 0 } ⟨[]⟩ rfl
    refine ⟨st1.resultClouds, [some (cloneSelection cloud ⟨[] ++
      (((visited components (visitOrder env components sortBysize)).filter
        (fun c => !decide (c.size ≥ minPointsPerComponent))).flatMap
        (fun c => List.range' 0 c.size))⟩)], ?_, ?_⟩
    · simp only [createComponentsClouds_, hemp, Bool.false_eq_true, if_false]
      rw [visitOrder_take env components sortBysize hsort, h1]
      simp only [h2, hresid, if_true]
    · rw [keptList_sizes env cloud components minPointsPerComponent randomColors _ st1 h1,
        keptList_eq env components minPointsPerComponent hclone]
      simp only [List.map_cons, List.map_nil, List.sum_cons, List.sum_nil, Nat.add_zero,
        pointCount, cloneSelection_points, selectPoints_length, List.nil_append]
      have hlen : (ReferenceCloud.mk
          (((visited components (visitOrder env components sortBysize)).filter
            (fun c => !decide (c.size ≥ minPointsPerComponent))).flatMap
            (fun c => List.range' 0 c.size))).size =
          ((((visited components (visitOrder env components sortBysize)).filter
            (fun c => !decide (c.size ≥ minPointsPerComponent))).map
            ReferenceCloud.size)).sum := length_flatMap_range _
      rw [hlen]
      have hsplit := sum_filter_split (visited components (visitOrder env components sortBysize))
        (fun c => decide (c.size ≥ minPointsPerComponent))
      have hperm := ((visited_perm env components sortBysize hsort).map
        ReferenceCloud.size).sum_eq
      omega

/-- Witness of C6: with threshold 2 the components of sizes 2, 3 and 1 give
kept clouds of 3 and 2 points and a residual of 1 point. -/
theorem createComponentsClouds_residual_sum_witness :
    (∃ kept resid,
      createComponentsClouds_ okCreateEnv (some sevenPoints) threeComponents 2 false true =
        .ok (kept, resid) ∧ kept.map (fun c => c.points.length) = [3, 2] ∧
        resid.map pointCount = [1]) ∧
      ∃ kept resid,
        createComponentsClouds_ okCreateEnv (some sevenPoints) threeComponents 2 false true =
          .ok (kept, resid) ∧
        (kept.map (fun c => c.points.length)).sum + (resid.map pointCount).sum =
          (threeComponents.map ReferenceCloud.size).sum :=
  ⟨⟨_, _, rfl, by decide, by decide⟩,
    createComponentsClouds_residual_sum okCreateEnv sevenPoints threeComponents 2 false true
      stableSortDesc_sorts (fun _ => rfl) (fun _ _ => rfl) rfl⟩

/-! ## ExtractConnectedComponents_py -/

/-- C7, the failing run: one cloud with two components of size 2,
`minComponentSize = 1` and `maxNumberComponents = 1`. The count 2 exceeds the
maximum and the tuple returned has two elements, where every other exit
returns three. -/
theorem ExtractConnectedComponents_py_capacity_arity :
    ∃ res heap,
      ExtractConnectedComponents_py twoComponentsEnv sevenPointsHeap [0] 8 1 1 false =
        .ok (res, heap) ∧ res = [.int 0, .list []] ∧ res.length = 2 :=
  ⟨_, _, rfl, by decide, by decide⟩

theorem lookup_store (h : Heap) (a b : Nat) (o : ccHObject) :
    (h.store a o).lookup b = if a = b ∧ a < h.length then some o else h.lookup b := by
  unfold Heap.store Heap.lookup
  rw [List.getElem?_set]
  by_cases hab : a = b
  · subst hab
    by_cases hlt : a < h.length
    · simp [hlt]
    · simp [hlt, List.getElem?_eq_none (Nat.le_of_not_lt hlt)]
  · simp [hab]

theorem hasScalarField_store (h : Heap) (a b : Nat) (o : ccHObject) (name : String)
    (hb : hasScalarField h b name = false)
    (ho : a = b → o.scalarFields.any (fun sf => sf.name == name) = false) :
    hasScalarField (h.store a o) b name = false := by
  unfold hasScalarField at *
  rw [lookup_store]
  by_cases hab : a = b ∧ a < h.length
  · rw [if_pos hab]
    exact ho hab.1
  · rw [if_neg hab]
    exact hb

theorem getScalarFieldIndexByName_absent (o : ccHObject) (name : String)
    (hno : o.scalarFields.any (fun sf => sf.name == name) = false) :
    getScalarFieldIndexByName o name = -1 := by
  unfold getScalarFieldIndexByName
  have hlen : List.findIdx (fun sf => sf.name == name) o.scalarFields = o.scalarFields.length := by
    rw [List.findIdx_eq_length]
    intro x hx
    have := List.any_eq_false.mp hno x hx
    simpa using this
  simp [hlen]

theorem acquire_absent (ok : Bool) (o : ccHObject) (name : String)
    (hno : o.scalarFields.any (fun sf => sf.name == name) = false) :
    acquireScalarField ok o name =
      if ok then
        ({ o with scalarFields :=
            o.scalarFields ++ [⟨name, List.replicate o.points.length (.val 0)⟩] },
          (o.scalarFields.length : Int))
      else (o, -1) := by
  unfold acquireScalarField addScalarField
  rw [getScalarFieldIndexByName_absent o name hno]
  cases ok <;> simp

theorem acquire_absent_delete (ok : Bool) (o : ccHObject) (name : String)
    (hno : o.scalarFields.any (fun sf => sf.name == name) = false)
    (hpos : ¬ (acquireScalarField ok o name).2 < 0) :
    (deleteScalarField
      { (acquireScalarField ok o name).1 with currentInSF := (acquireScalarField ok o name).2 }
      (acquireScalarField ok o name).2).scalarFields = o.scalarFields := by
  rw [acquire_absent ok o name hno] at hpos ⊢
  cases ok with
  | false => simp at hpos
  | true =>
    simp only [if_true, deleteScalarField]
    have hc : (0 : Int) ≤ (o.scalarFields.length : Int) ∧
        (o.scalarFields.length : Int).toNat <
          (o.scalarFields ++ [ScalarField.mk name
            (List.replicate o.points.length (.val 0))]).length := by
      constructor
      · omega
      · simp
    rw [if_pos hc]
    simp [List.eraseIdx_append_of_length_le]

theorem acquire_absent_fail (ok : Bool) (o : ccHObject) (name : String)
    (hno : o.scalarFields.any (fun sf => sf.name == name) = false)
    (hneg : (acquireScalarField ok o name).2 < 0) :
    (acquireScalarField ok o name).1 = o := by
  rw [acquire_absent ok o name hno] at hneg ⊢
  cases ok with
  | false => rfl
  | true =>
    simp only [if_true] at hneg
    omega

theorem processCloud_labels (env : CCEnv) (minComponentSize maxNumberComponents : Int)
    (randColors : Bool) (i cloud : Nat) (st : CCState) (step : CCStep)
    (hrun : processCloud env minComponentSize maxNumberComponents randColors i cloud st =
      .ok step)
    (a : Nat)
    (ha : hasScalarField st.heap a CC_CONNECTED_COMPONENTS_DEFAULT_LABEL_NAME = false) :
    hasScalarField step.heap a CC_CONNECTED_COMPONENTS_DEFAULT_LABEL_NAME = false := by
  unfold processCloud at hrun
  cases hl : st.heap.lookup cloud with
  | none =>
    simp only [hl, Except.ok.injEq] at hrun
    subst hrun
    exact ha
  | some pc =>
    simp only [hl] at hrun
    have hpc : cloud = a → (({ pc with octree := true } : ccHObject).scalarFields.any
        (fun sf => sf.name == CC_CONNECTED_COMPONENTS_DEFAULT_LABEL_NAME)) = false := by
      intro hca
      subst hca
      simpa [hasScalarField, hl] using ha
    split at hrun
    · simp only [Except.ok.injEq] at hrun
      subst hrun
      exact ha
    · split at hrun
      · simp only [Except.ok.injEq] at hrun
        subst hrun
        exact ha
      · split at hrun
        · rename_i hneg
          simp only [Except.ok.injEq] at hrun
          subst hrun
          apply hasScalarField_store _ _ _ _ _ ha
          intro hca
          rw [acquire_absent_fail _ _ _ (hpc hca) hneg]
          exact hpc hca
        · rename_i hpos
          have hdel : cloud = a →
              ((deleteScalarField
                { (acquireScalarField (env.addScalarFieldOk i) { pc with octree := true }
                    CC_CONNECTED_COMPONENTS_DEFAULT_LABEL_NAME).1 with
                  currentInSF := (acquireScalarField (env.addScalarFieldOk i)
                    { pc with octree := true } CC_CONNECTED_COMPONENTS_DEFAULT_LABEL_NAME).2 }
                (acquireScalarField (env.addScalarFieldOk i) { pc with octree := true }
                  CC_CONNECTED_COMPONENTS_DEFAULT_LABEL_NAME).2).scalarFields.any
                (fun sf => sf.name == CC_CONNECTED_COMPONENTS_DEFAULT_LABEL_NAME)) = false := by
            intro hca
            rw [acquire_absent_delete _ _ _ (hpc hca) hpos]
            exact hpc hca
          generalize (if env.labelConnectedComponents i ≥ 0 then
            env.extractConnectedComponents i else []) = components at hrun
          by_cases hcap : env.labelConnectedComponents i ≥ 0 ∧
              st.realComponentCount + countLarge components minComponentSize >
                maxNumberComponents
          · rw [if_pos hcap] at hrun
            simp only [Except.ok.injEq] at hrun
            subst hrun
            exact hasScalarField_store _ _ _ _ _ ha hdel
          · rw [if_neg hcap] at hrun
            by_cases hemp : components.isEmpty = true
            · rw [if_pos hemp] at hrun
              simp only [Except.ok.injEq] at hrun
              subst hrun
              exact hasScalarField_store _ _ _ _ _ ha hdel
            · rw [if_neg hemp] at hrun
              split at hrun
              · exact Except.noConfusion hrun
              · simp only [Except.ok.injEq] at hrun
                subst hrun
                exact hasScalarField_store _ _ _ _ _ ha hdel

theorem ccLoop_labels (env : CCEnv) (minComponentSize maxNumberComponents : Int)
    (randColors : Bool) (clouds : List Nat) (i : Nat) (st : CCState)
    (res : PyTuple) (heap : Heap)
    (hrun : ccLoop env minComponentSize maxNumberComponents randColors clouds i st =
      .ok (res, heap))
    (a : Nat)
    (ha : hasScalarField st.heap a CC_CONNECTED_COMPONENTS_DEFAULT_LABEL_NAME = false) :
    hasScalarField heap a CC_CONNECTED_COMPONENTS_DEFAULT_LABEL_NAME = false := by
  induction clouds generalizing i st with
  | nil =>
    simp only [ccLoop, Except.ok.injEq, Prod.mk.injEq] at hrun
    rw [← hrun.2]
    exact ha
  | cons cloud rest ih =>
    simp only [ccLoop] at hrun
    cases hp : processCloud env minComponentSize maxNumberComponents randColors i cloud st with
    | error f => simp [hp] at hrun
    | ok step =>
      have hstep := processCloud_labels env minComponentSize maxNumberComponents randColors
        i cloud st step hp a ha
      cases step with
      | next st1 =>
        simp only [hp] at hrun
        exact ih _ _ hrun hstep
      | stop st1 =>
        simp only [hp, Except.ok.injEq, Prod.mk.injEq] at hrun
        rw [← hrun.2]
        exact hstep
      | ret r h1 =>
        simp only [hp, Except.ok.injEq, Prod.mk.injEq] at hrun
        rw [← hrun.2]
        exact hstep

/-! ## The cloud loop of MergeEntitiesPy -/

theorem lookup_lt (h : Heap) (a : Nat) (o : ccHObject) (hl : h.lookup a = some o) :
    a < h.length := by
  by_contra hge
  simp [Heap.lookup, List.getElem?_eq_none (Nat.le_of_not_lt hge)] at hl

theorem lookup_append_left (h : Heap) (x : Option ccHObject) (a : Nat) (ha : a < h.length) :
    Heap.lookup (h ++ [x]) a = h.lookup a := by
  simp [Heap.lookup, List.getElem?_append_left ha]

theorem lookup_append_new (h : Heap) (o : ccHObject) :
    Heap.lookup (h ++ [some o]) h.length = some o := by
  simp [Heap.lookup]

theorem store_length (h : Heap) (a : Nat) (o : ccHObject) :
    (h.store a o).length = h.length := by
  simp [Heap.store]

theorem lookup_store_same (h : Heap) (a : Nat) (o : ccHObject) (ha : a < h.length) :
    (h.store a o).lookup a = some o := by
  rw [lookup_store, if_pos ⟨rfl, ha⟩]

theorem lookup_store_other (h : Heap) (a b : Nat) (o : ccHObject) (hab : a ≠ b) :
    (h.store a o).lookup b = h.lookup b := by
  rw [lookup_store, if_neg (fun hc => hab hc.1)]

theorem expectedIndexField_append (bs : List Nat) (m s : Nat) :
    expectedIndexField (bs ++ [m]) s =
      expectedIndexField bs s ++ List.replicate m (.val (s + bs.length)) := by
  induction bs generalizing s with
  | nil => simp [expectedIndexField]
  | cons b t ih =>
    rw [List.cons_append]
    simp only [expectedIndexField]
    rw [ih, List.length_cons, show s + 1 + t.length = s + (t.length + 1) by omega,
      List.append_assoc]

theorem expectedIndexField_length (bs : List Nat) (s : Nat) :
    (expectedIndexField bs s).length = bs.sum := by
  induction bs generalizing s with
  | nil => rfl
  | cons b t ih => simp [expectedIndexField, ih]

theorem setValues_name (sf : ScalarField) (N : Nat) (idx : ScalarType) (n : Nat) :
    (setValues sf N idx n).name = sf.name := by
  induction n with
  | zero => rfl
  | succ n ih => simpa [setValues, ScalarField.setValue] using ih

theorem setValues_values (sf : ScalarField) (N : Nat) (idx : ScalarType) (n i : Nat)
    (hlen : sf.values.length = N + n) (hi : i ≤ n) :
    (setValues sf N idx i).values =
      sf.values.take N ++ List.replicate i idx ++ sf.values.drop (N + i) := by
  induction i with
  | zero => simp [setValues]
  | succ i ih =>
    have hlt : N + i < sf.values.length := by omega
    simp only [setValues, ScalarField.setValue]
    rw [ih (by omega)]
    have hl1 : (sf.values.take N ++ List.replicate i idx).length = N + i := by
      simp
      omega
    rw [List.set_append_right _ _ (by rw [hl1]), hl1, Nat.sub_self,
      List.drop_eq_getElem_cons hlt, List.set_cons_zero, List.replicate_succ',
      List.append_assoc, List.append_assoc, List.append_assoc]
    rfl

theorem setValues_full (sf : ScalarField) (N : Nat) (idx : ScalarType) (n : Nat)
    (hlen : sf.values.length = N + n) :
    (setValues sf N idx n).values = sf.values.take N ++ List.replicate n idx := by
  rw [setValues_values sf N idx n n hlen (Nat.le_refl _), List.drop_of_length_le (by omega)]
  simp

theorem resizeSafe_length (sf : ScalarField) (n : Nat) :
    (sf.resizeSafe n).values.length = n := by
  simp only [ScalarField.resizeSafe, List.length_append, List.length_take,
    List.length_replicate]
  omega

theorem resizeSafe_take (sf : ScalarField) (n N : Nat) (hN : N ≤ n)
    (hlen : N ≤ sf.values.length) :
    (sf.resizeSafe n).values.take N = sf.values.take N := by
  simp only [ScalarField.resizeSafe]
  rw [List.take_append_of_le_length (by simp; omega), List.take_take, Nat.min_eq_left hN]

theorem find?_of_first {α : Type} (p : α → Bool) (l : List α) (k : Nat) (x : α)
    (hk : l[k]? = some x) (hp : p x = true)
    (hfirst : ∀ j, j < k → ∀ y, l[j]? = some y → p y = false) :
    l.find? p = some x := by
  induction l generalizing k with
  | nil => simp at hk
  | cons a t ih =>
    cases k with
    | zero =>
      simp at hk
      subst hk
      simp [List.find?_cons, hp]
    | succ k =>
      have ha : p a = false := hfirst 0 (Nat.succ_pos k) a (by simp)
      simp only [List.find?_cons, ha]
      exact ih k (by simpa using hk)
        (fun j hj y hy => hfirst (j + 1) (Nat.succ_lt_succ hj) y (by simpa using hy))

theorem appendScalarFields_get (acc added : ccHObject) (j : Nat) (sf : ScalarField)
    (hj : acc.scalarFields[j]? = some sf) :
    ∃ X, (appendScalarFields acc added)[j]? = some ⟨sf.name, sf.values ++ X⟩ := by
  have hlt : j < acc.scalarFields.length := (List.getElem?_eq_some.mp hj).1
  unfold appendScalarFields
  rw [List.getElem?_append_left (by simpa using hlt), List.getElem?_map, hj]
  simp only [Option.map_some']
  split
  · exact ⟨_, rfl⟩
  · exact ⟨_, rfl⟩

theorem updateSF_get (o : ccHObject) (k : Nat) (f : ScalarField → ScalarField) (j : Nat) :
    (updateSF o k f).scalarFields[j]? =
      if k = j then (o.scalarFields[j]?).map f else o.scalarFields[j]? := by
  simp only [updateSF, List.getElem?_modify]
  split
  · rfl
  · cases o.scalarFields[j]? <;> rfl

theorem accAppended_update (o : ccHObject) (k : Nat) (blocks : List Nat) (m : Nat)
    (hpre : AccAppended o k blocks m) :
    AccState
      (updateSF o k (fun sf => setValues (sf.resizeSafe o.points.length) blocks.sum
        (.val blocks.length) m)) k (blocks ++ [m]) := by
  obtain ⟨hcls, hpts, ⟨sf, X, hsf, hname, hvals⟩, hfirst⟩ := hpre
  refine ⟨hcls, ?_, ?_, ?_⟩
  · simp [updateSF, hpts]
  · refine ⟨setValues (sf.resizeSafe o.points.length) blocks.sum (.val blocks.length) m, ?_, ?_,
      ?_⟩
    · rw [updateSF_get, if_pos rfl, hsf]
      rfl
    · rw [setValues_name]
      exact hname
    · have hl : (sf.resizeSafe o.points.length).values.length = blocks.sum + m := by
        rw [resizeSafe_length, hpts]
      have hle : blocks.sum ≤ sf.values.length := by
        rw [hvals, List.length_append, expectedIndexField_length]
        omega
      rw [setValues_full _ _ _ _ hl, resizeSafe_take _ _ _ (by omega) hle, hvals,
        List.take_left' (expectedIndexField_length blocks 0), expectedIndexField_append]
      simp
  · intro j hj s hs
    rw [updateSF_get, if_neg (by omega)] at hs
    exact hfirst j hj s hs

theorem accState_appended_zero (o : ccHObject) (k : Nat) (blocks : List Nat)
    (hacc : AccState o k blocks) : AccAppended o k blocks 0 := by
  obtain ⟨hcls, hpts, ⟨sf, hsf, hname, hvals⟩, hfirst⟩ := hacc
  exact ⟨hcls, by simpa using hpts, ⟨sf, [], hsf, hname, by simpa using hvals⟩, hfirst⟩

theorem accState_append (o added : ccHObject) (k : Nat) (blocks : List Nat)
    (hacc : AccState o k blocks) :
    AccAppended
      { o with points := o.points ++ added.points,
               scalarFields := appendScalarFields o added } k blocks added.points.length := by
  obtain ⟨hcls, hpts, ⟨sf, hsf, hname, hvals⟩, hfirst⟩ := hacc
  refine ⟨hcls, by simp [hpts], ?_, ?_⟩
  · obtain ⟨X, hX⟩ := appendScalarFields_get o added k sf hsf
    exact ⟨_, X, hX, hname, by rw [hvals]⟩
  · intro j hj s hs
    have hk : k < o.scalarFields.length := (List.getElem?_eq_some.mp hsf).1
    have hjl : j < o.scalarFields.length := by omega
    obtain ⟨X, hX⟩ := appendScalarFields_get o added j _ (List.getElem?_eq_getElem hjl)
    simp only at hs
    rw [hX] at hs
    simp only [Option.some.injEq] at hs
    rw [← hs]
    exact hfirst j hj (o.scalarFields[j]) (List.getElem?_eq_getElem hjl)

theorem cloneThis_some (h : Heap) (pc : Nat) (op : ccHObject) (hl : h.lookup pc = some op) :
    cloneThis h pc = (h ++ [some { op with parent := none, children := [] }], h.length) := by
  simp [cloneThis, hl, Heap.alloc]

theorem cloudAppend_true (h : Heap) (fc pc : Nat) (o ad : ccHObject)
    (hfc : h.lookup fc = some o) (hpc : h.lookup pc = some ad) :
    cloudAppend true h fc pc =
      h.store fc { o with points := o.points ++ ad.points,
                          scalarFields := appendScalarFields o ad } := by
  simp [cloudAppend, hfc, hpc]

theorem appendedHeap_spec (env : MergeEnv) (del : Bool) (i pc fc : Nat) (st : MergeState)
    (h : Heap) (k : Nat) (blocks : List Nat) (op : ccHObject)
    (hinv : MergeInv h fc k blocks st) (hpc : h.lookup pc = some op) (hne : pc ≠ fc) :
    ∃ o1, (appendedHeap env del i pc fc st).lookup fc = some o1 ∧
      (env.appendOk i = true → AccAppended o1 k blocks op.points.length) ∧
      (env.appendOk i = false → AccState o1 k blocks) ∧
      (∀ a, a ≠ fc → a < h.length → (appendedHeap env del i pc fc st).lookup a = h.lookup a) ∧
      h.length ≤ (appendedHeap env del i pc fc st).length := by
  obtain ⟨_, _, _, ⟨o, hfc, hacc⟩, hframe, _, hlen⟩ := hinv
  have hpclt : pc < h.length := lookup_lt h pc op hpc
  have hfclt : fc < st.heap.length := lookup_lt _ _ _ hfc
  have hpc2 : st.heap.lookup pc = some op := by rw [hframe pc hne hpclt, hpc]
  cases hok : env.appendOk i with
  | false =>
    refine ⟨o, ?_, by simp, fun _ => hacc, ?_, ?_⟩
    · cases del
      · simp only [appendedHeap, hok, cloudAppend, Bool.false_eq_true, if_false]
        rw [cloneThis_some _ _ _ hpc2]
        simp only
        rw [lookup_append_left _ _ _ hfclt, hfc]
      · simpa [appendedHeap, hok, cloudAppend] using hfc
    · intro a hafc halt
      cases del
      · simp only [appendedHeap, hok, cloudAppend, Bool.false_eq_true, if_false]
        rw [cloneThis_some _ _ _ hpc2]
        simp only
        rw [lookup_append_left _ _ _ (by omega), hframe a hafc halt]
      · simpa [appendedHeap, hok, cloudAppend] using hframe a hafc halt
    · cases del
      · simp only [appendedHeap, hok, cloudAppend, Bool.false_eq_true, if_false]
        rw [cloneThis_some _ _ _ hpc2]
        simp only [List.length_append, List.length_singleton]
        omega
      · simpa [appendedHeap, hok, cloudAppend] using hlen
  | true =>
    cases del with
    | true =>
      have happ : appendedHeap env true i pc fc st =
          st.heap.store fc { o with points := o.points ++ op.points,
                                    scalarFields := appendScalarFields o op } := by
        simp only [appendedHeap, hok, if_true]
        exact cloudAppend_true _ _ _ _ _ hfc hpc2
      rw [happ]
      refine ⟨_, lookup_store_same _ _ _ hfclt, fun _ => accState_append o op k blocks hacc,
        by simp, ?_, ?_⟩
      · intro a hafc halt
        rw [lookup_store_other _ _ _ _ (Ne.symm hafc), hframe a hafc halt]
      · rw [store_length]
        exact hlen
    | false =>
      have hfc3 : Heap.lookup (st.heap ++ [some { op with parent := none, children := [] }]) fc =
          some o := by rw [lookup_append_left _ _ _ hfclt, hfc]
      have happ : appendedHeap env false i pc fc st =
          Heap.store (st.heap ++ [some { op with parent := none, children := [] }]) fc
            { o with points := o.points ++ op.points,
                     scalarFields := appendScalarFields o
                       { op with parent := none, children := [] } } := by
        simp only [appendedHeap, hok, Bool.false_eq_true, if_false]
        rw [cloneThis_some _ _ _ hpc2]
        simp only
        rw [cloudAppend_true _ _ _ _ _ hfc3 (lookup_append_new _ _)]
      rw [happ]
      refine ⟨_, lookup_store_same _ _ _ (by simp; omega),
        fun _ => accState_append o { op with parent := none, children := [] } k blocks hacc,
        by simp, ?_, ?_⟩
      · intro a hafc halt
        rw [lookup_store_other _ _ _ _ (Ne.symm hafc), lookup_append_left _ _ _ (by omega),
          hframe a hafc halt]
      · rw [store_length]
        simp only [List.length_append, List.length_singleton]
        omega

theorem swapRemove_subset (l : List Nat) (j x : Nat) (hx : x ∈ swapRemove l j) : x ∈ l := by
  unfold swapRemove at hx
  cases hlast : l.getLast? with
  | none => simpa [hlast] using hx
  | some b =>
    simp only [hlast] at hx
    have hx2 := List.mem_of_mem_dropLast hx
    rcases List.mem_or_eq_of_mem_set hx2 with h1 | h1
    · exact h1
    · rw [h1]
      exact List.mem_of_getLast?_eq_some hlast

theorem run_subset (h : Heap) (c n j : Nat) (l : List Nat) (x : Nat)
    (hx : x ∈ AddToRemoveListPy.run h c n j l) : x ∈ l ∨ x = c := by
  induction n generalizing j l with
  | zero => simpa [AddToRemoveListPy.run] using hx
  | succ n ih =>
    simp only [AddToRemoveListPy.run] at hx
    cases hj : l[j]? with
    | none => simpa [hj] using hx
    | some e =>
      simp only [hj] at hx
      split at hx
      · exact Or.inl hx
      · split at hx
        · rcases ih _ _ hx with h1 | h1
          · exact Or.inl (swapRemove_subset l j x h1)
          · exact Or.inr h1
        · exact ih _ _ hx

theorem selectToRemove_ne (h : Heap) (pc fc : Nat) (o : ccHObject)
    (hfc : h.lookup fc = some o) (hcls : o.classId = .POINT_CLOUD) (hne : pc ≠ fc) :
    selectToRemove h pc ≠ fc := by
  unfold selectToRemove
  cases getParent h pc with
  | none => exact hne
  | some parent =>
    simp only
    split
    · rename_i hc
      intro hp
      subst hp
      simp [isA, hfc, hcls] at hc
    · exact hne

theorem cloudSize_of_lookup (h : Heap) (a : Nat) (o : ccHObject) (hl : h.lookup a = some o) :
    cloudSize h a = o.points.length := by
  simp [cloudSize, hl]

theorem mergeNext_success (env : MergeEnv) (del : Bool) (i pc fc : Nat) (st : MergeState)
    (h : Heap) (k : Nat) (blocks : List Nat) (op : ccHObject)
    (hinv : MergeInv h fc k blocks st) (hpc : h.lookup pc = some op) (hne : pc ≠ fc)
    (hok : env.appendOk i = true ∨ op.points.length = 0)
    (hcast : env.castIndex blocks.length = blocks.length) :
    (mergeNext env del i pc fc st).2 = false ∧
      MergeInv h fc k (blocks ++ [op.points.length]) (mergeNext env del i pc fc st).1 ∧
      (mergeNext env del i pc fc st).1.merged = st.merged ++ [pc] := by
  obtain ⟨o1, hl1, hT, hF, hframe1, hlen1⟩ :=
    appendedHeap_spec env del i pc fc st h k blocks op hinv hpc hne
  obtain ⟨hfirst, hsf, hcount, ⟨o, hfc, hacc⟩, hframe, hsched, hlen⟩ := hinv
  have hpre : AccAppended o1 k blocks op.points.length := by
    cases hb : env.appendOk i with
    | true => exact hT hb
    | false =>
      rcases hok with h1 | h1
      · rw [hb] at h1
        exact absurd h1 (by simp)
      · rw [h1]
        exact accState_appended_zero o1 k blocks (hF hb)
  have hcb : cloudSize st.heap fc = blocks.sum := by
    rw [cloudSize_of_lookup _ _ _ hfc]
    exact hacc.2.1
  have hca : cloudSize st.heap pc = op.points.length := by
    rw [cloudSize_of_lookup st.heap pc op (by rw [hframe pc hne (lookup_lt h pc op hpc), hpc])]
  have hsz : cloudSize (appendedHeap env del i pc fc st) fc = blocks.sum + op.points.length := by
    rw [cloudSize_of_lookup _ _ _ hl1]
    exact hpre.2.1
  have hfclt : fc < (appendedHeap env del i pc fc st).length := lookup_lt _ _ _ hl1
  have hidx : st.cloudIndex + 1 = blocks.length := hcount
  simp only [mergeNext, hcb, hca, hsz, if_true, hsf, hl1, hidx, hcast]
  refine ⟨trivial, ⟨hfirst, rfl, by simp, ⟨_, lookup_store_same _ _ _ hfclt,
    accAppended_update o1 k blocks op.points.length hpre⟩, ?_, ?_, ?_⟩, trivial⟩
  · intro a hafc halt
    rw [lookup_store_other _ _ _ _ (Ne.symm hafc)]
    exact hframe1 a hafc halt
  · intro x hx
    cases del with
    | false => exact hsched x (by simpa using hx)
    | true =>
      simp only [if_true] at hx
      rcases run_subset _ _ _ _ _ x hx with h1 | h1
      · exact hsched x h1
      · rw [h1]
        exact selectToRemove_ne _ pc fc o1 hl1 hpre.1 hne
  · rw [store_length]
    exact hlen1

theorem mergeNext_failure (env : MergeEnv) (del : Bool) (i pc fc : Nat) (st : MergeState)
    (h : Heap) (k : Nat) (blocks : List Nat) (op : ccHObject)
    (hinv : MergeInv h fc k blocks st) (hpc : h.lookup pc = some op) (hne : pc ≠ fc)
    (hok : env.appendOk i = false) (hm : op.points.length ≠ 0) :
    (mergeNext env del i pc fc st).2 = true ∧
      MergeInv h fc k blocks (mergeNext env del i pc fc st).1 ∧
      (mergeNext env del i pc fc st).1.merged = st.merged := by
  obtain ⟨o1, hl1, _, hF, hframe1, hlen1⟩ :=
    appendedHeap_spec env del i pc fc st h k blocks op hinv hpc hne
  obtain ⟨hfirst, hsf, hcount, ⟨o, hfc, hacc⟩, hframe, hsched, hlen⟩ := hinv
  have hacc1 := hF hok
  have hcb : cloudSize st.heap fc = blocks.sum := by
    rw [cloudSize_of_lookup _ _ _ hfc]
    exact hacc.2.1
  have hca : cloudSize st.heap pc = op.points.length := by
    rw [cloudSize_of_lookup st.heap pc op (by rw [hframe pc hne (lookup_lt h pc op hpc), hpc])]
  have hsz : cloudSize (appendedHeap env del i pc fc st) fc = blocks.sum := by
    rw [cloudSize_of_lookup _ _ _ hl1]
    exact hacc1.2.1
  have hneq : ¬ blocks.sum = blocks.sum + op.points.length := by omega
  simp only [mergeNext, hcb, hca, hsz, if_neg hneq]
  exact ⟨trivial, ⟨hfirst, hsf, hcount, ⟨o1, hl1, hacc1⟩, hframe1, hsched, hlen1⟩, trivial⟩

theorem mergeLoop_spec (env : MergeEnv) (del : Bool) (h : Heap) (fc k : Nat)
    (rest : List Nat) (i : Nat) (st : MergeState) (blocks : List Nat)
    (hinv : MergeInv h fc k blocks st)
    (hvalid : ∀ pc ∈ rest, (∃ op, h.lookup pc = some op) ∧ pc ≠ fc)
    (hcast : ∀ j, blocks.length ≤ j → j < blocks.length + rest.length → env.castIndex j = j) :
    ∃ n, n ≤ rest.length ∧
      (mergeLoop env del true rest i st).2 = .finished ∧
      MergeInv h fc k (blocks ++ (rest.take n).map (cloudSize h))
        (mergeLoop env del true rest i st).1 ∧
      (mergeLoop env del true rest i st).1.merged = st.merged ++ rest.take n ∧
      (n < rest.length → env.appendOk (i + n) = false) := by
  induction rest generalizing i st blocks with
  | nil =>
    refine ⟨0, Nat.le_refl _, rfl, ?_, ?_, ?_⟩
    · simpa [mergeLoop] using hinv
    · simp [mergeLoop]
    · intro hlt
      simp at hlt
  | cons pc rest ih =>
    obtain ⟨⟨op, hpc⟩, hne⟩ := hvalid pc (List.mem_cons_self _ _)
    have hrest : ∀ x ∈ rest, (∃ op, h.lookup x = some op) ∧ x ≠ fc :=
      fun x hx => hvalid x (List.mem_cons_of_mem _ hx)
    have hfirst : st.firstCloud = some fc := hinv.1
    have hsize : cloudSize h pc = op.points.length := cloudSize_of_lookup h pc op hpc
    by_cases hok : env.appendOk i = true ∨ op.points.length = 0
    · obtain ⟨h1, h2, h3⟩ := mergeNext_success env del i pc fc st h k blocks op hinv hpc hne hok
        (hcast _ (Nat.le_refl _) (by simp))
      obtain ⟨n, hn, hfin, hinv2, hmerged, hstop⟩ := ih (i + 1) _ _ h2 hrest
        (fun j hj1 hj2 => by
          rw [List.length_append, List.length_singleton] at hj1 hj2
          exact hcast j (by omega) (by rw [List.length_cons]; omega))
      refine ⟨n + 1, by simp; omega, ?_, ?_, ?_, ?_⟩
      · simp only [mergeLoop, hfirst]
        generalize hmn : mergeNext env del i pc fc st = r at h1 hfin
        obtain ⟨st1, b⟩ := r
        simp only at h1
        subst h1
        exact hfin
      · simp only [mergeLoop, hfirst]
        generalize hmn : mergeNext env del i pc fc st = r at h1 hinv2
        obtain ⟨st1, b⟩ := r
        simp only at h1
        subst h1
        simpa [hsize, List.append_assoc] using hinv2
      · simp only [mergeLoop, hfirst]
        generalize hmn : mergeNext env del i pc fc st = r at h1 h3 hmerged
        obtain ⟨st1, b⟩ := r
        simp only at h1 h3
        subst h1
        simp only
        rw [hmerged, h3]
        simp
      · intro hlt
        have := hstop (by simpa using hlt)
        rw [show i + (n + 1) = i + 1 + n by omega]
        exact this
    · have hok1 : env.appendOk i = false := by
        cases hb : env.appendOk i with
        | false => rfl
        | true => exact absurd (Or.inl hb) hok
      have hm : op.points.length ≠ 0 := fun hz => hok (Or.inr hz)
      obtain ⟨h1, h2, h3⟩ := mergeNext_failure env del i pc fc st h k blocks op hinv hpc hne
        hok1 hm
      refine ⟨0, Nat.zero_le _, ?_, ?_, ?_, fun _ => hok1⟩
      · simp only [mergeLoop, hfirst]
        generalize hmn : mergeNext env del i pc fc st = r at h1
        obtain ⟨st1, b⟩ := r
        simp only at h1
        subst h1
        rfl
      · simp only [mergeLoop, hfirst]
        generalize hmn : mergeNext env del i pc fc st = r at h1 h2
        obtain ⟨st1, b⟩ := r
        simp only at h1
        subst h1
        simpa using h2
      · simp only [mergeLoop, hfirst]
        generalize hmn : mergeNext env del i pc fc st = r at h1 h3
        obtain ⟨st1, b⟩ := r
        simp only at h1 h3
        subst h1
        simpa using h3

theorem map_const_eq_replicate {α β : Type} (l : List α) (b : β) :
    l.map (fun _ => b) = List.replicate l.length b := by
  induction l with
  | nil => rfl
  | cons a t ih => simp [List.replicate_succ, ih]

theorem acquire_fill_spec (o : ccHObject) (hcls : o.classId = .POINT_CLOUD)
    (hwf : ∀ sf ∈ o.scalarFields, sf.values.length = o.points.length) :
    ¬ (acquireScalarField true o CC_ORIGINAL_CLOUD_INDEX_SF_NAME).2 < 0 ∧
      AccState
        { updateSF (acquireScalarField true o CC_ORIGINAL_CLOUD_INDEX_SF_NAME).1
            (acquireScalarField true o CC_ORIGINAL_CLOUD_INDEX_SF_NAME).2.toNat
            (fun sf => sf.fill (.val 0)) with
          currentDisplayedSF := (acquireScalarField true o CC_ORIGINAL_CLOUD_INDEX_SF_NAME).2 }
        (acquireScalarField true o CC_ORIGINAL_CLOUD_INDEX_SF_NAME).2.toNat
        [o.points.length] := by
  cases hany : o.scalarFields.any (fun sf => sf.name == CC_ORIGINAL_CLOUD_INDEX_SF_NAME) with
  | false =>
    rw [acquire_absent true o _ hany]
    simp only [if_true, Int.toNat_ofNat]
    refine ⟨by omega, hcls, by simp [updateSF], ?_, ?_⟩
    · refine ⟨⟨CC_ORIGINAL_CLOUD_INDEX_SF_NAME, List.replicate o.points.length (.val 0)⟩, ?_, rfl,
        by simp [expectedIndexField]⟩
      simp [updateSF, List.getElem?_modify, ScalarField.fill]
    · intro j hj s hs
      have hs1 : (updateSF { o with scalarFields := o.scalarFields ++
          [⟨CC_ORIGINAL_CLOUD_INDEX_SF_NAME, List.replicate o.points.length (.val 0)⟩] }
          o.scalarFields.length (fun sf => sf.fill (.val 0))).scalarFields[j]? = some s := hs
      rw [updateSF_get, if_neg (by omega)] at hs1
      have hs2 : o.scalarFields[j]? = some s := by
        rw [← hs1]
        exact (List.getElem?_append_left hj).symm
      have hmem : s ∈ o.scalarFields := List.getElem?_mem hs2
      have := List.any_eq_false.mp hany s hmem
      simpa using this
  | true =>
    have hex : ∃ x ∈ o.scalarFields,
        (fun sf : ScalarField => sf.name == CC_ORIGINAL_CLOUD_INDEX_SF_NAME) x = true := by
      simpa [List.any_eq_true] using hany
    have hlt : o.scalarFields.findIdx
        (fun sf => sf.name == CC_ORIGINAL_CLOUD_INDEX_SF_NAME) < o.scalarFields.length :=
      List.findIdx_lt_length_of_exists hex
    have hidx : getScalarFieldIndexByName o CC_ORIGINAL_CLOUD_INDEX_SF_NAME =
        ((o.scalarFields.findIdx
          (fun sf => sf.name == CC_ORIGINAL_CLOUD_INDEX_SF_NAME) : Nat) : Int) := by
      simp [getScalarFieldIndexByName, hlt]
    have hacq : acquireScalarField true o CC_ORIGINAL_CLOUD_INDEX_SF_NAME =
        (o, ((o.scalarFields.findIdx
          (fun sf => sf.name == CC_ORIGINAL_CLOUD_INDEX_SF_NAME) : Nat) : Int)) := by
      unfold acquireScalarField
      simp only [hidx]
      rw [if_neg (by omega)]
    rw [hacq]
    simp only [Int.toNat_ofNat]
    have hp : (o.scalarFields[o.scalarFields.findIdx
        (fun sf => sf.name == CC_ORIGINAL_CLOUD_INDEX_SF_NAME)].name ==
          CC_ORIGINAL_CLOUD_INDEX_SF_NAME) = true :=
      List.findIdx_getElem (w := hlt)
    refine ⟨by omega, hcls, by simp [updateSF], ?_, ?_⟩
    · refine ⟨(o.scalarFields[o.scalarFields.findIdx
          (fun sf => sf.name == CC_ORIGINAL_CLOUD_INDEX_SF_NAME)]).fill (.val 0), ?_, ?_, ?_⟩
      · simp [updateSF, List.getElem?_modify, List.getElem?_eq_getElem hlt]
      · simpa [ScalarField.fill] using hp
      · simp only [ScalarField.fill, expectedIndexField, List.append_nil]
        rw [map_const_eq_replicate, hwf _ (List.getElem_mem _)]
    · intro j hj s hs
      have hs2 : (updateSF o (o.scalarFields.findIdx
          (fun sf => sf.name == CC_ORIGINAL_CLOUD_INDEX_SF_NAME))
          (fun sf => sf.fill (.val 0))).scalarFields[j]? = some s := hs
      rw [updateSF_get, if_neg (by omega)] at hs2
      obtain ⟨hjl, hjs⟩ := List.getElem?_eq_some.mp hs2
      have := List.not_of_lt_findIdx hj
      rw [← hjs]
      simpa using this

theorem mergeFirst_spec (env : MergeEnv) (del : Bool) (c0 : Nat) (h : Heap) (o0 : ccHObject)
    (hl : h.lookup c0 = some o0) (hcls : o0.classId = .POINT_CLOUD)
    (hwf : wellFormedCloud h c0 = true) (hsf : env.addScalarFieldOk = true) :
    ∃ k, (mergeFirst env del true c0 (initialMergeState h)).2 = false ∧
      MergeInv h (accumulatorOf h del c0) k [o0.points.length]
        (mergeFirst env del true c0 (initialMergeState h)).1 ∧
      (mergeFirst env del true c0 (initialMergeState h)).1.merged = [] := by
  have hwf0 : ∀ sf ∈ o0.scalarFields, sf.values.length = o0.points.length := by
    intro sf hsfm
    simp only [wellFormedCloud, hl, List.all_eq_true] at hwf
    simpa using hwf sf hsfm
  have hc0 : c0 < h.length := lookup_lt h c0 o0 hl
  cases del with
  | true =>
    obtain ⟨hpos, hacc⟩ := acquire_fill_spec o0 hcls hwf0
    refine ⟨(acquireScalarField true o0 CC_ORIGINAL_CLOUD_INDEX_SF_NAME).2.toNat, ?_, ?_, ?_⟩
    · simp only [mergeFirst, initialMergeState, if_true, hl, hsf, if_neg hpos]
    · simp only [mergeFirst, initialMergeState, if_true, hl, hsf, if_neg hpos, accumulatorOf]
      refine ⟨rfl, rfl, rfl, ⟨_, lookup_store_same _ _ _ hc0, hacc⟩, ?_, ?_, ?_⟩
      · intro a ha _
        exact lookup_store_other _ _ _ _ (Ne.symm ha)
      · intro x hx
        simp at hx
      · simp [store_length]
    · simp only [mergeFirst, initialMergeState, if_true, hl, hsf, if_neg hpos]
  | false =>
    have hcl := cloneThis_some h c0 o0 hl
    have hlc : Heap.lookup (h ++ [some { o0 with parent := none, children := [] }]) h.length =
        some { o0 with parent := none, children := [] } := lookup_append_new _ _
    obtain ⟨hpos, hacc⟩ := acquire_fill_spec { o0 with parent := none, children := [] } hcls hwf0
    refine ⟨(acquireScalarField true { o0 with parent := none, children := [] }
      CC_ORIGINAL_CLOUD_INDEX_SF_NAME).2.toNat, ?_, ?_, ?_⟩
    · simp only [mergeFirst, initialMergeState, Bool.false_eq_true, if_false, if_true, hcl, hlc,
        hsf, if_neg hpos]
    · simp only [mergeFirst, initialMergeState, Bool.false_eq_true, if_false, if_true, hcl, hlc,
        hsf, if_neg hpos, accumulatorOf]
      refine ⟨rfl, rfl, rfl, ⟨_, lookup_store_same _ _ _ (by simp), hacc⟩, ?_, ?_, ?_⟩
      · intro a ha halt
        rw [lookup_store_other _ _ _ _ (Ne.symm ha), lookup_append_left _ _ _ halt]
      · intro x hx
        simp at hx
      · simp [store_length]
    · simp only [mergeFirst, initialMergeState, Bool.false_eq_true, if_false, if_true, hcl, hlc,
        hsf, if_neg hpos]

theorem pushCloud_mem (h : Heap) (l : List Nat) (c x : Nat) (hx : x ∈ pushCloud h l c) :
    x ∈ l ∨ x = c := by
  cases l with
  | nil =>
    rw [pushCloud_nil] at hx
    simpa using hx
  | cons f t =>
    rw [pushCloud_cons] at hx
    split at hx
    · simp at hx
      simp
      tauto
    · simp at hx
      simp
      tauto

theorem classify_clouds_valid (env : MergeEnv) (h : Heap) (entities : List (Option Nat))
    (i : Nat) (clouds meshes : List Nat) (res : List Nat × List Nat)
    (hres : classify env h entities i clouds meshes = some res) :
    ∀ c ∈ res.1, c ∈ clouds ∨ isA h c .POINT_CLOUD = true := by
  induction entities generalizing i clouds meshes with
  | nil =>
    simp [classify] at hres
    subst hres
    exact fun c hc => Or.inl hc
  | cons e rest ih =>
    cases e with
    | none => exact ih _ _ _ (by simpa [classify] using hres)
    | some entity =>
      simp only [classify] at hres
      split at hres
      · rename_i hisa
        split at hres
        · exact Option.noConfusion hres
        · intro c hc
          rcases ih _ _ _ hres c hc with h1 | h1
          · rcases pushCloud_mem h clouds entity c h1 with h2 | h2
            · exact Or.inl h2
            · rw [h2]
              exact Or.inr hisa
          · exact Or.inr h1
      · split at hres
        · split at hres
          · split at hres
            · exact Option.noConfusion hres
            · exact ih _ _ _ hres
          · exact ih _ _ _ hres
        · exact ih _ _ _ hres

theorem isA_lookup (h : Heap) (a : Nat) (t : CC_TYPES) (ha : isA h a t = true) :
    ∃ o, h.lookup a = some o ∧ o.classId = t := by
  unfold isA at ha
  cases hl : h.lookup a with
  | none => simp [hl] at ha
  | some o => exact ⟨o, rfl, by simpa [hl] using ha⟩

theorem cloudData_store (h : Heap) (x : Nat) (ox o1 : ccHObject) (hx : h.lookup x = some ox)
    (hd : cloudData (some o1) = cloudData (some ox)) (a : Nat) :
    cloudData ((h.store x o1).lookup a) = cloudData (h.lookup a) := by
  rw [lookup_store]
  by_cases hc : x = a ∧ x < h.length
  · rw [if_pos hc, ← hc.1, hx]
    exact hd
  · rw [if_neg hc]

theorem cloudData_removeChild (h : Heap) (parent child a : Nat) :
    cloudData ((removeChild h parent child).lookup a) = cloudData (h.lookup a) := by
  have h1 : ∀ b, cloudData ((dropChild h parent child).lookup b) = cloudData (h.lookup b) := by
    intro b
    unfold dropChild
    cases hp : h.lookup parent with
    | none => rfl
    | some p =>
      exact cloudData_store h parent p { p with children := p.children.erase child } hp rfl b
  have h2 : ∀ (g : Heap) b, cloudData ((clearParent g child).lookup b) = cloudData (g.lookup b) := by
    intro g b
    unfold clearParent
    cases hc : g.lookup child with
    | none => rfl
    | some c =>
      exact cloudData_store g child c { c with parent := none } hc rfl b
  unfold removeChild
  rw [h2, h1]

theorem lookup_free_other (h : Heap) (x a : Nat) (hxa : x ≠ a) :
    (h.free x).lookup a = h.lookup a := by
  simp [Heap.free, Heap.lookup, List.getElem?_set_ne hxa]

theorem removeScheduled_cons (h : Heap) (x : Nat) (rest : List Nat) :
    ((h.lookup x = none ∨ ∃ p, getParent h x = some p ∧ h.lookup p = none) ∧
        removeScheduled h (x :: rest) = (h, some .useAfterFree)) ∨
      (getParent h x = none ∧ removeScheduled h (x :: rest) = removeScheduled (h.free x) rest) ∨
      ∃ p, getParent h x = some p ∧
        removeScheduled h (x :: rest) = removeScheduled (removeChild h p x) rest := by
  cases hl : h.lookup x with
  | none => exact Or.inl ⟨Or.inl rfl, by simp [removeScheduled, hl]⟩
  | some o =>
    cases hp : o.parent with
    | none =>
      exact Or.inr (Or.inl ⟨by simp [getParent, hl, hp], by simp [removeScheduled, hl, hp]⟩)
    | some p =>
      cases hlp : h.lookup p with
      | none =>
        exact Or.inl ⟨Or.inr ⟨p, by simp [getParent, hl, hp], hlp⟩,
          by simp [removeScheduled, hl, hp, hlp]⟩
      | some op =>
        exact Or.inr (Or.inr ⟨p, by simp [getParent, hl, hp],
          by simp [removeScheduled, hl, hp, hlp]⟩)

theorem cloudData_removeScheduled (h : Heap) (l : List Nat) (a : Nat) (ha : a ∉ l) :
    cloudData ((removeScheduled h l).1.lookup a) = cloudData (h.lookup a) := by
  induction l generalizing h with
  | nil => rfl
  | cons x rest ih =>
    have hxa : x ≠ a := fun hc => ha (by simp [hc])
    have harest : a ∉ rest := fun hc => ha (List.mem_cons_of_mem _ hc)
    rcases removeScheduled_cons h x rest with ⟨_, h1⟩ | ⟨_, h1⟩ | ⟨p, _, h1⟩
    · rw [h1]
    · rw [h1, ih _ harest, lookup_free_other h x a hxa]
    · rw [h1, ih _ harest, cloudData_removeChild]

theorem fieldValues_of_accState (o : ccHObject) (k : Nat) (blocks : List Nat)
    (hacc : AccState o k blocks) :
    fieldValues o CC_ORIGINAL_CLOUD_INDEX_SF_NAME = some (expectedIndexField blocks 0) := by
  obtain ⟨_, _, ⟨sf, hsf, hname, hvals⟩, hfirst⟩ := hacc
  unfold fieldValues
  rw [find?_of_first _ o.scalarFields k sf hsf (by simp [hname]) hfirst]
  simp [hvals]

theorem cloudData_some (o : Option ccHObject) (pts : List Point) (sfs : List ScalarField)
    (hd : cloudData o = some (pts, sfs)) :
    ∃ o1, o = some o1 ∧ o1.points = pts ∧ o1.scalarFields = sfs := by
  cases o with
  | none => simp [cloudData] at hd
  | some o1 =>
    simp only [cloudData, Option.map_some', Option.some.injEq, Prod.mk.injEq] at hd
    exact ⟨o1, rfl, hd.1, hd.2⟩

/-- The cloud branch of `MergeEntitiesPy` with the index field requested, on
a first cloud `c0` and further clouds `rest`: the first `n` clouds of `rest`
are merged, `n` being all of them unless an append fails. -/
theorem mergeClouds_spec (env : MergeEnv) (del : Bool) (h : Heap) (c0 : Nat) (rest : List Nat)
    (o0 : ccHObject) (hl : h.lookup c0 = some o0) (hcls : o0.classId = .POINT_CLOUD)
    (hvalid : ∀ pc ∈ rest, ∃ op, h.lookup pc = some op)
    (hwf : wellFormedCloud h c0 = true) (hsf : env.addScalarFieldOk = true)
    (hdist : del = true → c0 ∉ rest)
    (hcast : ∀ j, j ≤ rest.length → env.castIndex j = j) :
    ∃ n o, n ≤ rest.length ∧
      (mergeClouds env del true h (c0 :: rest)).result = some (accumulatorOf h del c0) ∧
      (mergeClouds env del true h (c0 :: rest)).cloud = some o ∧
      (mergeClouds env del true h (c0 :: rest)).merged = rest.take n ∧
      o.points.length = ((c0 :: rest.take n).map (cloudSize h)).sum ∧
      fieldValues o CC_ORIGINAL_CLOUD_INDEX_SF_NAME =
        some (expectedIndexField ((c0 :: rest.take n).map (cloudSize h)) 0) ∧
      (n < rest.length → env.appendOk (1 + n) = false) := by
  obtain ⟨k, hf2, hinv1, hm1⟩ := mergeFirst_spec env del c0 h o0 hl hcls hwf hsf
  have hvalid2 : ∀ pc ∈ rest, (∃ op, h.lookup pc = some op) ∧ pc ≠ accumulatorOf h del c0 := by
    intro pc hpc
    obtain ⟨op, hop⟩ := hvalid pc hpc
    refine ⟨⟨op, hop⟩, ?_⟩
    cases del with
    | true =>
      intro hc
      simp only [accumulatorOf, if_true] at hc
      exact hdist rfl (hc ▸ hpc)
    | false =>
      have := lookup_lt h pc op hop
      simp only [accumulatorOf, Bool.false_eq_true, if_false]
      omega
  obtain ⟨n, hn, hfin, hinv2, hmerged, hstop⟩ := mergeLoop_spec env del h
    (accumulatorOf h del c0) k rest 1 _ [o0.points.length] hinv1 hvalid2
    (fun j _ hj2 => hcast j (by simp only [List.length_singleton] at hj2; omega))
  have hloop : mergeLoop env del true (c0 :: rest) 0 (initialMergeState h) =
      mergeLoop env del true rest 1 (mergeFirst env del true c0 (initialMergeState h)).1 := by
    have hnone : (initialMergeState h).firstCloud = none := rfl
    simp only [mergeLoop, hnone]
    generalize mergeFirst env del true c0 (initialMergeState h) = r at hf2
    obtain ⟨st1, b⟩ := r
    simp only at hf2
    subst hf2
    rfl
  rw [hm1, List.nil_append] at hmerged
  have hsize0 : cloudSize h c0 = o0.points.length := cloudSize_of_lookup h c0 o0 hl
  have hblocks : [o0.points.length] ++ (rest.take n).map (cloudSize h) =
      (c0 :: rest.take n).map (cloudSize h) := by simp [hsize0]
  rw [hblocks] at hinv2
  simp only [mergeClouds, hloop, MergeResult.cloud]
  generalize mergeLoop env del true rest 1
    (mergeFirst env del true c0 (initialMergeState h)).1 = r at hfin hinv2 hmerged
  obtain ⟨stf, ex⟩ := r
  simp only at hfin hinv2 hmerged
  subst hfin
  obtain ⟨hfirst, hocsf, _, ⟨o, hfc, hacc⟩, _, hsched, _⟩ := hinv2
  simp only [hfirst, hocsf, hfc, hmerged, Option.some_bind]
  have hfclt := lookup_lt _ _ _ hfc
  have hdata : cloudData ((if del = true then
      removeScheduled (stf.heap.store (accumulatorOf h del c0)
        { o with currentDisplayedSF := stf.sfIdx, sfShown := true }) stf.toBeRemoved
      else (stf.heap.store (accumulatorOf h del c0)
        { o with currentDisplayedSF := stf.sfIdx, sfShown := true }, none)).1.lookup
      (accumulatorOf h del c0)) = some (o.points, o.scalarFields) := by
    split
    · rw [cloudData_removeScheduled _ _ _ (fun hc => hsched _ hc rfl),
        lookup_store_same _ _ _ hfclt]
      rfl
    · rw [lookup_store_same _ _ _ hfclt]
      rfl
  obtain ⟨o1, ho1, hpts, hsfs⟩ := cloudData_some _ _ _ hdata
  refine ⟨n, o1, hn, trivial, ho1, rfl, ?_, ?_, hstop⟩
  · rw [hpts]
    exact hacc.2.1
  · have := fieldValues_of_accState o k _ hacc
    simp only [fieldValues, hsfs] at this ⊢
    exact this

theorem MergeEntitiesPy_clouds (env : MergeEnv) (h : Heap) (entities : List (Option Nat))
    (del sf sub : Bool) (c0 : Nat) (rest meshes : List Nat)
    (hclass : classify env h entities 0 [] [] = some (c0 :: rest, meshes)) :
    MergeEntitiesPy env h entities del sf sub = mergeClouds env del sf h (c0 :: rest) := by
  simp [MergeEntitiesPy, hclass]

theorem classified_valid (env : MergeEnv) (h : Heap) (entities : List (Option Nat))
    (clouds meshes : List Nat)
    (hclass : classify env h entities 0 [] [] = some (clouds, meshes)) :
    ∀ c ∈ clouds, ∃ o, h.lookup c = some o ∧ o.classId = .POINT_CLOUD := by
  intro c hc
  rcases classify_clouds_valid env h entities 0 [] [] _ hclass c hc with h1 | h1
  · simp at h1
  · exact isA_lookup h c _ h1

/-- The run of `MergeEntitiesPy` with the index field requested, on the
classified clouds `c0 :: rest`. -/
theorem MergeEntitiesPy_spec (env : MergeEnv) (h : Heap) (entities : List (Option Nat))
    (del sub : Bool) (c0 : Nat) (rest meshes : List Nat)
    (hclass : classify env h entities 0 [] [] = some (c0 :: rest, meshes))
    (hsf : env.addScalarFieldOk = true) (hwf : wellFormedCloud h c0 = true)
    (hdist : del = true → c0 ∉ rest)
    (hcast : ∀ j, j ≤ rest.length → env.castIndex j = j) :
    ∃ n o, n ≤ rest.length ∧
      (MergeEntitiesPy env h entities del true sub).cloud = some o ∧
      (MergeEntitiesPy env h entities del true sub).merged = rest.take n ∧
      o.points.length = ((c0 :: rest.take n).map (cloudSize h)).sum ∧
      fieldValues o CC_ORIGINAL_CLOUD_INDEX_SF_NAME =
        some (expectedIndexField ((c0 :: rest.take n).map (cloudSize h)) 0) ∧
      (n < rest.length → env.appendOk (1 + n) = false) := by
  rw [MergeEntitiesPy_clouds env h entities del true sub c0 rest meshes hclass]
  have hval := classified_valid env h entities _ _ hclass
  obtain ⟨o0, hl, hcls⟩ := hval c0 (List.mem_cons_self _ _)
  obtain ⟨n, o, hn, _, hcloud, hmerged, hpts, hfield, hstop⟩ :=
    mergeClouds_spec env del h c0 rest o0 hl hcls
      (fun pc hpc => (hval pc (List.mem_cons_of_mem _ hpc)).imp (fun _ hx => hx.1)) hwf hsf hdist
      hcast
  exact ⟨n, o, hn, hcloud, hmerged, hpts, hfield, hstop⟩

theorem mem_expectedIndexField (bs : List Nat) (s : Nat) (v : ScalarType)
    (hv : v ∈ expectedIndexField bs s) : ∃ i, s ≤ i ∧ v = .val i := by
  induction bs generalizing s with
  | nil => simp [expectedIndexField] at hv
  | cons b t ih =>
    simp only [expectedIndexField, List.mem_append] at hv
    rcases hv with h1 | h1
    · exact ⟨s, Nat.le_refl _, (List.mem_replicate.mp h1).2⟩
    · obtain ⟨i, hi, hvi⟩ := ih (s + 1) h1
      exact ⟨i, by omega, hvi⟩

theorem dedup_replicate_append (x : ScalarType) (l : List ScalarType) (hx : x ∉ l) (b : Nat) :
    (List.replicate (b + 1) x ++ l).dedup = x :: l.dedup := by
  induction b with
  | zero => simpa using List.dedup_cons_of_not_mem hx
  | succ b ih =>
    rw [List.replicate_succ, List.cons_append, List.dedup_cons_of_mem, ih]
    simp [List.replicate_succ]

theorem distinct_expectedIndexField (bs : List Nat) (s : Nat) :
    distinctValues (expectedIndexField bs s) = bs.countP (fun b => decide (b ≠ 0)) := by
  unfold distinctValues
  induction bs generalizing s with
  | nil => rfl
  | cons b t ih =>
    simp only [expectedIndexField]
    cases b with
    | zero => simpa using ih (s + 1)
    | succ b =>
      have hnot : ScalarType.val s ∉ expectedIndexField t (s + 1) := by
        intro hm
        obtain ⟨i, hi, hvi⟩ := mem_expectedIndexField t (s + 1) _ hm
        simp only [ScalarType.val.injEq] at hvi
        omega
      rw [dedup_replicate_append _ _ hnot, List.length_cons, ih (s + 1)]
      simp [List.countP_cons]

/-! ## createComponentsClouds_: names and residual selection -/

theorem createLoop_names (env : CreateEnv) (cloud : ccHObject)
    (components : List ReferenceCloud) (minPts : Nat) (rc : Bool)
    (order : List Nat) (i : Nat) (st st1 : CreateState)
    (hrun : createLoop env cloud components minPts rc order i st = .ok st1)
    (hnb : st.nbComp = st.resultClouds.length)
    (hnames : st.resultClouds.map (fun c => c.name) =
      (List.range st.resultClouds.length).map componentName) :
    st1.nbComp = st1.resultClouds.length ∧
      st1.resultClouds.map (fun c => c.name) =
        (List.range st1.resultClouds.length).map componentName := by
  induction order generalizing i st with
  | nil =>
    simp only [createLoop, Except.ok.injEq] at hrun
    subst hrun
    exact ⟨hnb, hnames⟩
  | cons c rest ih =>
    simp only [createLoop] at hrun
    cases hc : components[c]? with
    | none => simp [hc] at hrun
    | some comp =>
      simp only [hc] at hrun
      by_cases hbig : comp.size ≥ minPts
      · rw [if_pos hbig] at hrun
        by_cases hcl : env.cloneOk i = true
        · rw [if_pos hcl] at hrun
          refine ih _ _ hrun ?_ ?_
          · simp [hnb]
          · simp only [List.map_append, List.map_cons, List.map_nil, List.length_append,
              List.length_singleton, List.range_succ, hnames, hnb]
        · rw [if_neg hcl] at hrun
          exact ih _ _ hrun hnb hnames
      · rw [if_neg hbig] at hrun
        cases hadd : addSmall (env.addPointIndexOk i) comp.size 0 st.refCloud with
        | error f => simp [hadd] at hrun
        | ok r =>
          simp only [hadd] at hrun
          exact ih _ _ hrun hnb hnames

/-- C14: whenever `createComponentsClouds_` returns, its kept clouds are named
`CC#0`, `CC#1`, ... in the order in which they are returned: the number in the
name of the `i`-th kept cloud is `i`, whatever the components whose clone
failed or that are under the size threshold. -/
theorem createComponentsClouds_names (env : CreateEnv) (cloud : Option ccHObject)
    (components : List ReferenceCloud) (minPointsPerComponent : Nat)
    (randomColors sortBysize : Bool) (kept : List ccHObject)
    (resid : List (Option ccHObject))
    (hrun : createComponentsClouds_ env cloud components minPointsPerComponent randomColors
      sortBysize = .ok (kept, resid)) :
    kept.map (fun c => c.name) = (List.range kept.length).map componentName := by
  cases cloud with
  | none =>
    simp only [createComponentsClouds_, Except.ok.injEq, Prod.mk.injEq] at hrun
    rw [← hrun.1]
    rfl
  | some cloud =>
    by_cases hne : components = []
    · subst hne
      simp only [createComponentsClouds_, List.isEmpty_nil, if_true, Except.ok.injEq,
        Prod.mk.injEq] at hrun
      rw [← hrun.1]
      rfl
    · obtain ⟨st1, hloop, hk, _⟩ := createComponentsClouds_ok env cloud components
        minPointsPerComponent randomColors sortBysize hne kept resid hrun
      rw [hk]
      exact (createLoop_names env cloud components minPointsPerComponent randomColors _ _ _ st1
        hloop rfl rfl).2

/-- Witness of C14: three components of sizes 2, 3 and 1 with threshold 1; the
clone of the second one visited fails, and the two kept clouds are `CC#0` and
`CC#1`. -/
theorem createComponentsClouds_names_witness :
    ∃ kept resid,
      createComponentsClouds_ secondCloneFailsEnv (some sevenPoints) threeComponents 1 false
          true = .ok (kept, resid) ∧
        kept.map (fun c => c.points.length) = [3, 1] ∧
        kept.map (fun c => c.name) = ["CC#0", "CC#1"] ∧
        kept.map (fun c => c.name) = (List.range kept.length).map componentName :=
  ⟨_, _, rfl, by decide, by decide,
    createComponentsClouds_names secondCloneFailsEnv (some sevenPoints) threeComponents 1 false
      true _ _ rfl⟩

/-- C15, the failing run: with threshold 2 the only small component of the
cloud of seven points is the one made of point 5, but the residual cloud
holds point 0, which belongs to a kept component: the residual selection
receives the loop counter, not the index held by the component. -/
theorem createComponentsClouds_residual_points :
    selectPoints sevenPoints ⟨[5]⟩ = [105] ∧
      ∃ kept resid,
        createComponentsClouds_ okCreateEnv (some sevenPoints) threeComponents 2 false true =
          .ok (kept, resid) ∧
        resid.map (fun c => c.map (fun o => o.points)) = [some [100]] :=
  ⟨by decide, _, _, rfl, by decide⟩

/-! ## ExtractConnectedComponents_py: the count test and the octree failure -/

/-- C17, as amended: when the octree of a cloud cannot be built, the loop
over the clouds is left: that cloud and all the later ones are not processed,
and the triple returned holds what the earlier clouds gave. -/
theorem ccLoop_octree_failure (env : CCEnv) (minComponentSize maxNumberComponents : Int)
    (randColors : Bool) (cloud : Nat) (rest : List Nat) (i : Nat) (st : CCState)
    (pc : ccHObject) (hl : st.heap.lookup cloud = some pc)
    (hcls : pc.classId = .POINT_CLOUD) (hno : pc.octree = false)
    (hfail : env.computeOctreeOk i = false) :
    ccLoop env minComponentSize maxNumberComponents randColors (cloud :: rest) i st =
      .ok (tuple3 st, st.heap) := by
  have hp : processCloud env minComponentSize maxNumberComponents randColors i cloud st =
      .ok (.stop st) := by
    simp [processCloud, hl, hcls, hno, hfail]
  simp only [ccLoop, hp]

/-- Witness of C17 as amended: the octree of the first of two clouds fails and
the loop returns the empty triple without looking at the second. -/
theorem ccLoop_octree_failure_witness :
    ccLoop firstOctreeFailsEnv 1 10 false [0, 1] 0
        { heap := twoCloudsHeap, realComponentCount := 0, nbCloudDone := 0,
          resultComponents := [], residualComponents := [] } =
      .ok ([.int 0, .list [], .list []], twoCloudsHeap) :=
  ccLoop_octree_failure firstOctreeFailsEnv 1 10 false 0 [1] 0 _ sevenPoints (by decide)
    (by decide) (by decide) (by decide)

/-- Counterexample to C17 as stated: the octree of the first of two clouds
cannot be built; the second cloud, which alone gives two kept components, is
not processed: the result counts no cloud and holds no component. -/
theorem ExtractConnectedComponents_py_octree_counterexample :
    (∃ res heap,
      ExtractConnectedComponents_py firstOctreeFailsEnv twoCloudsHeap [0, 1] 8 1 10 false =
        .ok (res, heap) ∧ res = [.int 0, .list [], .list []]) ∧
      ∃ res heap kept resid,
        ExtractConnectedComponents_py twoComponentsEnv twoCloudsHeap [1] 8 1 10 false =
          .ok (res, heap) ∧ res = [.int 1, .list kept, .list resid] ∧ kept.length = 2 :=
  ⟨⟨_, _, rfl, by decide⟩, ⟨_, _, _, _, rfl, rfl, by decide⟩⟩

/-! ## AddToRemoveListPy: what the schedule becomes -/

theorem antichain_no_ancestor (h : Heap) (hac : acyclic h = true) (l : List Nat)
    (ha : Antichain h l) (a b : Nat) (hal : a ∈ l) (hbl : b ∈ l) :
    isAncestorOf h a b = false := by
  have hall := List.Pairwise.forall_of_forall
    (R := fun a b => isAncestorOf h a b = false ∧ isAncestorOf h b a = false)
    (fun x y hxy => ⟨hxy.2, hxy.1⟩)
    (fun x _ => ⟨isAncestorOf_irrefl h hac x, isAncestorOf_irrefl h hac x⟩) ha
  exact (hall hal hbl).1

theorem swapRemove_perm (l1 l2 : List Nat) (e : Nat) :
    (swapRemove (l1 ++ e :: l2) l1.length).Perm (l1 ++ l2) := by
  rcases List.eq_nil_or_concat l2 with rfl | ⟨l2a, b, rfl⟩
  · rw [swapRemove_last]
    simp
  · rw [List.concat_eq_append, swapRemove_inner]
    exact List.Perm.append_left l1 (List.perm_append_singleton b l2a).symm

theorem run_unchanged (h : Heap) (c : Nat) (n j : Nat) (l : List Nat)
    (hlen : l.length ≤ j + n)
    (hdesc : ∀ e ∈ l, isAncestorOf h c e = false)
    (hanc : ∃ e ∈ l.drop j, isAncestorOf h e c = true) :
    AddToRemoveListPy.run h c n j l = l := by
  induction n generalizing j with
  | zero =>
    obtain ⟨e, he, _⟩ := hanc
    rw [List.drop_of_length_le (by omega)] at he
    simp at he
  | succ n ih =>
    simp only [AddToRemoveListPy.run]
    cases hj : l[j]? with
    | none =>
      obtain ⟨e, he, _⟩ := hanc
      rw [List.drop_of_length_le (List.getElem?_eq_none_iff.mp hj)] at he
      simp at he
    | some e =>
      simp only
      by_cases h1 : isAncestorOf h e c = true
      · rw [if_pos h1]
      · rw [if_neg h1]
        have hmem : e ∈ l := List.getElem?_mem hj
        have h2 : ¬ isAncestorOf h c e = true := by simp [hdesc e hmem]
        rw [if_neg h2]
        apply ih (j + 1) (by omega)
        obtain ⟨x, hx, hxc⟩ := hanc
        obtain ⟨hlt, hje⟩ := List.getElem?_eq_some.mp hj
        rw [List.drop_eq_getElem_cons hlt, hje] at hx
        rcases List.mem_cons.mp hx with rfl | hx2
        · exact absurd hxc h1
        · exact ⟨x, hx2, hxc⟩

theorem run_perm (h : Heap) (c : Nat) (n j : Nat) (l : List Nat)
    (hlen : l.length ≤ j + n)
    (hnoanc : ∀ e ∈ l, isAncestorOf h e c = false)
    (hchk : ∀ e ∈ l.take j, isAncestorOf h c e = false) :
    (AddToRemoveListPy.run h c n j l).Perm
      (l.filter (fun s => !isAncestorOf h c s) ++ [c]) := by
  have hfull : ∀ (l : List Nat), (∀ e ∈ l, isAncestorOf h c e = false) →
      l.filter (fun s => !isAncestorOf h c s) = l := by
    intro l hl
    rw [List.filter_eq_self]
    intro a ha
    simp [hl a ha]
  induction n generalizing j l with
  | zero =>
    simp only [AddToRemoveListPy.run]
    rw [List.take_of_length_le (by omega)] at hchk
    rw [hfull l hchk]
  | succ n ih =>
    simp only [AddToRemoveListPy.run]
    cases hj : l[j]? with
    | none =>
      simp only
      rw [List.take_of_length_le (List.getElem?_eq_none_iff.mp hj)] at hchk
      rw [hfull l hchk]
    | some e =>
      simp only
      have key : ∃ l1 l2, l = l1 ++ e :: l2 ∧ l1.length = j :=
        ⟨_, _, (split_at_index l j e hj).1, (split_at_index l j e hj).2⟩
      obtain ⟨l1, l2, rfl, rfl⟩ := key
      rw [List.take_left] at hchk
      have h1 : ¬ isAncestorOf h e c = true := by simp [hnoanc e (by simp)]
      rw [if_neg h1]
      by_cases h2 : isAncestorOf h c e = true
      · rw [if_pos h2]
        obtain ⟨htake, hlen3⟩ := take_swapRemove l1 l2 e
        have hsub : ∀ x ∈ swapRemove (l1 ++ e :: l2) l1.length, x ∈ l1 ++ e :: l2 :=
          fun x hx => swapRemove_subset _ _ x hx
        have hih := ih l1.length (swapRemove (l1 ++ e :: l2) l1.length)
          (by rw [hlen3]; simp at hlen ⊢; omega)
          (fun x hx => hnoanc x (hsub x hx))
          (by rw [htake]; exact hchk)
        refine hih.trans ?_
        refine List.Perm.append_right _ ?_
        have hp := (swapRemove_perm l1 l2 e).filter (fun s => !isAncestorOf h c s)
        refine hp.trans ?_
        simp [List.filter_append, List.filter_cons, h2]
      · rw [if_neg h2]
        apply ih (l1.length + 1) (l1 ++ e :: l2) (by omega) hnoanc
        intro x hx
        rw [List.take_succ, hj, List.take_left] at hx
        simp at hx
        rcases hx with hx | rfl
        · exact hchk x hx
        · simpa using h2

/-- C18: on an acyclic tree, for an antichain schedule `S` and a candidate
`c`, `AddToRemoveListPy` leaves `S` as it is when an entry of `S` is an
ancestor of `c`; otherwise the new schedule holds, in some order, the entries
of `S` that are not descendants of `c`, and `c`. In both cases every node of
`S` and `c` itself is in the new schedule or has an ancestor in it. -/
theorem AddToRemoveListPy_result (h : Heap) (hac : acyclic h = true) (S : List Nat) (c : Nat)
    (ha : Antichain h S) :
    ((∃ e ∈ S, isAncestorOf h e c = true) → AddToRemoveListPy h c S = S) ∧
      ((∀ e ∈ S, isAncestorOf h e c = false) →
        (AddToRemoveListPy h c S).Perm
          (S.filter (fun s => !isAncestorOf h c s) ++ [c])) ∧
      ∀ x, x ∈ S ∨ x = c →
        x ∈ AddToRemoveListPy h c S ∨
          ∃ a ∈ AddToRemoveListPy h c S, isAncestorOf h a x = true := by
  have hcase1 : (∃ e ∈ S, isAncestorOf h e c = true) → AddToRemoveListPy h c S = S := by
    rintro ⟨e, he, hec⟩
    apply run_unchanged h c S.length 0 S (by omega)
    · intro d hd
      cases hcd : isAncestorOf h c d with
      | false => rfl
      | true =>
        have := isAncestorOf_trans h hac e c d hec hcd
        rw [antichain_no_ancestor h hac S ha e d he hd] at this
        exact absurd this (by simp)
    · exact ⟨e, by simpa using he, hec⟩
  have hcase2 : (∀ e ∈ S, isAncestorOf h e c = false) →
      (AddToRemoveListPy h c S).Perm (S.filter (fun s => !isAncestorOf h c s) ++ [c]) :=
    fun hno => run_perm h c S.length 0 S (by omega) hno (by intro e he; simp at he)
  refine ⟨hcase1, hcase2, ?_⟩
  intro x hx
  by_cases hex : ∃ e ∈ S, isAncestorOf h e c = true
  · rw [hcase1 hex]
    rcases hx with hx | rfl
    · exact Or.inl hx
    · exact Or.inr hex
  · have hno : ∀ e ∈ S, isAncestorOf h e c = false := by
      intro e he
      cases hec : isAncestorOf h e c with
      | false => rfl
      | true => exact absurd ⟨e, he, hec⟩ hex
    have hp := hcase2 hno
    have hc : c ∈ AddToRemoveListPy h c S := hp.mem_iff.mpr (by simp)
    rcases hx with hx | rfl
    · cases hcx : isAncestorOf h c x with
      | true => exact Or.inr ⟨c, hc, hcx⟩
      | false =>
        refine Or.inl (hp.mem_iff.mpr ?_)
        simp [hx, hcx]
    · exact Or.inl hc

/-- Witness of C18: the candidate 1 replaces its child 2 in the schedule 2, 4;
the candidate 2 leaves the schedule 1, 4 as it is. -/
theorem AddToRemoveListPy_result_witness :
    AddToRemoveListPy chainHeap 2 [1, 4] = [1, 4] ∧
      (AddToRemoveListPy chainHeap 1 [2, 4]).Perm
        (([2, 4] : List Nat).filter (fun s => !isAncestorOf chainHeap 1 s) ++ [1]) :=
  ⟨(AddToRemoveListPy_result chainHeap (by decide) [1, 4] 2 (by unfold Antichain; decide)).1
      ⟨1, by decide, by decide⟩,
    (AddToRemoveListPy_result chainHeap (by decide) [2, 4] 1 (by unfold Antichain; decide)).2.1
      (by decide)⟩

/-! ## MergeEntitiesPy: null results and mixed inputs -/

theorem classify_cloudsOnly (env : MergeEnv) (h : Heap) (halloc : ∀ i, env.badAlloc i = false)
    (entities : List (Option Nat)) (i j : Nat) (clouds meshes : List Nat) :
    ∃ cl ms, classify env h entities i clouds meshes = some (cl, ms) ∧
      classify env h (cloudsOnly h entities) j clouds [] = some (cl, []) := by
  induction entities generalizing i j clouds meshes with
  | nil => exact ⟨clouds, meshes, rfl, rfl⟩
  | cons e rest ih =>
    cases e with
    | none =>
      have hf : cloudsOnly h (none :: rest) = cloudsOnly h rest := by simp [cloudsOnly]
      rw [hf]
      simp only [classify]
      exact ih _ _ _ _
    | some a =>
      by_cases ha : isA h a .POINT_CLOUD = true
      · have hf : cloudsOnly h (some a :: rest) = some a :: cloudsOnly h rest := by
          simp [cloudsOnly, ha]
        rw [hf]
        simp only [classify, ha, if_true, halloc, Bool.false_eq_true, if_false]
        exact ih _ _ _ _
      · have hf : cloudsOnly h (some a :: rest) = cloudsOnly h rest := by
          simp [cloudsOnly, ha]
        rw [hf]
        simp only [classify, ha, if_false, halloc, Bool.false_eq_true]
        split
        · split
          · exact ih _ _ _ _
          · exact ih _ _ _ _
        · exact ih _ _ _ _

theorem acquire_nonneg (o : ccHObject) (name : String) :
    ¬ (acquireScalarField true o name).2 < 0 := by
  unfold acquireScalarField
  simp only
  split
  · rename_i hneg
    unfold addScalarField
    have hc : ¬ (0 ≤ getScalarFieldIndexByName o name ∨ true = false) := by
      simp only [Bool.true_eq_false, or_false]
      omega
    rw [if_neg hc]
    simp
  · assumption

theorem mergeNext_firstCloud (env : MergeEnv) (del : Bool) (i pc fc : Nat) (st : MergeState) :
    (mergeNext env del i pc fc st).1.firstCloud = st.firstCloud := by
  unfold mergeNext
  simp only
  split
  · split <;> rfl
  · rfl

theorem mergeLoop_firstCloud (env : MergeEnv) (del sf : Bool) (clouds : List Nat) (i : Nat)
    (st : MergeState) (fc : Nat) (hfc : st.firstCloud = some fc) :
    (mergeLoop env del sf clouds i st).2 = .finished ∧
      (mergeLoop env del sf clouds i st).1.firstCloud = some fc := by
  induction clouds generalizing i st with
  | nil => exact ⟨rfl, hfc⟩
  | cons pc rest ih =>
    simp only [mergeLoop, hfc]
    have h1 := mergeNext_firstCloud env del i pc fc st
    cases hm : mergeNext env del i pc fc st with
    | mk st1 b =>
      rw [hm] at h1
      simp only at h1
      cases b with
      | true => exact ⟨rfl, h1.trans hfc⟩
      | false => exact ih _ _ (h1.trans hfc)

theorem mergeFirst_firstCloud (env : MergeEnv) (del sf : Bool) (c0 : Nat) (h : Heap)
    (o0 : ccHObject) (hl : h.lookup c0 = some o0)
    (hsf : sf = true → env.addScalarFieldOk = true) :
    (mergeFirst env del sf c0 (initialMergeState h)).2 = false ∧
      (mergeFirst env del sf c0 (initialMergeState h)).1.firstCloud =
        some (accumulatorOf h del c0) := by
  cases sf with
  | false =>
    cases del <;> simp [mergeFirst, initialMergeState, accumulatorOf, cloneThis, hl, Heap.alloc]
  | true =>
    have hok := hsf rfl
    cases del with
    | true =>
      have hpos := acquire_nonneg o0 CC_ORIGINAL_CLOUD_INDEX_SF_NAME
      simp only [mergeFirst, initialMergeState, if_true, hl, hok, if_neg hpos, accumulatorOf]
      exact ⟨trivial, trivial⟩
    | false =>
      have hpos := acquire_nonneg { o0 with parent := none, children := [] }
        CC_ORIGINAL_CLOUD_INDEX_SF_NAME
      simp only [mergeFirst, initialMergeState, if_true, cloneThis_some h c0 o0 hl,
        lookup_append_new, hok, if_neg hpos, accumulatorOf, Bool.false_eq_true, if_false]
      exact ⟨trivial, trivial⟩

theorem mergeClouds_result (env : MergeEnv) (del sf : Bool) (h : Heap) (c0 : Nat)
    (rest : List Nat) (o0 : ccHObject) (hl : h.lookup c0 = some o0)
    (hsf : sf = true → env.addScalarFieldOk = true) :
    (mergeClouds env del sf h (c0 :: rest)).result = some (accumulatorOf h del c0) := by
  obtain ⟨h1, h2⟩ := mergeFirst_firstCloud env del sf c0 h o0 hl hsf
  unfold mergeClouds
  have hloop : mergeLoop env del sf (c0 :: rest) 0 (initialMergeState h) =
      mergeLoop env del sf rest 1 (mergeFirst env del sf c0 (initialMergeState h)).1 := by
    cases hm : mergeFirst env del sf c0 (initialMergeState h) with
    | mk st1 b =>
      rw [hm] at h1
      simp only at h1
      subst h1
      have hi : (initialMergeState h).firstCloud = none := rfl
      simp only [mergeLoop, hi, hm]
  rw [hloop]
  obtain ⟨h3, h4⟩ := mergeLoop_firstCloud env del sf rest 1 _ _ h2
  cases hm : mergeLoop env del sf rest 1 (mergeFirst env del sf c0 (initialMergeState h)).1 with
  | mk st e =>
    rw [hm] at h3 h4
    simp only at h3 h4
    subst h3
    simpa using h4

theorem mergeMeshes_result (env : MergeEnv) (sub : Bool) (h : Heap) (meshes : List Nat) :
    (mergeMeshes env sub h meshes).result = some (h.length + 1) := by
  simp [mergeMeshes, Heap.alloc]

/-- C11: when no allocation fails (none while the entities are stored, and
not that of the index field when it is requested), `MergeEntitiesPy` returns
null exactly when the classification leaves no cloud and no mesh; and when it
leaves at least one cloud, the whole outcome is that of the run on the clouds
of the input alone, whatever meshes and other entities the input holds. -/
theorem MergeEntitiesPy_null_iff (env : MergeEnv) (h : Heap) (entities : List (Option Nat))
    (deleteOriginalClouds createSFcloudIndex createSubMeshes : Bool)
    (halloc : ∀ i, env.badAlloc i = false)
    (hsf : createSFcloudIndex = true → env.addScalarFieldOk = true) :
    ∃ clouds meshes, classify env h entities 0 [] [] = some (clouds, meshes) ∧
      ((MergeEntitiesPy env h entities deleteOriginalClouds createSFcloudIndex
          createSubMeshes).result = none ↔ clouds = [] ∧ meshes = []) ∧
      (clouds ≠ [] →
        MergeEntitiesPy env h entities deleteOriginalClouds createSFcloudIndex createSubMeshes =
          MergeEntitiesPy env h (cloudsOnly h entities) deleteOriginalClouds createSFcloudIndex
            createSubMeshes) := by
  obtain ⟨clouds, meshes, hc1, hc2⟩ := classify_cloudsOnly env h halloc entities 0 0 [] []
  refine ⟨clouds, meshes, hc1, ?_, ?_⟩
  · cases clouds with
    | nil =>
      cases meshes with
      | nil => simp [MergeEntitiesPy, hc1]
      | cons m ms =>
        have hres : MergeEntitiesPy env h entities deleteOriginalClouds createSFcloudIndex
            createSubMeshes = mergeMeshes env createSubMeshes h (m :: ms) := by
          simp [MergeEntitiesPy, hc1]
        rw [hres, mergeMeshes_result]
        simp
    | cons c0 rest =>
      obtain ⟨o0, hl, _⟩ := classified_valid env h entities _ _ hc1 c0 (List.mem_cons_self _ _)
      rw [MergeEntitiesPy_clouds env h entities _ _ _ c0 rest meshes hc1,
        mergeClouds_result env _ _ h c0 rest o0 hl hsf]
      simp
  · intro hne
    cases clouds with
    | nil => exact absurd rfl hne
    | cons c0 rest =>
      rw [MergeEntitiesPy_clouds env h entities _ _ _ c0 rest meshes hc1,
        MergeEntitiesPy_clouds env h (cloudsOnly h entities) _ _ _ c0 rest [] hc2]


/-- Witness of C11: a mesh, a null and a cloud are classified into one cloud
and one mesh, and the run is that on the cloud alone. -/
theorem MergeEntitiesPy_null_iff_witness :
    classify okEnv meshHeap [some 2, none, some 0] 0 [] [] = some ([0], [2]) ∧
      cloudsOnly meshHeap [some 2, none, some 0] = [some 0] ∧
      ∃ clouds meshes, classify okEnv meshHeap [some 2, none, some 0] 0 [] [] =
          some (clouds, meshes) ∧
        ((MergeEntitiesPy okEnv meshHeap [some 2, none, some 0] false true false).result = none ↔
          clouds = [] ∧ meshes = []) ∧
        (clouds ≠ [] →
          MergeEntitiesPy okEnv meshHeap [some 2, none, some 0] false true false =
            MergeEntitiesPy okEnv meshHeap (cloudsOnly meshHeap [some 2, none, some 0]) false true
              false) :=
  ⟨by decide, by decide,
    MergeEntitiesPy_null_iff okEnv meshHeap [some 2, none, some 0] false true false
      (fun _ => rfl) (fun _ => rfl)⟩

/-! ## MergeEntitiesPy on a single cloud -/

theorem filter_modify {α : Type} (p : α → Bool) (f : α → α) (l : List α) (k : Nat)
    (hk : ∀ x, l[k]? = some x → p x = false ∧ p (f x) = false) :
    (l.modify f k).filter p = l.filter p := by
  induction l generalizing k with
  | nil => simp
  | cons a t ih =>
    cases k with
    | zero =>
      obtain ⟨h1, h2⟩ := hk a (by simp)
      simp [List.filter_cons, h1, h2]
    | succ k =>
      simp only [List.modify_succ_cons, List.filter_cons]
      rw [ih k (fun x hx => hk x (by simpa using hx))]

theorem modify_append_length {α : Type} (f : α → α) (l : List α) (x : α) :
    (l ++ [x]).modify f l.length = l ++ [f x] := by
  induction l with
  | nil => simp
  | cons a t ih => simp [ih]

theorem acquire_fill_fields (o : ccHObject) :
    (updateSF (acquireScalarField true o CC_ORIGINAL_CLOUD_INDEX_SF_NAME).1
        (acquireScalarField true o CC_ORIGINAL_CLOUD_INDEX_SF_NAME).2.toNat
        (fun sf => sf.fill (.val 0))).points = o.points ∧
      (updateSF (acquireScalarField true o CC_ORIGINAL_CLOUD_INDEX_SF_NAME).1
        (acquireScalarField true o CC_ORIGINAL_CLOUD_INDEX_SF_NAME).2.toNat
        (fun sf => sf.fill (.val 0))).scalarFields.filter
          (fun s => s.name != CC_ORIGINAL_CLOUD_INDEX_SF_NAME) =
        o.scalarFields.filter (fun s => s.name != CC_ORIGINAL_CLOUD_INDEX_SF_NAME) ∧
      ∃ m, fieldValues
        (updateSF (acquireScalarField true o CC_ORIGINAL_CLOUD_INDEX_SF_NAME).1
          (acquireScalarField true o CC_ORIGINAL_CLOUD_INDEX_SF_NAME).2.toNat
          (fun sf => sf.fill (.val 0))) CC_ORIGINAL_CLOUD_INDEX_SF_NAME =
        some (List.replicate m (.val 0)) := by
  cases hany : o.scalarFields.any (fun sf => sf.name == CC_ORIGINAL_CLOUD_INDEX_SF_NAME) with
  | false =>
    rw [acquire_absent true o _ hany]
    simp only [if_true, Int.toNat_ofNat, updateSF, modify_append_length]
    refine ⟨trivial, ?_, o.points.length, ?_⟩
    · simp [List.filter_append, ScalarField.fill]
    · have hnone : o.scalarFields.find?
          (fun sf => sf.name == CC_ORIGINAL_CLOUD_INDEX_SF_NAME) = none := by
        rw [List.find?_eq_none]
        intro x hx
        have := List.any_eq_false.mp hany x hx
        simpa using this
      simp [fieldValues, List.find?_append, hnone, ScalarField.fill]
  | true =>
    have hex : ∃ x ∈ o.scalarFields,
        (fun sf : ScalarField => sf.name == CC_ORIGINAL_CLOUD_INDEX_SF_NAME) x = true := by
      simpa [List.any_eq_true] using hany
    have hlt : o.scalarFields.findIdx
        (fun sf => sf.name == CC_ORIGINAL_CLOUD_INDEX_SF_NAME) < o.scalarFields.length :=
      List.findIdx_lt_length_of_exists hex
    have hidx : getScalarFieldIndexByName o CC_ORIGINAL_CLOUD_INDEX_SF_NAME =
        ((o.scalarFields.findIdx
          (fun sf => sf.name == CC_ORIGINAL_CLOUD_INDEX_SF_NAME) : Nat) : Int) := by
      simp [getScalarFieldIndexByName, hlt]
    have hacq : acquireScalarField true o CC_ORIGINAL_CLOUD_INDEX_SF_NAME =
        (o, ((o.scalarFields.findIdx
          (fun sf => sf.name == CC_ORIGINAL_CLOUD_INDEX_SF_NAME) : Nat) : Int)) := by
      unfold acquireScalarField
      simp only [hidx]
      rw [if_neg (by omega)]
    rw [hacq]
    simp only [Int.toNat_ofNat]
    have hp : (o.scalarFields[o.scalarFields.findIdx
        (fun sf => sf.name == CC_ORIGINAL_CLOUD_INDEX_SF_NAME)].name ==
          CC_ORIGINAL_CLOUD_INDEX_SF_NAME) = true :=
      List.findIdx_getElem (w := hlt)
    refine ⟨rfl, ?_, ?_⟩
    · apply filter_modify
      intro x hx
      rw [List.getElem?_eq_getElem hlt] at hx
      have hx2 := Option.some.inj hx
      rw [← hx2]
      simp only [ScalarField.fill, bne, hp, Bool.not_true, and_self]
    · refine ⟨(o.scalarFields[o.scalarFields.findIdx
          (fun sf => sf.name == CC_ORIGINAL_CLOUD_INDEX_SF_NAME)]).values.length, ?_⟩
      unfold fieldValues
      rw [find?_of_first _ _ (o.scalarFields.findIdx
          (fun sf => sf.name == CC_ORIGINAL_CLOUD_INDEX_SF_NAME))
          ((o.scalarFields[o.scalarFields.findIdx
            (fun sf => sf.name == CC_ORIGINAL_CLOUD_INDEX_SF_NAME)]).fill (.val 0))]
      · simp [ScalarField.fill, map_const_eq_replicate]
      · simp [updateSF, List.getElem?_modify, List.getElem?_eq_getElem hlt]
      · simpa [ScalarField.fill] using hp
      · intro j hj s hs
        rw [updateSF_get, if_neg (by omega)] at hs
        obtain ⟨hjl, hjs⟩ := List.getElem?_eq_some.mp hs
        have := List.not_of_lt_findIdx hj
        rw [← hjs]
        simpa using this


theorem mergeClouds_single (env : MergeEnv) (del sf : Bool) (h : Heap) (c0 : Nat)
    (o0 : ccHObject) (hl : h.lookup c0 = some o0)
    (hsf : sf = true → env.addScalarFieldOk = true) :
    ∃ o, (mergeClouds env del sf h [c0]).result = some (accumulatorOf h del c0) ∧
      (mergeClouds env del sf h [c0]).cloud = some o ∧ o.points = o0.points ∧
      (sf = false → o.scalarFields = o0.scalarFields) ∧
      (sf = true →
        o.scalarFields.filter (fun s => s.name != CC_ORIGINAL_CLOUD_INDEX_SF_NAME) =
          o0.scalarFields.filter (fun s => s.name != CC_ORIGINAL_CLOUD_INDEX_SF_NAME) ∧
        ∃ m, fieldValues o CC_ORIGINAL_CLOUD_INDEX_SF_NAME =
          some (List.replicate m (.val 0))) := by
  have hc0 : c0 < h.length := lookup_lt h c0 o0 hl
  cases sf with
  | false =>
    cases del with
    | true =>
      refine ⟨o0, ?_, ?_, rfl, fun _ => rfl, fun hc => absurd hc (by simp)⟩
      · simp [mergeClouds, mergeLoop, mergeFirst, initialMergeState, accumulatorOf]
      · simp [mergeClouds, mergeLoop, mergeFirst, initialMergeState, removeScheduled,
          MergeResult.cloud, hl]
    | false =>
      refine ⟨{ o0 with parent := none, children := [] }, ?_, ?_, rfl, fun _ => rfl,
        fun hc => absurd hc (by simp)⟩
      · simp [mergeClouds, mergeLoop, mergeFirst, initialMergeState, accumulatorOf,
          cloneThis_some h c0 o0 hl]
      · simp [mergeClouds, mergeLoop, mergeFirst, initialMergeState,
          MergeResult.cloud, cloneThis_some h c0 o0 hl, lookup_append_new]
  | true =>
    have hok := hsf rfl
    cases del with
    | true =>
      have hpos := acquire_nonneg o0 CC_ORIGINAL_CLOUD_INDEX_SF_NAME
      obtain ⟨hp, hf, m, hm⟩ := acquire_fill_fields o0
      refine ⟨{ updateSF (acquireScalarField true o0 CC_ORIGINAL_CLOUD_INDEX_SF_NAME).1
          (acquireScalarField true o0 CC_ORIGINAL_CLOUD_INDEX_SF_NAME).2.toNat
          (fun sf => sf.fill (.val 0)) with
          currentDisplayedSF := (acquireScalarField true o0 CC_ORIGINAL_CLOUD_INDEX_SF_NAME).2,
          sfShown := true }, ?_, ?_, hp, fun hc => absurd hc (by simp), fun _ => ⟨hf, m, hm⟩⟩
      · simp only [mergeClouds, mergeLoop, mergeFirst, initialMergeState, if_true, hl, hok,
          if_neg hpos, accumulatorOf]
      · simp only [mergeClouds, mergeLoop, mergeFirst, initialMergeState, if_true, hl, hok,
          if_neg hpos, lookup_store_same _ _ _ hc0, removeScheduled, MergeResult.cloud,
          Option.bind, store_length]
        exact lookup_store_same _ _ _ (by rw [store_length]; exact hc0)
    | false =>
      have hpos := acquire_nonneg { o0 with parent := none, children := [] }
        CC_ORIGINAL_CLOUD_INDEX_SF_NAME
      obtain ⟨hp, hf, m, hm⟩ := acquire_fill_fields { o0 with parent := none, children := [] }
      have hnew : h.length < (h ++ [some { o0 with parent := none, children := [] }]).length := by
        simp
      refine ⟨{ updateSF (acquireScalarField true { o0 with parent := none, children := [] }
            CC_ORIGINAL_CLOUD_INDEX_SF_NAME).1
          (acquireScalarField true { o0 with parent := none, children := [] }
            CC_ORIGINAL_CLOUD_INDEX_SF_NAME).2.toNat
          (fun sf => sf.fill (.val 0)) with
          currentDisplayedSF := (acquireScalarField true { o0 with parent := none, children := [] }
            CC_ORIGINAL_CLOUD_INDEX_SF_NAME).2,
          sfShown := true }, ?_, ?_, hp, fun hc => absurd hc (by simp), fun _ => ⟨hf, m, hm⟩⟩
      · simp only [mergeClouds, mergeLoop, mergeFirst, initialMergeState, if_true,
          cloneThis_some h c0 o0 hl, lookup_append_new, hok, if_neg hpos, accumulatorOf,
          Bool.false_eq_true, if_false]
      · simp only [mergeClouds, mergeLoop, mergeFirst, initialMergeState, if_true,
          cloneThis_some h c0 o0 hl, lookup_append_new, hok, if_neg hpos,
          lookup_store_same _ _ _ hnew, MergeResult.cloud,
          Option.bind, store_length, Bool.false_eq_true, if_false]
        exact lookup_store_same _ _ _ (by rw [store_length]; exact hnew)

/-- C13, as amended: merging a single cloud returns a cloud (a clone at a new
address when `deleteOriginalClouds` is false, the input cloud itself when it
is true) with the points of the input cloud, for every setting of the flags
when the index field can be allocated. Its scalar fields are those of the
input when `createSFcloudIndex` is false; when it is true the fields of other
names are those of the input and the field `Original cloud index` is there,
all zeros. -/
theorem MergeEntitiesPy_single_cloud (env : MergeEnv) (h : Heap) (entities : List (Option Nat))
    (deleteOriginalClouds createSFcloudIndex createSubMeshes : Bool) (c0 : Nat)
    (meshes : List Nat)
    (hclass : classify env h entities 0 [] [] = some ([c0], meshes))
    (hsf : createSFcloudIndex = true → env.addScalarFieldOk = true) :
    ∃ o0 o, h.lookup c0 = some o0 ∧
      (MergeEntitiesPy env h entities deleteOriginalClouds createSFcloudIndex
        createSubMeshes).result = some (if deleteOriginalClouds then c0 else h.length) ∧
      (MergeEntitiesPy env h entities deleteOriginalClouds createSFcloudIndex
        createSubMeshes).cloud = some o ∧
      o.points = o0.points ∧
      (createSFcloudIndex = false → o.scalarFields = o0.scalarFields) ∧
      (createSFcloudIndex = true →
        o.scalarFields.filter (fun s => s.name != CC_ORIGINAL_CLOUD_INDEX_SF_NAME) =
          o0.scalarFields.filter (fun s => s.name != CC_ORIGINAL_CLOUD_INDEX_SF_NAME) ∧
        ∃ m, fieldValues o CC_ORIGINAL_CLOUD_INDEX_SF_NAME =
          some (List.replicate m (.val 0))) := by
  obtain ⟨o0, hl, _⟩ := classified_valid env h entities _ _ hclass c0 (List.mem_cons_self _ _)
  rw [MergeEntitiesPy_clouds env h entities _ _ _ c0 [] meshes hclass]
  obtain ⟨o, h1, h2, h3, h4, h5⟩ :=
    mergeClouds_single env deleteOriginalClouds createSFcloudIndex h c0 o0 hl hsf
  exact ⟨o0, o, hl, h1, h2, h3, h4, h5⟩

/-- Witness of C13 as amended: the cloud 2 of three points, merged alone into
a clone with the index field requested. -/
theorem MergeEntitiesPy_single_cloud_witness :
    ∃ o0 o, chainHeap.lookup 2 = some o0 ∧
      (MergeEntitiesPy okEnv chainHeap [some 2] false true false).result =
        some (if false then 2 else chainHeap.length) ∧
      (MergeEntitiesPy okEnv chainHeap [some 2] false true false).cloud = some o ∧
      o.points = o0.points ∧
      (true = false → o.scalarFields = o0.scalarFields) ∧
      (true = true →
        o.scalarFields.filter (fun s => s.name != CC_ORIGINAL_CLOUD_INDEX_SF_NAME) =
          o0.scalarFields.filter (fun s => s.name != CC_ORIGINAL_CLOUD_INDEX_SF_NAME) ∧
        ∃ m, fieldValues o CC_ORIGINAL_CLOUD_INDEX_SF_NAME =
          some (List.replicate m (.val 0))) :=
  MergeEntitiesPy_single_cloud okEnv chainHeap [some 2] false true false 2 [] (by decide)
    (fun _ => rfl)

/-- Counterexample to C13 as stated: the cloud 5 has one point and no scalar
field; merged alone with `createSFcloudIndex`, it comes back (as a clone, or
itself when the originals are consumed) with the scalar field
`Original cloud index`. And the user field of that name of a cloud is set to
zero. -/
theorem MergeEntitiesPy_single_cloud_counterexample :
    (chainHeap.lookup 5).map (fun o => o.scalarFields) = some [] ∧
      (MergeEntitiesPy okEnv chainHeap [some 5] false true false).cloud.map
        (fun o => o.scalarFields) = some [⟨"Original cloud index", [.val 0]⟩] ∧
      (MergeEntitiesPy okEnv chainHeap [some 5] true true false).result = some 5 ∧
      (MergeEntitiesPy okEnv chainHeap [some 5] true true false).cloud.map
        (fun o => o.scalarFields) = some [⟨"Original cloud index", [.val 0]⟩] ∧
      (MergeEntitiesPy okEnv
        [some { newObject .POINT_CLOUD "U" with
          points := [1, 2], scalarFields := [⟨"Original cloud index", [.val 7, .val 8]⟩] }]
        [some 0] false true false).cloud.map (fun o => o.scalarFields) =
        some [⟨"Original cloud index", [.val 0, .val 0]⟩] := by
  decide


/-! ## MergeEntitiesPy without consuming the originals -/

theorem extends_store (h g : Heap) (a : Nat) (o : ccHObject) (he : Extends h g)
    (ha : h.length ≤ a) : Extends h (g.store a o) := by
  refine ⟨by rw [store_length]; exact he.1, fun b hb => ?_⟩
  rw [lookup_store_other _ _ _ _ (by omega)]
  exact he.2 b hb

theorem extends_append (h g : Heap) (x : Option ccHObject) (he : Extends h g) :
    Extends h (g ++ [x]) := by
  have hlen := he.1
  refine ⟨by simp; omega, fun b hb => ?_⟩
  rw [lookup_append_left _ _ _ (by omega)]
  exact he.2 b hb

theorem extends_update (h g : Heap) (a : Nat) (f : ccHObject → ccHObject) (he : Extends h g)
    (ha : h.length ≤ a) :
    Extends h (match g.lookup a with
      | some o => g.store a (f o)
      | none => g) := by
  split
  · exact extends_store h g a _ he ha
  · exact he

theorem cloneThis_eq (g : Heap) (pc : Nat) :
    ∃ x, cloneThis g pc = (g ++ [some x], g.length) := by
  unfold cloneThis
  cases g.lookup pc <;> exact ⟨_, rfl⟩

theorem extends_cloudAppend (h g : Heap) (ok : Bool) (fc pc : Nat) (he : Extends h g)
    (hfc : h.length ≤ fc) : Extends h (cloudAppend ok g fc pc) := by
  unfold cloudAppend
  split
  · split
    · exact extends_store h g fc _ he hfc
    · exact he
  · exact he

theorem mergeFirst_extends (env : MergeEnv) (sf : Bool) (pc : Nat) (h : Heap) (st : MergeState)
    (he : Extends h st.heap) :
    Extends h (mergeFirst env false sf pc st).1.heap ∧
      (mergeFirst env false sf pc st).1.toBeRemoved = st.toBeRemoved ∧
      ∃ fc, (mergeFirst env false sf pc st).1.firstCloud = some fc ∧ h.length ≤ fc := by
  obtain ⟨x, hx⟩ := cloneThis_eq st.heap pc
  have hlen := he.1
  have he1 := extends_append h st.heap (some x) he
  unfold mergeFirst
  simp only [hx, Bool.false_eq_true, if_false]
  split
  · split
    · exact ⟨he1, rfl, _, rfl, hlen⟩
    · split
      · exact ⟨extends_store h _ _ _ he1 hlen, rfl, _, rfl, hlen⟩
      · exact ⟨extends_store h _ _ _ he1 hlen, rfl, _, rfl, hlen⟩
  · exact ⟨he1, rfl, _, rfl, hlen⟩

theorem mergeNext_extends (env : MergeEnv) (i pc fc : Nat) (h : Heap) (st : MergeState)
    (he : Extends h st.heap) (hfc : h.length ≤ fc) :
    Extends h (mergeNext env false i pc fc st).1.heap ∧
      (mergeNext env false i pc fc st).1.toBeRemoved = st.toBeRemoved := by
  obtain ⟨x, hx⟩ := cloneThis_eq st.heap pc
  have hA : Extends h (appendedHeap env false i pc fc st) := by
    unfold appendedHeap
    simp only [hx, Bool.false_eq_true, if_false]
    exact extends_cloudAppend h _ _ fc _ (extends_append h st.heap (some x) he) hfc
  unfold mergeNext
  simp only [Bool.false_eq_true, if_false]
  split
  · split
    · exact ⟨extends_store h _ _ _ hA hfc, rfl⟩
    · exact ⟨hA, rfl⟩
  · exact ⟨hA, rfl⟩

theorem mergeLoop_extends (env : MergeEnv) (sf : Bool) (h : Heap) (clouds : List Nat) (i : Nat)
    (st : MergeState) (he : Extends h st.heap) (hrm : st.toBeRemoved = [])
    (hfc : ∀ fc, st.firstCloud = some fc → h.length ≤ fc) :
    Extends h (mergeLoop env false sf clouds i st).1.heap ∧
      (mergeLoop env false sf clouds i st).1.toBeRemoved = [] ∧
      ∀ fc, (mergeLoop env false sf clouds i st).1.firstCloud = some fc → h.length ≤ fc := by
  induction clouds generalizing i st with
  | nil => exact ⟨he, hrm, hfc⟩
  | cons pc rest ih =>
    cases hf : st.firstCloud with
    | none =>
      obtain ⟨h1, h2, fc, h3, h4⟩ := mergeFirst_extends env sf pc h st he
      simp only [mergeLoop, hf]
      cases hm : mergeFirst env false sf pc st with
      | mk st1 b =>
        rw [hm] at h1 h2 h3
        simp only at h1 h2 h3
        have hfc1 : ∀ a, st1.firstCloud = some a → h.length ≤ a := by
          intro a ha
          rw [h3] at ha
          rw [← Option.some.inj ha]
          exact h4
        cases b with
        | true => exact ⟨h1, h2.trans hrm, hfc1⟩
        | false => exact ih _ _ h1 (h2.trans hrm) hfc1
    | some fc =>
      obtain ⟨h1, h2⟩ := mergeNext_extends env i pc fc h st he (hfc fc hf)
      have h3 := mergeNext_firstCloud env false i pc fc st
      simp only [mergeLoop, hf]
      cases hm : mergeNext env false i pc fc st with
      | mk st1 b =>
        rw [hm] at h1 h2 h3
        simp only at h1 h2 h3
        have hfc1 : ∀ a, st1.firstCloud = some a → h.length ≤ a := by
          intro a ha
          rw [h3] at ha
          exact hfc a ha
        cases b with
        | true => exact ⟨h1, h2.trans hrm, hfc1⟩
        | false => exact ih _ _ h1 (h2.trans hrm) hfc1

theorem extends_refl (h : Heap) : Extends h h := ⟨Nat.le_refl _, fun _ _ => rfl⟩

theorem mergeClouds_extends (env : MergeEnv) (sf : Bool) (h : Heap) (clouds : List Nat) :
    (∀ x, (mergeClouds env false sf h clouds).result = some x → h.length ≤ x) ∧
      (mergeClouds env false sf h clouds).scheduled = [] ∧
      Extends h (mergeClouds env false sf h clouds).heap := by
  obtain ⟨h1, h2, h3⟩ := mergeLoop_extends env sf h clouds 0 (initialMergeState h)
    (extends_refl h) rfl (fun fc hfc => by simp [initialMergeState] at hfc)
  unfold mergeClouds
  cases hm : mergeLoop env false sf clouds 0 (initialMergeState h) with
  | mk st e =>
    rw [hm] at h1 h2 h3
    simp only at h1 h2 h3
    cases e with
    | returnedNull => exact ⟨fun x hx => by simp at hx, h2, h1⟩
    | finished =>
      simp only [Bool.false_eq_true, if_false]
      refine ⟨h3, h2, ?_⟩
      split
      · rename_i fc _ hfc
        exact extends_update h st.heap fc _ h1 (h3 fc hfc)
      · exact h1

theorem meshMerge_extends (ok : Bool) (h g : Heap) (baseMesh baseVertices mesh : Nat)
    (he : Extends h g) (hm : h.length ≤ baseMesh) (hv : h.length ≤ baseVertices) :
    Extends h (meshMerge ok g baseMesh baseVertices mesh) := by
  unfold meshMerge
  split
  · split
    · exact extends_store h _ _ _ (extends_store h _ _ _ he hv) hm
    · exact he
  · exact he

theorem meshLoop_extends (env : MergeEnv) (sub : Bool) (h : Heap) (baseMesh baseVertices : Nat)
    (hm : h.length ≤ baseMesh) (hv : h.length ≤ baseVertices)
    (meshes : List Nat) (i : Nat) (g : Heap) (calls : List (Nat × Bool)) (he : Extends h g) :
    Extends h (meshLoop env sub baseMesh baseVertices meshes i g calls).1 := by
  induction meshes generalizing i g calls with
  | nil => exact he
  | cons mesh rest ih =>
    simp only [meshLoop]
    split
    · exact ih _ _ _ (meshMerge_extends true h g baseMesh baseVertices mesh he hm hv)
    · exact he

theorem mergeMeshes_extends (env : MergeEnv) (sub : Bool) (h : Heap) (meshes : List Nat) :
    Extends h (mergeMeshes env sub h meshes).heap := by
  have h2 : Extends h ((h ++ [some (newObject .POINT_CLOUD "vertices")]) ++
      [some { newObject .MESH "Mesh" with associatedCloud := some h.length }]) :=
    extends_append h _ _ (extends_append h _ _ (extends_refl h))
  have hlen : (h ++ [some (newObject .POINT_CLOUD "vertices")]).length = h.length + 1 := by simp
  simp only [mergeMeshes, Heap.alloc, hlen]
  apply extends_update h _ (h.length + 1) _ _ (by omega)
  apply meshLoop_extends env sub h _ _ (by omega) (by omega)
  apply extends_update h _ h.length _ _ (by omega)
  split
  · exact extends_store h _ _ _ (extends_store h _ _ _
      (extends_update h _ (h.length + 1) _ h2 (by omega)) (by omega)) (by omega)
  · exact extends_update h _ (h.length + 1) _ h2 (by omega)

/-- C12: for every heap and every input list, with `deleteOriginalClouds`
false what `MergeEntitiesPy` returns, if not null, is the address of a new
object, beyond those of the heap it was given and so distinct from every
input; nothing is scheduled for removal; and every cell of the heap it was
given holds what it held: no object is removed, and the points, the parent
and the children of every input are as they were. -/
theorem MergeEntitiesPy_keeps_originals (env : MergeEnv) (h : Heap)
    (entities : List (Option Nat)) (createSFcloudIndex createSubMeshes : Bool) :
    (∀ x, (MergeEntitiesPy env h entities false createSFcloudIndex createSubMeshes).result =
        some x → h.length ≤ x ∧ h.lookup x = none) ∧
      (MergeEntitiesPy env h entities false createSFcloudIndex createSubMeshes).scheduled = [] ∧
      ∀ a, a < h.length →
        (MergeEntitiesPy env h entities false createSFcloudIndex createSubMeshes).heap.lookup a =
          h.lookup a := by
  have hnone : ∀ x, h.length ≤ x → h.lookup x = none := by
    intro x hx
    simp [Heap.lookup, List.getElem?_eq_none hx]
  unfold MergeEntitiesPy
  cases classify env h entities 0 [] [] with
  | none => exact ⟨fun x hx => by simp at hx, rfl, fun _ _ => rfl⟩
  | some cm =>
    obtain ⟨clouds, meshes⟩ := cm
    simp only
    split
    · exact ⟨fun x hx => by simp at hx, rfl, fun _ _ => rfl⟩
    · split
      · obtain ⟨h1, h2, h3⟩ := mergeClouds_extends env createSFcloudIndex h clouds
        exact ⟨fun x hx => ⟨h1 x hx, hnone x (h1 x hx)⟩, h2, h3.2⟩
      · refine ⟨fun x hx => ?_, ?_, (mergeMeshes_extends env createSubMeshes h meshes).2⟩
        · rw [mergeMeshes_result] at hx
          have hx2 := Option.some.inj hx
          exact ⟨by omega, hnone x (by omega)⟩
        · simp [mergeMeshes]


/-! ## MergeEntitiesPy consuming the originals: the schedule -/

theorem treeEq_refl (h : Heap) : TreeEq h h := ⟨rfl, fun _ => rfl⟩

theorem treeEq_store (h g : Heap) (a : Nat) (o o1 : ccHObject) (he : TreeEq h g)
    (hl : g.lookup a = some o) (hd : treeData (some o1) = treeData (some o)) :
    TreeEq h (g.store a o1) := by
  refine ⟨by rw [store_length]; exact he.1, fun b => ?_⟩
  rw [lookup_store]
  by_cases hc : a = b ∧ a < g.length
  · rw [if_pos hc, hd, ← hl, hc.1]
    exact he.2 b
  · rw [if_neg hc]
    exact he.2 b

theorem treeEq_update (h g : Heap) (a : Nat) (f : ccHObject → ccHObject) (he : TreeEq h g)
    (hf : ∀ o, treeData (some (f o)) = treeData (some o)) :
    TreeEq h (match g.lookup a with
      | some o => g.store a (f o)
      | none => g) := by
  cases hl : g.lookup a with
  | none => exact he
  | some o => exact treeEq_store h g a o (f o) he hl (hf o)

theorem treeEq_getParent (h g : Heap) (he : TreeEq h g) (a : Nat) :
    getParent g a = getParent h a := by
  have hd := he.2 a
  unfold getParent
  cases hg : g.lookup a <;> cases hh : h.lookup a <;> simp [hg, hh, treeData] at hd ⊢
  exact hd.2.1

theorem treeEq_isA (h g : Heap) (he : TreeEq h g) (a : Nat) (t : CC_TYPES) :
    isA g a t = isA h a t := by
  have hd := he.2 a
  unfold isA
  cases hg : g.lookup a <;> cases hh : h.lookup a <;> simp [hg, hh, treeData] at hd ⊢
  rw [hd.1]

theorem treeEq_getChildrenNumber (h g : Heap) (he : TreeEq h g) (a : Nat) :
    getChildrenNumber g a = getChildrenNumber h a := by
  have hd := he.2 a
  unfold getChildrenNumber
  cases hg : g.lookup a <;> cases hh : h.lookup a <;> simp [hg, hh, treeData] at hd ⊢
  rw [hd.2.2]

theorem treeEq_isAncestorOf (h g : Heap) (he : TreeEq h g) :
    isAncestorOf g = isAncestorOf h := by
  have haux : ∀ s n x, isAncestorOfAux g s n x = isAncestorOfAux h s n x := by
    intro s n
    induction n with
    | zero => intro x; rfl
    | succ n ih =>
      intro x
      simp only [isAncestorOfAux, treeEq_getParent h g he x]
      cases getParent h x with
      | none => rfl
      | some p => simp only [ih p]
  funext s x
  unfold isAncestorOf
  rw [he.1, haux]

theorem treeEq_AddToRemoveListPy (h g : Heap) (he : TreeEq h g) (c : Nat) (l : List Nat) :
    AddToRemoveListPy g c l = AddToRemoveListPy h c l := by
  have hrun : ∀ n j l, AddToRemoveListPy.run g c n j l = AddToRemoveListPy.run h c n j l := by
    intro n
    induction n with
    | zero => intro j l; rfl
    | succ n ih =>
      intro j l
      simp only [AddToRemoveListPy.run, treeEq_isAncestorOf h g he, ih]
  exact hrun _ _ _

theorem treeEq_selectToRemove (h g : Heap) (he : TreeEq h g) (pc : Nat) :
    selectToRemove g pc = selectToRemove h pc := by
  unfold selectToRemove
  rw [treeEq_getParent h g he pc]
  cases getParent h pc with
  | none => rfl
  | some p => simp only [treeEq_isA h g he, treeEq_getChildrenNumber h g he]

theorem treeEq_cloudAppend (h g : Heap) (ok : Bool) (fc pc : Nat) (he : TreeEq h g) :
    TreeEq h (cloudAppend ok g fc pc) := by
  unfold cloudAppend
  split
  · split
    · rename_i acc added hfc _
      exact treeEq_store h g fc acc _ he hfc rfl
    · exact he
  · exact he

theorem mergeFirst_treeEq (env : MergeEnv) (sf : Bool) (pc : Nat) (h : Heap) (st : MergeState)
    (he : TreeEq h st.heap) :
    TreeEq h (mergeFirst env true sf pc st).1.heap ∧
      (mergeFirst env true sf pc st).1.toBeRemoved = st.toBeRemoved ∧
      (mergeFirst env true sf pc st).1.merged = st.merged := by
  unfold mergeFirst
  simp only [if_true]
  split
  · split
    · exact ⟨he, rfl, rfl⟩
    · rename_i o hl
      split
      · refine ⟨treeEq_store h _ _ o _ he hl ?_, rfl, rfl⟩
        unfold acquireScalarField addScalarField
        simp only
        split
        · split <;> rfl
        · rfl
      · refine ⟨treeEq_store h _ _ o _ he hl ?_, rfl, rfl⟩
        unfold acquireScalarField addScalarField updateSF
        simp only
        split
        · split <;> rfl
        · rfl
  · exact ⟨he, rfl, rfl⟩

theorem scheduleOf_append (h : Heap) (merged : List Nat) (pc : Nat) :
    scheduleOf h (merged ++ [pc]) =
      AddToRemoveListPy h (selectToRemove h pc) (scheduleOf h merged) := by
  simp [scheduleOf, List.foldl_append]

theorem mergeNext_treeEq (env : MergeEnv) (i pc fc : Nat) (h : Heap) (st : MergeState)
    (he : TreeEq h st.heap) (hsched : st.toBeRemoved = scheduleOf h st.merged) :
    TreeEq h (mergeNext env true i pc fc st).1.heap ∧
      (mergeNext env true i pc fc st).1.toBeRemoved =
        scheduleOf h (mergeNext env true i pc fc st).1.merged := by
  have hA : TreeEq h (appendedHeap env true i pc fc st) := by
    unfold appendedHeap
    simp only [if_true]
    exact treeEq_cloudAppend h _ _ fc pc he
  have hs : AddToRemoveListPy (appendedHeap env true i pc fc st)
      (selectToRemove (appendedHeap env true i pc fc st) pc) st.toBeRemoved =
      scheduleOf h (st.merged ++ [pc]) := by
    rw [scheduleOf_append, treeEq_AddToRemoveListPy h _ hA, treeEq_selectToRemove h _ hA, hsched]
  unfold mergeNext
  simp only [if_true]
  split
  · split
    · rename_i k o _ hl
      exact ⟨treeEq_store h _ fc o _ hA hl rfl, hs⟩
    · exact ⟨hA, hs⟩
  · exact ⟨hA, hsched⟩

theorem mergeLoop_treeEq (env : MergeEnv) (sf : Bool) (h : Heap) (clouds : List Nat) (i : Nat)
    (st : MergeState) (he : TreeEq h st.heap) (hsched : st.toBeRemoved = scheduleOf h st.merged)
    (hnone : st.firstCloud = none → st.toBeRemoved = []) :
    TreeEq h (mergeLoop env true sf clouds i st).1.heap ∧
      (mergeLoop env true sf clouds i st).1.toBeRemoved =
        scheduleOf h (mergeLoop env true sf clouds i st).1.merged ∧
      ((mergeLoop env true sf clouds i st).2 = .returnedNull →
        (mergeLoop env true sf clouds i st).1.toBeRemoved = []) := by
  induction clouds generalizing i st with
  | nil => exact ⟨he, hsched, fun hc => by simp [mergeLoop] at hc⟩
  | cons pc rest ih =>
    cases hf : st.firstCloud with
    | none =>
      obtain ⟨h1, h2, h3⟩ := mergeFirst_treeEq env sf pc h st he
      simp only [mergeLoop, hf]
      cases hm : mergeFirst env true sf pc st with
      | mk st1 b =>
        rw [hm] at h1 h2 h3
        simp only at h1 h2 h3
        have hs1 : st1.toBeRemoved = scheduleOf h st1.merged := by rw [h2, h3, hsched]
        have hn1 : st1.toBeRemoved = [] := by rw [h2, hnone hf]
        cases b with
        | true => exact ⟨h1, hs1, fun _ => hn1⟩
        | false => exact ih _ _ h1 hs1 (fun _ => hn1)
    | some fc =>
      obtain ⟨h1, h2⟩ := mergeNext_treeEq env i pc fc h st he hsched
      have h3 := mergeNext_firstCloud env true i pc fc st
      simp only [mergeLoop, hf]
      cases hm : mergeNext env true i pc fc st with
      | mk st1 b =>
        rw [hm] at h1 h2 h3
        simp only at h1 h2 h3
        have hn1 : st1.firstCloud = none → st1.toBeRemoved = [] := by
          intro hc
          rw [h3, hf] at hc
          exact Option.noConfusion hc
        cases b with
        | true => exact ⟨h1, h2, fun hc => by simp at hc⟩
        | false => exact ih _ _ h1 h2 hn1


/-! ## MergeEntitiesPy consuming the originals: the removal loop -/

theorem removeScheduled_preserves (P : Heap → Prop)
    (hrc : ∀ g p y, P g → P (removeChild g p y)) (hfr : ∀ g y, P g → P (g.free y))
    (l : List Nat) (g : Heap) (hg : P g) : P (removeScheduled g l).1 := by
  induction l generalizing g with
  | nil => exact hg
  | cons x rest ih =>
    rcases removeScheduled_cons g x rest with ⟨_, h1⟩ | ⟨_, h1⟩ | ⟨p, _, h1⟩
    · rw [h1]
      exact hg
    · rw [h1]
      exact ih _ (hfr g x hg)
    · rw [h1]
      exact ih _ (hrc g p x hg)

theorem lookup_update (g : Heap) (a b : Nat) (f : ccHObject → ccHObject) :
    Heap.lookup (match g.lookup a with
      | some o => g.store a (f o)
      | none => g) b = if a = b then (g.lookup b).map f else g.lookup b := by
  cases hl : g.lookup a with
  | none =>
    simp only
    split
    · rename_i hab
      rw [← hab, hl]
      rfl
    · rfl
  | some o =>
    simp only
    rw [lookup_store]
    have hlt := lookup_lt g a o hl
    by_cases hab : a = b
    · rw [if_pos ⟨hab, hlt⟩, if_pos hab, ← hab, hl]
      rfl
    · rw [if_neg (fun hc => hab hc.1), if_neg hab]

theorem lookup_dropChild (g : Heap) (p y b : Nat) :
    (dropChild g p y).lookup b =
      if p = b then (g.lookup b).map (fun o => { o with children := o.children.erase y })
      else g.lookup b := by
  unfold dropChild
  exact lookup_update g p b _

theorem lookup_clearParent (g : Heap) (y b : Nat) :
    (clearParent g y).lookup b =
      if y = b then (g.lookup b).map (fun o => { o with parent := none }) else g.lookup b := by
  unfold clearParent
  exact lookup_update g y b _

theorem lookup_free (g : Heap) (y b : Nat) :
    (g.free y).lookup b = if y = b then none else g.lookup b := by
  by_cases hyb : y = b
  · rw [if_pos hyb, ← hyb]
    unfold Heap.free Heap.lookup
    rw [List.getElem?_set]
    simp only [if_true]
    split <;> rfl
  · rw [if_neg hyb, lookup_free_other g y b hyb]

theorem getParent_removeChild (g : Heap) (p y b : Nat) :
    getParent (removeChild g p y) b = if y = b then none else getParent g b := by
  unfold getParent removeChild
  rw [lookup_clearParent, lookup_dropChild]
  by_cases hyb : y = b
  · rw [if_pos hyb, if_pos hyb]
    split <;> cases g.lookup b <;> rfl
  · rw [if_neg hyb, if_neg hyb]
    split
    · cases g.lookup b <;> rfl
    · rfl

theorem getParent_free (g : Heap) (y b : Nat) :
    getParent (g.free y) b = if y = b then none else getParent g b := by
  unfold getParent
  rw [lookup_free]
  split <;> rfl

theorem childrenOf_removeChild (g : Heap) (p y b : Nat) :
    childrenOf (removeChild g p y) b =
      if p = b then (childrenOf g b).map (fun c => c.erase y) else childrenOf g b := by
  unfold childrenOf removeChild
  rw [lookup_clearParent, lookup_dropChild]
  by_cases hyb : y = b <;> by_cases hpb : p = b <;>
    simp only [hyb, hpb, if_true, if_false] <;> cases g.lookup b <;> rfl

theorem childrenOf_free (g : Heap) (y b : Nat) :
    childrenOf (g.free y) b = if y = b then none else childrenOf g b := by
  unfold childrenOf
  rw [lookup_free]
  split <;> rfl

theorem removeScheduled_getParent (g : Heap) (l : List Nat) (x : Nat) (hx : x ∈ l)
    (hok : (removeScheduled g l).2 = none) :
    getParent (removeScheduled g l).1 x = none := by
  have hkeep : ∀ (l : List Nat) (g : Heap), getParent g x = none →
      getParent (removeScheduled g l).1 x = none := by
    intro l g hg
    apply removeScheduled_preserves (fun g => getParent g x = none) _ _ l g hg
    · intro g p y hg
      simp only [getParent_removeChild, hg, ite_self]
    · intro g y hg
      simp only [getParent_free, hg, ite_self]
  induction l generalizing g with
  | nil => simp at hx
  | cons y rest ih =>
    by_cases hxy : x = y
    · subst hxy
      rcases removeScheduled_cons g x rest with ⟨_, h1⟩ | ⟨_, h1⟩ | ⟨p, _, h1⟩
      · rw [h1] at hok
        exact absurd hok (by simp)
      · rw [h1]
        exact hkeep _ _ (by simp [getParent_free])
      · rw [h1]
        exact hkeep _ _ (by simp [getParent_removeChild])
    · have hxr : x ∈ rest := by
        rcases List.mem_cons.mp hx with h1 | h1
        · exact absurd h1 hxy
        · exact h1
      rcases removeScheduled_cons g y rest with ⟨_, h1⟩ | ⟨_, h1⟩ | ⟨p, _, h1⟩
      · rw [h1] at hok
        exact absurd hok (by simp)
      · rw [h1] at hok ⊢
        exact ih _ hxr hok
      · rw [h1] at hok ⊢
        exact ih _ hxr hok

theorem removeScheduled_destroys (g : Heap) (l : List Nat) (x : Nat) (hx : x ∈ l)
    (hroot : getParent g x = none) (hok : (removeScheduled g l).2 = none) :
    (removeScheduled g l).1.lookup x = none := by
  have hkeep : ∀ (l : List Nat) (g : Heap), g.lookup x = none →
      (removeScheduled g l).1.lookup x = none := by
    intro l g hg
    apply removeScheduled_preserves (fun g => g.lookup x = none) _ _ l g hg
    · intro g p y hg
      simp only [removeChild, lookup_clearParent, lookup_dropChild, hg, Option.map_none', ite_self]
    · intro g y hg
      simp only [lookup_free, hg, ite_self]
  induction l generalizing g with
  | nil => simp at hx
  | cons y rest ih =>
    by_cases hxy : x = y
    · subst hxy
      rcases removeScheduled_cons g x rest with ⟨_, h1⟩ | ⟨_, h1⟩ | ⟨p, hp, _⟩
      · rw [h1] at hok
        exact absurd hok (by simp)
      · rw [h1]
        exact hkeep _ _ (by simp [lookup_free])
      · rw [hroot] at hp
        exact Option.noConfusion hp
    · have hxr : x ∈ rest := by
        rcases List.mem_cons.mp hx with h1 | h1
        · exact absurd h1 hxy
        · exact h1
      have hyx : ¬ y = x := fun hc => hxy hc.symm
      rcases removeScheduled_cons g y rest with ⟨_, h1⟩ | ⟨_, h1⟩ | ⟨p, _, h1⟩
      · rw [h1] at hok
        exact absurd hok (by simp)
      · rw [h1] at hok ⊢
        exact ih _ hxr (by rw [getParent_free, if_neg hyx]; exact hroot) hok
      · rw [h1] at hok ⊢
        exact ih _ hxr (by rw [getParent_removeChild, if_neg hyx]; exact hroot) hok

theorem removeScheduled_detaches (g : Heap) (l : List Nat) (x p : Nat) (hx : x ∈ l)
    (hp : getParent g x = some p)
    (hnd : ∀ b c, childrenOf g b = some c → c.Nodup)
    (hok : (removeScheduled g l).2 = none) :
    ∀ c, childrenOf (removeScheduled g l).1 p = some c → x ∉ c := by
  have hkeep : ∀ (l : List Nat) (g : Heap), (∀ c, childrenOf g p = some c → x ∉ c) →
      ∀ c, childrenOf (removeScheduled g l).1 p = some c → x ∉ c := by
    intro l g hg
    apply removeScheduled_preserves (fun g => ∀ c, childrenOf g p = some c → x ∉ c) _ _ l g hg
    · intro g q y hg c hc
      rw [childrenOf_removeChild] at hc
      split at hc
      · cases hcp : childrenOf g p with
        | none => simp [hcp] at hc
        | some c0 =>
          simp only [hcp, Option.map_some', Option.some.injEq] at hc
          rw [← hc]
          exact fun hmem => hg c0 hcp (List.mem_of_mem_erase hmem)
      · exact hg c hc
    · intro g y hg c hc
      rw [childrenOf_free] at hc
      split at hc
      · exact Option.noConfusion hc
      · exact hg c hc
  have hndkeep1 : ∀ (g : Heap) (q y : Nat), (∀ b c, childrenOf g b = some c → c.Nodup) →
      ∀ b c, childrenOf (removeChild g q y) b = some c → c.Nodup := by
    intro g q y hg b c hc
    rw [childrenOf_removeChild] at hc
    split at hc
    · cases hcb : childrenOf g b with
      | none => simp [hcb] at hc
      | some c0 =>
        simp only [hcb, Option.map_some', Option.some.injEq] at hc
        rw [← hc]
        exact (hg b c0 hcb).erase y
    · exact hg b c hc
  have hndkeep2 : ∀ (g : Heap) (y : Nat), (∀ b c, childrenOf g b = some c → c.Nodup) →
      ∀ b c, childrenOf (g.free y) b = some c → c.Nodup := by
    intro g y hg b c hc
    rw [childrenOf_free] at hc
    split at hc
    · exact Option.noConfusion hc
    · exact hg b c hc
  induction l generalizing g with
  | nil => simp at hx
  | cons y rest ih =>
    by_cases hxy : x = y
    · subst hxy
      rcases removeScheduled_cons g x rest with ⟨_, h1⟩ | ⟨hp1, _⟩ | ⟨q, hq, h1⟩
      · rw [h1] at hok
        exact absurd hok (by simp)
      · rw [hp] at hp1
        exact Option.noConfusion hp1
      · rw [hp] at hq
        have hqp : q = p := (Option.some.inj hq).symm
        subst hqp
        rw [h1]
        apply hkeep
        intro c hc
        rw [childrenOf_removeChild, if_pos rfl] at hc
        cases hcp : childrenOf g q with
        | none => simp [hcp] at hc
        | some c0 =>
          simp only [hcp, Option.map_some', Option.some.injEq] at hc
          rw [← hc]
          intro hmem
          exact ((hnd q c0 hcp).mem_erase_iff.mp hmem).1 rfl
    · have hxr : x ∈ rest := by
        rcases List.mem_cons.mp hx with h1 | h1
        · exact absurd h1 hxy
        · exact h1
      have hyx : ¬ y = x := fun hc => hxy hc.symm
      rcases removeScheduled_cons g y rest with ⟨_, h1⟩ | ⟨_, h1⟩ | ⟨q, _, h1⟩
      · rw [h1] at hok
        exact absurd hok (by simp)
      · rw [h1] at hok ⊢
        exact ih _ hxr (by rw [getParent_free, if_neg hyx]; exact hp) (hndkeep2 g y hnd) hok
      · rw [h1] at hok ⊢
        exact ih _ hxr (by rw [getParent_removeChild, if_neg hyx]; exact hp)
          (hndkeep1 g q y hnd) hok

theorem childrenNodup_spec (h : Heap) (hnd : childrenNodup h = true) (b : Nat) (c : List Nat)
    (hc : childrenOf h b = some c) : c.Nodup := by
  unfold childrenOf at hc
  cases hl : h.lookup b with
  | none => simp [hl] at hc
  | some o =>
    simp only [hl, Option.map_some', Option.some.injEq] at hc
    have hmem : some o ∈ h := by
      unfold Heap.lookup at hl
      cases hb : h[b]? with
      | none => simp [hb] at hl
      | some cell =>
        simp only [hb, Option.join] at hl
        have := List.getElem?_mem hb
        simpa [← hl] using this
    have := List.all_eq_true.mp hnd (some o) hmem
    rw [← hc]
    simpa using this

theorem treeEq_childrenOf (h g : Heap) (he : TreeEq h g) (a : Nat) :
    childrenOf g a = childrenOf h a := by
  have hd := he.2 a
  unfold childrenOf
  cases hg : g.lookup a <;> cases hh : h.lookup a <;> simp [hg, hh, treeData] at hd ⊢
  exact hd.2.2

theorem mergeClouds_schedule (env : MergeEnv) (sf : Bool) (h : Heap) (clouds : List Nat) :
    ∃ g, TreeEq h g ∧
      (mergeClouds env true sf h clouds).scheduled =
        scheduleOf h (mergeClouds env true sf h clouds).merged ∧
      (mergeClouds env true sf h clouds).heap =
        (removeScheduled g (mergeClouds env true sf h clouds).scheduled).1 ∧
      (mergeClouds env true sf h clouds).fault =
        (removeScheduled g (mergeClouds env true sf h clouds).scheduled).2 := by
  obtain ⟨h1, h2, h3⟩ := mergeLoop_treeEq env sf h clouds 0 (initialMergeState h)
    (treeEq_refl h) rfl (fun _ => rfl)
  unfold mergeClouds
  cases hm : mergeLoop env true sf clouds 0 (initialMergeState h) with
  | mk st e =>
    rw [hm] at h1 h2 h3
    simp only at h1 h2 h3
    cases e with
    | returnedNull =>
      refine ⟨st.heap, h1, h2, ?_, ?_⟩
      · simp only [h3 rfl]
        rfl
      · simp only [h3 rfl]
        rfl
    | finished =>
      simp only [if_true]
      refine ⟨_, ?_, h2, rfl, rfl⟩
      split
      · rename_i fc _ _
        exact treeEq_update h st.heap fc _ h1 (fun _ => rfl)
      · exact h1


/-! ## MergeEntitiesPy: an append that fails -/

theorem appendedHeap_size (env : MergeEnv) (del : Bool) (i pc fc : Nat) (st : MergeState)
    (h : Heap) (blocks : List Nat) (op : ccHObject)
    (hinv : SizeInv h fc blocks st) (hpc : h.lookup pc = some op) (hne : pc ≠ fc) :
    ∃ o1, (appendedHeap env del i pc fc st).lookup fc = some o1 ∧
      o1.points.length =
        blocks.sum + (if env.appendOk i = true then op.points.length else 0) ∧
      (∀ a, a ≠ fc → a < h.length → (appendedHeap env del i pc fc st).lookup a = h.lookup a) ∧
      h.length ≤ (appendedHeap env del i pc fc st).length := by
  obtain ⟨_, ⟨o, hfc, hsz⟩, hframe, hlen⟩ := hinv
  have hpclt : pc < h.length := lookup_lt h pc op hpc
  have hfclt : fc < st.heap.length := lookup_lt _ _ _ hfc
  have hpc2 : st.heap.lookup pc = some op := by rw [hframe pc hne hpclt, hpc]
  have hg : ∃ (g : Heap) (pc1 : Nat) (op1 : ccHObject),
      appendedHeap env del i pc fc st = cloudAppend (env.appendOk i) g fc pc1 ∧
      g.lookup fc = some o ∧ g.lookup pc1 = some op1 ∧ op1.points = op.points ∧
      (∀ a, a ≠ fc → a < h.length → g.lookup a = h.lookup a) ∧ h.length ≤ g.length := by
    cases del with
    | false =>
      refine ⟨st.heap ++ [some { op with parent := none, children := [] }], st.heap.length,
        { op with parent := none, children := [] }, ?_, ?_, lookup_append_new _ _, rfl, ?_, ?_⟩
      · simp [appendedHeap, cloneThis_some _ _ _ hpc2]
      · rw [lookup_append_left _ _ _ hfclt, hfc]
      · intro a hafc halt
        rw [lookup_append_left _ _ _ (by omega), hframe a hafc halt]
      · simp only [List.length_append, List.length_singleton]
        omega
    | true => exact ⟨st.heap, pc, op, by simp [appendedHeap], hfc, hpc2, rfl, hframe, hlen⟩
  obtain ⟨g, pc1, op1, happ, hgfc, hgpc, hop1, hgframe, hglen⟩ := hg
  rw [happ]
  cases hok : env.appendOk i with
  | false =>
    have hsame : cloudAppend false g fc pc1 = g := by simp [cloudAppend]
    rw [hsame]
    exact ⟨o, hgfc, by simp [hsz], hgframe, hglen⟩
  | true =>
    rw [cloudAppend_true g fc pc1 o op1 hgfc hgpc]
    refine ⟨_, lookup_store_same _ _ _ (lookup_lt _ _ _ hgfc), by simp [hsz, hop1], ?_, ?_⟩
    · intro a hafc halt
      rw [lookup_store_other _ _ _ _ (Ne.symm hafc)]
      exact hgframe a hafc halt
    · rw [store_length]
      exact hglen

theorem mergeNext_size (env : MergeEnv) (del : Bool) (i pc fc : Nat) (st : MergeState)
    (h : Heap) (blocks : List Nat) (op : ccHObject)
    (hinv : SizeInv h fc blocks st) (hpc : h.lookup pc = some op) (hne : pc ≠ fc) :
    (env.appendOk i = true ∨ op.points.length = 0 →
      (mergeNext env del i pc fc st).2 = false ∧
        SizeInv h fc (blocks ++ [op.points.length]) (mergeNext env del i pc fc st).1 ∧
        (mergeNext env del i pc fc st).1.merged = st.merged ++ [pc]) ∧
      (env.appendOk i = false → op.points.length ≠ 0 →
        (mergeNext env del i pc fc st).2 = true ∧
          SizeInv h fc blocks (mergeNext env del i pc fc st).1 ∧
          (mergeNext env del i pc fc st).1.merged = st.merged) := by
  obtain ⟨o1, hl1, hsz1, hframe1, hlen1⟩ :=
    appendedHeap_size env del i pc fc st h blocks op hinv hpc hne
  obtain ⟨hfirst, ⟨o, hfc, hsz⟩, hframe, hlen⟩ := hinv
  have hcb : cloudSize st.heap fc = blocks.sum := by
    rw [cloudSize_of_lookup _ _ _ hfc]
    exact hsz
  have hca : cloudSize st.heap pc = op.points.length := by
    rw [cloudSize_of_lookup st.heap pc op (by rw [hframe pc hne (lookup_lt h pc op hpc), hpc])]
  have hcs : cloudSize (appendedHeap env del i pc fc st) fc = o1.points.length :=
    cloudSize_of_lookup _ _ _ hl1
  have hfclt : fc < (appendedHeap env del i pc fc st).length := lookup_lt _ _ _ hl1
  constructor
  · intro hok
    have hpts : o1.points.length = blocks.sum + op.points.length := by
      rw [hsz1]
      rcases hok with h1 | h1
      · rw [if_pos h1]
      · rw [h1]
        simp
    cases hoc : st.ocIndexSF with
    | none =>
      simp only [mergeNext, hcb, hca, hcs, hpts, if_true, hl1, hoc]
      exact ⟨trivial, ⟨hfirst, ⟨o1, hl1, by simp [hpts]⟩, hframe1, hlen1⟩, trivial⟩
    | some k =>
      simp only [mergeNext, hcb, hca, hcs, hpts, if_true, hl1, hoc]
      refine ⟨trivial, ⟨hfirst, ⟨_, lookup_store_same _ _ _ hfclt, ?_⟩, ?_, ?_⟩, trivial⟩
      · simp [updateSF, hpts]
      · intro a hafc halt
        rw [lookup_store_other _ _ _ _ (Ne.symm hafc)]
        exact hframe1 a hafc halt
      · rw [store_length]
        exact hlen1
  · intro hok hm
    have hpts : o1.points.length = blocks.sum := by
      rw [hsz1, hok]
      simp
    have hneq : ¬ blocks.sum = blocks.sum + op.points.length := by omega
    simp only [mergeNext, hcb, hca, hcs, hpts, if_neg hneq]
    exact ⟨trivial, ⟨hfirst, ⟨o1, hl1, hpts⟩, hframe1, hlen1⟩, trivial⟩

theorem mergeLoop_size (env : MergeEnv) (del sf : Bool) (h : Heap) (fc : Nat)
    (rest : List Nat) (i : Nat) (st : MergeState) (blocks : List Nat) (n pcn : Nat)
    (hinv : SizeInv h fc blocks st)
    (hvalid : ∀ pc ∈ rest, (∃ op, h.lookup pc = some op) ∧ pc ≠ fc)
    (hget : rest[n]? = some pcn)
    (hpre : ∀ j, j < n →
      env.appendOk (i + j) = true ∨ (rest[j]?).map (cloudSize h) = some 0)
    (hfail : env.appendOk (i + n) = false) (hsize : cloudSize h pcn ≠ 0) :
    SizeInv h fc (blocks ++ (rest.take n).map (cloudSize h))
        (mergeLoop env del sf rest i st).1 ∧
      (mergeLoop env del sf rest i st).1.merged = st.merged ++ rest.take n := by
  induction rest generalizing i st blocks n with
  | nil => simp at hget
  | cons pc rest ih =>
    obtain ⟨⟨op, hpc⟩, hne⟩ := hvalid pc (List.mem_cons_self _ _)
    have hrest : ∀ x ∈ rest, (∃ op, h.lookup x = some op) ∧ x ≠ fc :=
      fun x hx => hvalid x (List.mem_cons_of_mem _ hx)
    have hfirst : st.firstCloud = some fc := hinv.1
    have hsz : cloudSize h pc = op.points.length := cloudSize_of_lookup h pc op hpc
    obtain ⟨hS, hF⟩ := mergeNext_size env del i pc fc st h blocks op hinv hpc hne
    cases n with
    | zero =>
      have hpcn : pc = pcn := by simpa using hget
      obtain ⟨h1, h2, h3⟩ := hF (by simpa using hfail) (by rw [← hsz, hpcn]; exact hsize)
      simp only [mergeLoop, hfirst]
      generalize hmn : mergeNext env del i pc fc st = r at h1 h2 h3
      obtain ⟨st1, b⟩ := r
      simp only at h1 h2 h3
      subst h1
      simpa using ⟨h2, h3⟩
    | succ n =>
      have hhead : env.appendOk i = true ∨ op.points.length = 0 := by
        rcases hpre 0 (Nat.succ_pos n) with h0 | h0
        · exact Or.inl (by simpa using h0)
        · exact Or.inr (by simpa [hsz] using h0)
      obtain ⟨h1, h2, h3⟩ := hS hhead
      have hih := ih (i + 1) (mergeNext env del i pc fc st).1 (blocks ++ [op.points.length]) n h2
        hrest (by simpa using hget)
        (fun j hj => by
          have := hpre (j + 1) (by omega)
          rw [show i + 1 + j = i + (j + 1) by omega]
          simpa using this)
        (by rw [show i + 1 + n = i + (n + 1) by omega]; exact hfail)
      simp only [mergeLoop, hfirst]
      generalize hmn : mergeNext env del i pc fc st = r at h1 h3 hih
      obtain ⟨st1, b⟩ := r
      simp only at h1 h3 hih
      subst h1
      simp only
      obtain ⟨hi1, hi2⟩ := hih
      refine ⟨by simpa [hsz, List.append_assoc] using hi1, ?_⟩
      rw [hi2, h3]
      simp

theorem mergeFirst_size (env : MergeEnv) (del sf : Bool) (c0 : Nat) (h : Heap)
    (o0 : ccHObject) (hl : h.lookup c0 = some o0)
    (hsf : sf = true → env.addScalarFieldOk = true) :
    (mergeFirst env del sf c0 (initialMergeState h)).2 = false ∧
      SizeInv h (accumulatorOf h del c0) [o0.points.length]
        (mergeFirst env del sf c0 (initialMergeState h)).1 ∧
      (mergeFirst env del sf c0 (initialMergeState h)).1.merged = [] := by
  have hc0 : c0 < h.length := lookup_lt h c0 o0 hl
  cases sf with
  | false =>
    cases del with
    | true =>
      simp only [mergeFirst, initialMergeState, accumulatorOf, if_true, Bool.false_eq_true,
        if_false]
      exact ⟨trivial, ⟨rfl, ⟨o0, hl, by simp⟩, fun _ _ _ => rfl, Nat.le_refl _⟩, trivial⟩
    | false =>
      simp only [mergeFirst, initialMergeState, accumulatorOf, cloneThis_some h c0 o0 hl,
        Bool.false_eq_true, if_false]
      refine ⟨trivial, ⟨rfl, ⟨_, lookup_append_new _ _, by simp⟩, ?_, by simp⟩, trivial⟩
      intro a _ halt
      exact lookup_append_left _ _ _ halt
  | true =>
    have hok := hsf rfl
    cases del with
    | true =>
      have hpos := acquire_nonneg o0 CC_ORIGINAL_CLOUD_INDEX_SF_NAME
      obtain ⟨hp, _, _⟩ := acquire_fill_fields o0
      simp only [mergeFirst, initialMergeState, if_true, hl, hok, if_neg hpos, accumulatorOf]
      refine ⟨trivial, ⟨rfl, ⟨_, lookup_store_same _ _ _ hc0, ?_⟩, ?_, ?_⟩, trivial⟩
      · simp only [List.sum_cons, List.sum_nil, Nat.add_zero]
        exact congrArg List.length hp
      · intro a hafc _
        exact lookup_store_other _ _ _ _ (Ne.symm hafc)
      · rw [store_length]
    | false =>
      have hpos := acquire_nonneg { o0 with parent := none, children := [] }
        CC_ORIGINAL_CLOUD_INDEX_SF_NAME
      obtain ⟨hp, _, _⟩ := acquire_fill_fields { o0 with parent := none, children := [] }
      have hnew : h.length < (h ++ [some { o0 with parent := none, children := [] }]).length := by
        simp
      simp only [mergeFirst, initialMergeState, if_true, cloneThis_some h c0 o0 hl,
        lookup_append_new, hok, if_neg hpos, accumulatorOf, Bool.false_eq_true, if_false]
      refine ⟨trivial, ⟨rfl, ⟨_, lookup_store_same _ _ _ hnew, ?_⟩, ?_, ?_⟩, trivial⟩
      · simp only [List.sum_cons, List.sum_nil, Nat.add_zero]
        exact congrArg List.length hp
      · intro a hafc halt
        rw [lookup_store_other _ _ _ _ (Ne.symm hafc)]
        exact lookup_append_left _ _ _ halt
      · rw [store_length]
        simp

theorem mergeLoop_cons_first (env : MergeEnv) (del sf : Bool) (h : Heap) (c0 : Nat)
    (rest : List Nat) (hflag : (mergeFirst env del sf c0 (initialMergeState h)).2 = false) :
    mergeLoop env del sf (c0 :: rest) 0 (initialMergeState h) =
      mergeLoop env del sf rest 1 (mergeFirst env del sf c0 (initialMergeState h)).1 := by
  cases hm : mergeFirst env del sf c0 (initialMergeState h) with
  | mk st1 b =>
    rw [hm] at hflag
    simp only at hflag
    subst hflag
    have hi : (initialMergeState h).firstCloud = none := rfl
    simp only [mergeLoop, hi, hm]


theorem selectToRemove_cases (h : Heap) (c : Nat) :
    selectToRemove h c = c ∨ isA h (selectToRemove h c) .HIERARCHY_OBJECT = true := by
  unfold selectToRemove
  cases getParent h c with
  | none => exact Or.inl rfl
  | some p =>
    simp only
    split
    · rename_i hc
      simp only [Bool.and_eq_true] at hc
      exact Or.inr hc.1
    · exact Or.inl rfl

theorem scheduleOf_mem (h : Heap) (merged : List Nat) (x : Nat) (hx : x ∈ scheduleOf h merged) :
    ∃ c ∈ merged, x = selectToRemove h c := by
  induction merged using List.reverseRecOn with
  | nil => simp [scheduleOf] at hx
  | append_singleton l a ih =>
    rw [scheduleOf_append] at hx
    rcases run_subset _ _ _ _ _ x hx with h1 | h1
    · obtain ⟨c, hc, hxc⟩ := ih h1
      exact ⟨c, by simp [hc], hxc⟩
    · exact ⟨a, by simp, h1⟩

theorem scheduleOf_not_cloud (h : Heap) (merged : List Nat) (c : Nat) (o : ccHObject)
    (hl : h.lookup c = some o) (hcls : o.classId = .POINT_CLOUD) (hc : c ∉ merged) :
    c ∉ scheduleOf h merged := by
  intro hmem
  obtain ⟨c1, hc1, hx⟩ := scheduleOf_mem h merged c hmem
  rcases selectToRemove_cases h c1 with h1 | h1
  · rw [h1] at hx
    exact hc (hx ▸ hc1)
  · rw [← hx] at h1
    simp [isA, hl, hcls] at h1

theorem mergeLoop_fail (env : MergeEnv) (del sf : Bool) (h : Heap) (c0 : Nat) (rest : List Nat)
    (o0 : ccHObject) (n pcn : Nat) (hl : h.lookup c0 = some o0)
    (hvalid : ∀ pc ∈ rest, ∃ op, h.lookup pc = some op)
    (hsf : sf = true → env.addScalarFieldOk = true) (hdist : del = true → c0 ∉ rest)
    (hget : rest[n]? = some pcn)
    (hpre : ∀ j, j < n →
      env.appendOk (1 + j) = true ∨ (rest[j]?).map (cloudSize h) = some 0)
    (hfail : env.appendOk (1 + n) = false) (hsize : cloudSize h pcn ≠ 0) :
    ∃ st o, mergeLoop env del sf (c0 :: rest) 0 (initialMergeState h) = (st, .finished) ∧
      st.firstCloud = some (accumulatorOf h del c0) ∧
      st.heap.lookup (accumulatorOf h del c0) = some o ∧
      o.points.length = ((c0 :: rest.take n).map (cloudSize h)).sum ∧
      st.merged = rest.take n ∧
      (del = true → st.toBeRemoved = scheduleOf h st.merged) := by
  obtain ⟨hf2, hinv1, hm1⟩ := mergeFirst_size env del sf c0 h o0 hl hsf
  have hvalid2 : ∀ pc ∈ rest, (∃ op, h.lookup pc = some op) ∧ pc ≠ accumulatorOf h del c0 := by
    intro pc hpc
    obtain ⟨op, hop⟩ := hvalid pc hpc
    refine ⟨⟨op, hop⟩, ?_⟩
    cases del with
    | true =>
      intro hc
      simp only [accumulatorOf, if_true] at hc
      exact hdist rfl (hc ▸ hpc)
    | false =>
      have := lookup_lt h pc op hop
      simp only [accumulatorOf, Bool.false_eq_true, if_false]
      omega
  obtain ⟨hinv2, hmerged⟩ := mergeLoop_size env del sf h _ rest 1 _ [o0.points.length] n pcn
    hinv1 hvalid2 hget hpre hfail hsize
  obtain ⟨hfin, _⟩ := mergeLoop_firstCloud env del sf rest 1 _ _ hinv1.1
  have hsched : del = true →
      (mergeLoop env del sf (c0 :: rest) 0 (initialMergeState h)).1.toBeRemoved =
        scheduleOf h (mergeLoop env del sf (c0 :: rest) 0 (initialMergeState h)).1.merged := by
    intro hd
    subst hd
    exact (mergeLoop_treeEq env sf h (c0 :: rest) 0 (initialMergeState h) (treeEq_refl h) rfl
      (fun _ => rfl)).2.1
  rw [mergeLoop_cons_first env del sf h c0 rest hf2] at hsched ⊢
  generalize mergeLoop env del sf rest 1 (mergeFirst env del sf c0 (initialMergeState h)).1 = r
    at hinv2 hmerged hfin hsched
  obtain ⟨st, e⟩ := r
  simp only at hinv2 hmerged hfin hsched
  subst hfin
  obtain ⟨hfirst, ⟨o, hfc, hsz⟩, _, _⟩ := hinv2
  refine ⟨st, o, rfl, hfirst, hfc, ?_, ?_, hsched⟩
  · rw [hsz]
    simp [cloudSize_of_lookup h c0 o0 hl]
  · rw [hmerged, hm1]
    simp

theorem mergeClouds_fail (env : MergeEnv) (del sf : Bool) (h : Heap) (c0 : Nat)
    (rest : List Nat) (o0 : ccHObject) (n pcn : Nat) (hl : h.lookup c0 = some o0)
    (hcls : o0.classId = .POINT_CLOUD)
    (hvalid : ∀ pc ∈ rest, ∃ op, h.lookup pc = some op)
    (hsf : sf = true → env.addScalarFieldOk = true) (hdist : del = true → c0 ∉ rest)
    (hget : rest[n]? = some pcn)
    (hpre : ∀ j, j < n →
      env.appendOk (1 + j) = true ∨ (rest[j]?).map (cloudSize h) = some 0)
    (hfail : env.appendOk (1 + n) = false) (hsize : cloudSize h pcn ≠ 0) :
    (mergeClouds env del sf h (c0 :: rest)).result = some (accumulatorOf h del c0) ∧
      (mergeClouds env del sf h (c0 :: rest)).merged = rest.take n ∧
      ∃ o, (mergeClouds env del sf h (c0 :: rest)).cloud = some o ∧
        o.points.length = ((c0 :: rest.take n).map (cloudSize h)).sum := by
  obtain ⟨st, o, hloop, hfirst, hfc, hpts, hmerged, hsched⟩ :=
    mergeLoop_fail env del sf h c0 rest o0 n pcn hl hvalid hsf hdist hget hpre hfail hsize
  have hfclt := lookup_lt _ _ _ hfc
  have h1 : ∃ (g : Heap) (o1 : ccHObject), (match st.ocIndexSF, some (accumulatorOf h del c0) with
      | some _, some fc =>
        match st.heap.lookup fc with
        | some o => st.heap.store fc { o with currentDisplayedSF := st.sfIdx, sfShown := true }
        | none => st.heap
      | _, _ => st.heap) = g ∧ g.lookup (accumulatorOf h del c0) = some o1 ∧
      o1.points = o.points := by
    cases st.ocIndexSF with
    | none => exact ⟨_, o, rfl, hfc, rfl⟩
    | some k =>
      simp only [hfc]
      exact ⟨_, _, rfl, lookup_store_same _ _ _ hfclt, rfl⟩
  obtain ⟨g, o1, hg, hl1, hp1⟩ := h1
  unfold mergeClouds
  rw [hloop]
  simp only [MergeResult.cloud, hfirst, Option.bind]
  rw [hg]
  refine ⟨trivial, hmerged, ?_⟩
  cases del with
  | false =>
    simp only [Bool.false_eq_true, if_false]
    exact ⟨o1, hl1, by rw [hp1, hpts]⟩
  | true =>
    simp only [if_true]
    have hnot : accumulatorOf h true c0 ∉ st.toBeRemoved := by
      rw [hsched rfl, hmerged]
      simp only [accumulatorOf, if_true]
      exact scheduleOf_not_cloud h _ c0 o0 hl hcls
        (fun hc => hdist rfl (List.mem_of_mem_take hc))
    have hcd := cloudData_removeScheduled g st.toBeRemoved _ hnot
    rw [hl1] at hcd
    obtain ⟨o2, hl2, hp2, _⟩ := cloudData_some _ _ _ hcd
    exact ⟨o2, hl2, by rw [hp2, hp1, hpts]⟩

/-! ## AddToRemoveListPy: repeated entries -/

theorem nodup_push (l : List Nat) (c : Nat) (hl : l.Nodup) (hc : c ∉ l) : (l ++ [c]).Nodup := by
  rw [List.nodup_append]
  refine ⟨hl, List.nodup_singleton c, ?_⟩
  intro a ha hb
  simp only [List.mem_singleton] at hb
  exact hc (hb ▸ ha)

theorem run_nodup (h : Heap) (c n j : Nat) (l : List Nat) (hl : l.Nodup) (hc : c ∉ l) :
    (AddToRemoveListPy.run h c n j l).Nodup := by
  induction n generalizing j l with
  | zero => exact nodup_push l c hl hc
  | succ n ih =>
    simp only [AddToRemoveListPy.run]
    cases hj : l[j]? with
    | none => exact nodup_push l c hl hc
    | some e =>
      simp only
      split
      · exact hl
      · split
        · obtain ⟨hsplit, hlen⟩ := split_at_index l j e hj
          have hp : (swapRemove l j).Perm (l.take j ++ l.drop (j + 1)) := by
            have := swapRemove_perm (l.take j) (l.drop (j + 1)) e
            rw [hlen, ← hsplit] at this
            exact this
          have hsub : (l.take j ++ l.drop (j + 1)).Sublist l := by
            conv_rhs => rw [hsplit]
            exact List.Sublist.append_left (List.sublist_cons_self _ _) _
          exact ih _ _ (hp.nodup_iff.mpr (hl.sublist hsub))
            (fun hmem => hc (swapRemove_subset l j c hmem))
        · exact ih _ _ hl hc

theorem scheduleOf_nodup (h : Heap) (merged : List Nat)
    (hsel : (merged.map (selectToRemove h)).Nodup) : (scheduleOf h merged).Nodup := by
  induction merged using List.reverseRecOn with
  | nil => simp [scheduleOf]
  | append_singleton l a ih =>
    rw [List.map_append, List.map_singleton, List.nodup_append] at hsel
    obtain ⟨h1, _, h3⟩ := hsel
    rw [scheduleOf_append]
    refine run_nodup h _ _ _ _ (ih h1) ?_
    intro hmem
    obtain ⟨c, hc, hxc⟩ := scheduleOf_mem h l _ hmem
    exact h3 (List.mem_map.mpr ⟨c, hc, hxc.symm⟩) (by simp)

theorem MergeEntitiesPy_scheduled (env : MergeEnv) (h : Heap) (entities : List (Option Nat))
    (sf sub : Bool) :
    (MergeEntitiesPy env h entities true sf sub).scheduled =
      scheduleOf h (MergeEntitiesPy env h entities true sf sub).merged := by
  unfold MergeEntitiesPy
  cases classify env h entities 0 [] [] with
  | none => rfl
  | some cm =>
    obtain ⟨clouds, meshes⟩ := cm
    simp only
    split
    · rfl
    · split
      · obtain ⟨_, _, hs, _⟩ := mergeClouds_schedule env sf h clouds
        exact hs
      · simp [mergeMeshes, scheduleOf]

/-- C25, as amended: a schedule without repeated entries stays without
repeated entries when `AddToRemoveListPy` is given a candidate that is not
already an entry of it; hence in `MergeEntitiesPy` with
`deleteOriginalClouds`, when the nodes chosen for the successfully appended
clouds are pairwise distinct, the removal schedule has no repeated entries
and the removal loop handles no node twice. -/
theorem AddToRemoveListPy_nodup (env : MergeEnv) (h : Heap) (entities : List (Option Nat))
    (createSFcloudIndex createSubMeshes : Bool) (S : List Nat) (c : Nat)
    (hS : S.Nodup) (hc : c ∉ S)
    (hsel : ((MergeEntitiesPy env h entities true createSFcloudIndex
      createSubMeshes).merged.map (selectToRemove h)).Nodup) :
    (AddToRemoveListPy h c S).Nodup ∧
      (MergeEntitiesPy env h entities true createSFcloudIndex createSubMeshes).scheduled.Nodup := by
  refine ⟨run_nodup h c _ _ S hS hc, ?_⟩
  rw [MergeEntitiesPy_scheduled]
  exact scheduleOf_nodup h _ hsel

/-- Witness of C25 as amended: the candidate 1 is not in the schedule 2, 4;
and the merge of the clouds 5, 2 and 4 into 5 hands over the distinct nodes 2
and 3. -/
theorem AddToRemoveListPy_nodup_witness :
    (AddToRemoveListPy chainHeap 1 [2, 4]).Nodup ∧
      (MergeEntitiesPy okEnv chainHeap [some 5, some 2, some 4] true false false).scheduled.Nodup :=
  AddToRemoveListPy_nodup okEnv chainHeap [some 5, some 2, some 4] false false [2, 4] 1
    (by decide) (by decide) (by decide)

/-- Counterexample to C25 as stated: the schedule made of the node 5 alone has
no repeated entry, and with the candidate 5 `AddToRemoveListPy` gives the
schedule 5, 5: a node is not its own ancestor, so neither test of the scan
sees it. In `MergeEntitiesPy` the cloud 5 listed twice is scheduled twice. -/
theorem AddToRemoveListPy_nodup_counterexample :
    ([5] : List Nat).Nodup ∧ AddToRemoveListPy chainHeap 5 [5] = [5, 5] ∧
      ¬ (AddToRemoveListPy chainHeap 5 [5]).Nodup ∧
      (MergeEntitiesPy okEnv chainHeap [some 0, some 5, some 5] true false false).scheduled =
        [5, 5] := by
  decide


/-! ## ExtractConnectedComponents_py: the number of kept components -/

theorem createComponentsClouds_count (env : CreateEnv) (cloud : Option ccHObject)
    (components : List ReferenceCloud) (minPts : Nat) (rc sb : Bool)
    (hsort : SortsBy ComponentIndexAndSize.DescendingCompOperator env.ParallelSort)
    (kept : List ccHObject) (resid : List (Option ccHObject))
    (hrun : createComponentsClouds_ env cloud components minPts rc sb = .ok (kept, resid)) :
    kept.length ≤ components.countP (fun c => decide (c.size ≥ minPts)) := by
  cases cloud with
  | none =>
    simp only [createComponentsClouds_, Except.ok.injEq, Prod.mk.injEq] at hrun
    rw [← hrun.1]
    simp
  | some cloud =>
    by_cases hne : components = []
    · subst hne
      simp only [createComponentsClouds_, List.isEmpty_nil, if_true, Except.ok.injEq,
        Prod.mk.injEq] at hrun
      rw [← hrun.1]
      simp
    · obtain ⟨st1, hloop, hk, _⟩ := createComponentsClouds_ok env cloud components minPts rc sb
        hne kept resid hrun
      rw [visitOrder_take env components sb hsort] at hloop
      have hpts := congrArg List.length
        (createLoop_points env cloud components minPts rc _ _ _ st1 hloop)
      simp only [List.length_map, List.map_nil, List.nil_append] at hpts
      rw [hk, hpts]
      have hsub := (keptList_sublist env components minPts (visitOrder env components sb) 0).length_le
      have hperm := (visited_perm env components sb hsort).countP_eq
        (fun c => decide (c.size ≥ minPts))
      rw [← hperm, List.countP_eq_length_filter]
      exact hsub

theorem processCloud_count (env : CCEnv) (minComponentSize maxNumberComponents : Int)
    (randColors : Bool) (i cloud : Nat) (st : CCState) (step : CCStep)
    (hsort : SortsBy ComponentIndexAndSize.DescendingCompOperator (env.create i).ParallelSort)
    (hinv : CountInv maxNumberComponents st)
    (hrun : processCloud env minComponentSize maxNumberComponents randColors i cloud st =
      .ok step) :
    StepCount maxNumberComponents st step := by
  unfold processCloud at hrun
  cases hl : st.heap.lookup cloud with
  | none =>
    simp only [hl, Except.ok.injEq] at hrun
    subst hrun
    exact hinv
  | some pc =>
    simp only [hl] at hrun
    split at hrun
    · simp only [Except.ok.injEq] at hrun
      subst hrun
      exact hinv
    · split at hrun
      · simp only [Except.ok.injEq] at hrun
        subst hrun
        exact hinv
      · split at hrun
        · simp only [Except.ok.injEq] at hrun
          subst hrun
          exact hinv
        · have hcomp : env.labelConnectedComponents i ≥ 0 ∨
              (if env.labelConnectedComponents i ≥ 0 then
                env.extractConnectedComponents i else []) = [] := by
            by_cases hc : env.labelConnectedComponents i ≥ 0
            · exact Or.inl hc
            · exact Or.inr (if_neg hc)
          generalize (if env.labelConnectedComponents i ≥ 0 then
            env.extractConnectedComponents i else []) = components at hrun hcomp
          by_cases hcap : env.labelConnectedComponents i ≥ 0 ∧
              st.realComponentCount + countLarge components minComponentSize >
                maxNumberComponents
          · rw [if_pos hcap] at hrun
            simp only [Except.ok.injEq] at hrun
            subst hrun
            rfl
          · rw [if_neg hcap] at hrun
            have hle : st.realComponentCount + countLarge components minComponentSize ≤
                maxNumberComponents := by
              rcases hcomp with hc | hc
              · by_contra hgt
                exact hcap ⟨hc, by omega⟩
              · rw [hc]
                simpa [countLarge] using hinv.2
            by_cases hemp : components.isEmpty = true
            · rw [if_pos hemp] at hrun
              simp only [Except.ok.injEq] at hrun
              subst hrun
              exact ⟨by have := hinv.1; simp only; omega, hle⟩
            · rw [if_neg hemp] at hrun
              split at hrun
              · exact Except.noConfusion hrun
              · rename_i created hcreated
                simp only [Except.ok.injEq] at hrun
                subst hrun
                have hcount := createComponentsClouds_count (env.create i) _ components
                  (toUnsigned minComponentSize) randColors true hsort created.1 created.2 hcreated
                refine ⟨?_, hle⟩
                have := hinv.1
                simp only [List.length_append, Nat.cast_add, countLarge] at hcount ⊢
                omega

theorem ccLoop_count (env : CCEnv) (minComponentSize maxNumberComponents : Int)
    (randColors : Bool)
    (hsort : ∀ i, SortsBy ComponentIndexAndSize.DescendingCompOperator (env.create i).ParallelSort)
    (clouds : List Nat) (i : Nat) (st : CCState) (hinv : CountInv maxNumberComponents st)
    (res : PyTuple) (heap : Heap)
    (hrun : ccLoop env minComponentSize maxNumberComponents randColors clouds i st =
      .ok (res, heap)) :
    ∃ n kept, res.take 2 = [.int n, .list kept] ∧ (kept.length : Int) ≤ maxNumberComponents := by
  have hfinal : ∀ st1 : CCState, CountInv maxNumberComponents st1 →
      (∃ n kept, (tuple3 st1).take 2 = [.int n, .list kept] ∧
        (kept.length : Int) ≤ maxNumberComponents) ∧
      (∃ n kept, (tuple2 st1).take 2 = [.int n, .list kept] ∧
        (kept.length : Int) ≤ maxNumberComponents) := by
    intro st1 h1
    have hlen : ((st1.resultComponents.map some).length : Int) ≤ maxNumberComponents := by
      have := h1.1
      have := h1.2
      simp only [List.length_map]
      omega
    exact ⟨⟨_, _, rfl, hlen⟩, ⟨_, _, rfl, hlen⟩⟩
  induction clouds generalizing i st with
  | nil =>
    simp only [ccLoop, Except.ok.injEq, Prod.mk.injEq] at hrun
    rw [← hrun.1]
    exact (hfinal st hinv).1
  | cons cloud rest ih =>
    simp only [ccLoop] at hrun
    cases hp : processCloud env minComponentSize maxNumberComponents randColors i cloud st with
    | error f => simp [hp] at hrun
    | ok step =>
      have hstep := processCloud_count env minComponentSize maxNumberComponents randColors
        i cloud st step (hsort i) hinv hp
      cases step with
      | next st1 =>
        simp only [hp] at hrun
        exact ih _ _ hstep hrun
      | stop st1 =>
        simp only [hp, Except.ok.injEq, Prod.mk.injEq] at hrun
        rw [← hrun.1]
        exact (hfinal st1 hstep).1
      | ret r h1 =>
        simp only [hp, Except.ok.injEq, Prod.mk.injEq] at hrun
        rw [← hrun.1]
        have hr : r = tuple2 st := hstep
        rw [hr]
        exact (hfinal st hinv).2

/-- C24: for every input list and every `maxNumberComponents` that is not
negative, whenever `ExtractConnectedComponents_py` returns, by whichever exit
(normal end, too many components, no octree, no scalar field), the list of
kept components in the second place of the returned tuple, which gathers
those of all the clouds, has at most `maxNumberComponents` entries.
`ParallelSort` is taken to rearrange what it sorts. -/
theorem ExtractConnectedComponents_py_kept_bound (env : CCEnv) (h : Heap) (entities : List Nat)
    (octreeLevel minComponentSize maxNumberComponents : Int) (randomColors : Bool)
    (hmax : 0 ≤ maxNumberComponents)
    (hsort : ∀ i, SortsBy ComponentIndexAndSize.DescendingCompOperator (env.create i).ParallelSort)
    (res : PyTuple) (heap : Heap)
    (hrun : ExtractConnectedComponents_py env h entities octreeLevel minComponentSize
      maxNumberComponents randomColors = .ok (res, heap)) :
    ∃ n kept, res.take 2 = [.int n, .list kept] ∧ (kept.length : Int) ≤ maxNumberComponents := by
  unfold ExtractConnectedComponents_py at hrun
  simp only at hrun
  split at hrun
  · simp only [Except.ok.injEq, Prod.mk.injEq] at hrun
    rw [← hrun.1]
    exact ⟨_, _, rfl, by simpa using hmax⟩
  · exact ccLoop_count env minComponentSize maxNumberComponents randomColors hsort _ 0 _
      ⟨by simp, hmax⟩ res heap hrun

/-- Witness of C24: two clouds with two components of size 2 each and the
maximum 4: the four components are kept. -/
theorem ExtractConnectedComponents_py_kept_bound_witness :
    ∃ res heap,
      ExtractConnectedComponents_py twoComponentsEnv twoCloudsHeap [0, 1] 8 1 4 false =
        .ok (res, heap) ∧
      (∃ kept resid, res = [.int 2, .list kept, .list resid] ∧ kept.length = 4) ∧
      ∃ n kept, res.take 2 = [.int n, .list kept] ∧ (kept.length : Int) ≤ 4 :=
  ⟨_, _, rfl, ⟨_, _, rfl, by decide⟩,
    ExtractConnectedComponents_py_kept_bound twoComponentsEnv twoCloudsHeap [0, 1] 8 1 4 false
      (by decide) (fun _ => stableSortDesc_sorts) _ _ rfl⟩

/-! ## createComponentsClouds_: a failure of addPointIndex -/

theorem addSmall_fail (ok : Nat → Bool) (n k : Nat) (r : ReferenceCloud)
    (hfail : ∃ j, k ≤ j ∧ j < k + n ∧ ok j = false) :
    addSmall ok n k (some r) = .ok none := by
  induction n generalizing k r with
  | zero =>
    obtain ⟨j, h1, h2, _⟩ := hfail
    omega
  | succ n ih =>
    simp only [addSmall]
    by_cases hk : ok k = true
    · rw [if_pos hk]
      obtain ⟨j, h1, h2, h3⟩ := hfail
      have hjk : j ≠ k := by
        intro hc
        rw [hc, hk] at h3
        exact absurd h3 (by simp)
      exact ih (k + 1) _ ⟨j, by omega, by omega, h3⟩
    · rw [if_neg hk]

theorem createLoop_released (env : CreateEnv) (cloud : ccHObject)
    (components : List ReferenceCloud) (minPts : Nat) (rc : Bool) (order : List Nat)
    (horder : ∀ d ∈ order, ∃ comp, components[d]? = some comp ∧
      (comp.size ≥ minPts ∨ comp.size = 0))
    (i : Nat) (st : CreateState) (hst : st.refCloud = none) :
    ∃ st1, createLoop env cloud components minPts rc order i st = .ok st1 ∧
      st1.refCloud = none := by
  induction order generalizing i st with
  | nil => exact ⟨st, rfl, hst⟩
  | cons d rest ih =>
    obtain ⟨comp, hd, hsize⟩ := horder d (List.mem_cons_self _ _)
    have hrest : ∀ x ∈ rest, ∃ comp, components[x]? = some comp ∧
        (comp.size ≥ minPts ∨ comp.size = 0) :=
      fun x hx => horder x (List.mem_cons_of_mem _ hx)
    simp only [createLoop, hd]
    by_cases hbig : comp.size ≥ minPts
    · rw [if_pos hbig]
      by_cases hcl : env.cloneOk i = true
      · rw [if_pos hcl]
        exact ih hrest _ _ hst
      · rw [if_neg hcl]
        exact ih hrest _ _ hst
    · rw [if_neg hbig]
      have hzero : comp.size = 0 := by
        rcases hsize with h1 | h1
        · exact absurd h1 hbig
        · exact h1
      rw [hzero, hst]
      simp only [addSmall]
      exact ih hrest _ _ rfl

theorem createLoop_fail (env : CreateEnv) (cloud : ccHObject)
    (components : List ReferenceCloud) (minPts : Nat) (rc : Bool)
    (pre post : List Nat) (c : Nat) (comp : ReferenceCloud) (k : Nat)
    (hvalid : ∀ d ∈ pre, d < components.length)
    (hc : components[c]? = some comp) (hsmall : comp.size < minPts) (hk : k < comp.size)
    (hpost : ∀ d ∈ post, ∃ comp1, components[d]? = some comp1 ∧
      (comp1.size ≥ minPts ∨ comp1.size = 0))
    (i : Nat) (st : CreateState) (r : ReferenceCloud) (hr : st.refCloud = some r)
    (hpre : ∀ q, i ≤ q → q < i + pre.length → ∀ j, env.addPointIndexOk q j = true)
    (hfail : env.addPointIndexOk (i + pre.length) k = false) :
    ∃ st1, createLoop env cloud components minPts rc (pre ++ c :: post) i st = .ok st1 ∧
      st1.refCloud = none := by
  induction pre generalizing i st r with
  | nil =>
    have hnot : ¬ comp.size ≥ minPts := by omega
    simp only [List.nil_append, createLoop, hc, if_neg hnot, hr]
    rw [addSmall_fail _ _ _ _ ⟨k, Nat.zero_le _, by omega, by simpa using hfail⟩]
    exact createLoop_released env cloud components minPts rc post hpost _ _ rfl
  | cons d pre ih =>
    have hd : d < components.length := hvalid d (List.mem_cons_self _ _)
    have hrest : ∀ x ∈ pre, x < components.length :=
      fun x hx => hvalid x (List.mem_cons_of_mem _ hx)
    have hget : components[d]? = some components[d] := List.getElem?_eq_getElem hd
    have hpre1 : ∀ q, i + 1 ≤ q → q < i + 1 + pre.length → ∀ j,
        env.addPointIndexOk q j = true :=
      fun q h1 h2 j => hpre q (by omega) (by simp only [List.length_cons]; omega) j
    have hfail1 : env.addPointIndexOk (i + 1 + pre.length) k = false := by
      rw [show i + 1 + pre.length = i + (d :: pre).length by simp only [List.length_cons]; omega]
      exact hfail
    simp only [List.cons_append, createLoop, hget]
    by_cases hbig : components[d].size ≥ minPts
    · rw [if_pos hbig]
      by_cases hcl : env.cloneOk i = true
      · rw [if_pos hcl]
        exact ih hrest (i + 1) _ r hr hpre1 hfail1
      · rw [if_neg hcl]
        exact ih hrest (i + 1) _ r hr hpre1 hfail1
    · rw [if_neg hbig, hr,
        addSmall_ok _ (hpre i (Nat.le_refl _) (by simp only [List.length_cons]; omega))]
      exact ih hrest (i + 1) _ _ rfl hpre1 hfail1

/-- C22, as amended: when `addPointIndex` fails for a point of a small
component (the one visited in iteration `pre.length`, nothing having failed
before), the residual selection is released, with the points accumulated so
far; and when every component visited afterwards is of kept size or empty,
`createComponentsClouds_` returns its kept clouds and no residual cloud.
`ParallelSort` is taken to sort. -/
theorem createComponentsClouds_released (env : CreateEnv) (cloud : ccHObject)
    (components : List ReferenceCloud) (minPointsPerComponent : Nat)
    (randomColors sortBysize : Bool) (pre post : List Nat) (c : Nat) (comp : ReferenceCloud)
    (k : Nat)
    (hsort : SortsBy ComponentIndexAndSize.DescendingCompOperator env.ParallelSort)
    (horder : visitOrder env components sortBysize = pre ++ c :: post)
    (hpre : ∀ q, q < pre.length → ∀ j, env.addPointIndexOk q j = true)
    (hc : components[c]? = some comp) (hsmall : comp.size < minPointsPerComponent)
    (hk : k < comp.size) (hfail : env.addPointIndexOk pre.length k = false)
    (hpost : ∀ d ∈ post, ∀ comp1, components[d]? = some comp1 →
      comp1.size ≥ minPointsPerComponent ∨ comp1.size = 0) :
    ∃ kept, createComponentsClouds_ env (some cloud) components minPointsPerComponent
      randomColors sortBysize = .ok (kept, []) := by
  have hvalid := visitOrder_valid env components sortBysize hsort
  rw [horder] at hvalid
  have hpost2 : ∀ d ∈ post, ∃ comp1, components[d]? = some comp1 ∧
      (comp1.size ≥ minPointsPerComponent ∨ comp1.size = 0) := by
    intro d hd
    have hlt : d < components.length := hvalid d (by simp [hd])
    exact ⟨components[d], List.getElem?_eq_getElem hlt,
      hpost d hd _ (List.getElem?_eq_getElem hlt)⟩
  obtain ⟨st1, hloop, href⟩ := createLoop_fail env cloud components minPointsPerComponent
    randomColors pre post c comp k (fun d hd => hvalid d (by simp [hd])) hc hsmall hk hpost2 0
    { resultClouds := [], refCloud := some ⟨[]⟩, nbComp := 0 } ⟨[]⟩ rfl
    (fun q _ h2 j => hpre q (by omega) j) (by simpa using hfail)
  simp only [createComponentsClouds_]
  split
  · exact ⟨[], rfl⟩
  · rw [visitOrder_take env components sortBysize hsort, horder, hloop]
    simp only [href]
    exact ⟨_, rfl⟩

/-- Witness of C22 as amended: the component of size 3 is kept; for the
component of size 2, visited next, the second `addPointIndex` fails; nothing
follows, and the function returns one kept cloud and no residual cloud. -/
theorem createComponentsClouds_released_witness :
    ∃ kept, createComponentsClouds_ secondAddFailsEnv (some sevenPoints)
      [⟨[0, 1, 2]⟩, ⟨[3, 4]⟩] 3 false true = .ok (kept, []) :=
  createComponentsClouds_released secondAddFailsEnv sevenPoints [⟨[0, 1, 2]⟩, ⟨[3, 4]⟩] 3
    false true [0] [] 1 ⟨[3, 4]⟩ 1 stableSortDesc_sorts (by decide)
    (fun q hq j => by
      have hq0 : q = 0 := by simpa using hq
      subst hq0
      rfl)
    (by decide) (by decide) (by decide) (by decide) (by decide)

/-- Counterexample to C22 as stated: with the threshold 3 and the second
`addPointIndex` of iteration 1 failing, the run on the components of sizes 3
and 2 returns no residual cloud at all, although one point had been added to
the selection; and with a third component of size 1 the run dereferences the
released selection. -/
theorem createComponentsClouds_released_counterexample :
    (∃ kept, createComponentsClouds_ secondAddFailsEnv (some sevenPoints)
        [⟨[0, 1, 2]⟩, ⟨[3, 4]⟩] 3 false true = .ok (kept, []) ∧ kept.length = 1) ∧
      createComponentsClouds_ secondAddFailsEnv (some sevenPoints)
        [⟨[0, 1, 2]⟩, ⟨[3, 4]⟩, ⟨[5]⟩] 3 false true = .error .nullDereference :=
  ⟨⟨_, rfl, by decide⟩, rfl⟩


/-! ## MergeEntitiesPy: the mesh branch -/

theorem mergeableMesh_spec (h : Heap) (e : Option Nat) (he : mergeableMesh h e = true) :
    ∃ m, e = some m ∧ isA h m .POINT_CLOUD = false ∧ isKindOf h m .MESH = true ∧
      hasStandardVertices h m = true := by
  cases e with
  | none => simp [mergeableMesh] at he
  | some m =>
    simp only [mergeableMesh, Bool.and_eq_true] at he
    refine ⟨m, rfl, ?_, he.1, he.2⟩
    have hk := he.1
    unfold isKindOf at hk
    unfold isA
    cases hl : h.lookup m with
    | none => rfl
    | some o =>
      simp only [hl] at hk ⊢
      cases hc : o.classId <;> simp [hc, CC_TYPES.isKindOf] at hk ⊢

theorem classify_meshes (env : MergeEnv) (h : Heap) (halloc : ∀ i, env.badAlloc i = false)
    (entities : List (Option Nat)) (hmesh : ∀ e ∈ entities, mergeableMesh h e = true)
    (i : Nat) (clouds meshes : List Nat) :
    classify env h entities i clouds meshes = some (clouds, meshes ++ entities.filterMap id) := by
  induction entities generalizing i meshes with
  | nil => simp [classify]
  | cons e rest ih =>
    obtain ⟨m, rfl, h1, h2, h3⟩ := mergeableMesh_spec h e (hmesh e (List.mem_cons_self _ _))
    simp only [classify, h1, h2, h3, halloc, Bool.false_eq_true, if_false, if_true]
    rw [ih (fun x hx => hmesh x (List.mem_cons_of_mem _ hx))]
    simp

theorem filterMap_id_length (h : Heap) (entities : List (Option Nat))
    (hmesh : ∀ e ∈ entities, mergeableMesh h e = true) :
    (entities.filterMap id).length = entities.length := by
  induction entities with
  | nil => rfl
  | cons e rest ih =>
    obtain ⟨m, rfl, _⟩ := mergeableMesh_spec h e (hmesh e (List.mem_cons_self _ _))
    simp [ih (fun x hx => hmesh x (List.mem_cons_of_mem _ hx))]

theorem meshLoop_calls_all (env : MergeEnv) (sub : Bool) (bm bv : Nat) (meshes : List Nat)
    (i : Nat) (g : Heap) (calls : List (Nat × Bool))
    (hok : ∀ j, j < meshes.length → env.meshMergeOk (i + j) = true) :
    (meshLoop env sub bm bv meshes i g calls).2 = calls ++ meshes.map (fun m => (m, sub)) := by
  induction meshes generalizing i g calls with
  | nil => simp [meshLoop]
  | cons mesh rest ih =>
    have h0 : env.meshMergeOk i = true := by simpa using hok 0 (by simp)
    simp only [meshLoop, h0, if_true]
    rw [ih (i + 1) _ _ (fun j hj => by
      have := hok (j + 1) (by simpa using hj)
      rw [show i + 1 + j = i + (j + 1) by omega]
      exact this)]
    simp

theorem meshLoop_calls_fail (env : MergeEnv) (sub : Bool) (bm bv : Nat) (meshes : List Nat)
    (i : Nat) (g : Heap) (calls : List (Nat × Bool)) (j : Nat) (hj : j < meshes.length)
    (hok : ∀ t, t < j → env.meshMergeOk (i + t) = true)
    (hfail : env.meshMergeOk (i + j) = false) :
    (meshLoop env sub bm bv meshes i g calls).2 =
      calls ++ (meshes.take (j + 1)).map (fun m => (m, sub)) := by
  induction meshes generalizing i g calls j with
  | nil => simp at hj
  | cons mesh rest ih =>
    cases j with
    | zero =>
      have h0 : env.meshMergeOk i = false := by simpa using hfail
      simp [meshLoop, h0]
    | succ j =>
      have h0 : env.meshMergeOk i = true := by simpa using hok 0 (Nat.succ_pos j)
      simp only [meshLoop, h0, if_true]
      rw [ih (i + 1) _ _ j (by simpa using hj)
        (fun t ht => by
          have := hok (t + 1) (by omega)
          rw [show i + 1 + t = i + (t + 1) by omega]
          exact this)
        (by rw [show i + 1 + j = i + (j + 1) by omega]; exact hfail)]
      simp

theorem meshMerge_mergedMesh (ok : Bool) (n : Nat) (g : Heap) (mesh : Nat)
    (hinv : MergedMesh n g) : MergedMesh n (meshMerge ok g (n + 1) n mesh) := by
  obtain ⟨bm, bv, hbm, hbv, h1, h2, h3, h4, h5, h6, h7, h8⟩ := hinv
  have hbmlt := lookup_lt _ _ _ hbm
  have hbvlt := lookup_lt _ _ _ hbv
  unfold meshMerge
  cases ok with
  | false => exact ⟨bm, bv, hbm, hbv, h1, h2, h3, h4, h5, h6, h7, h8⟩
  | true =>
    simp only [if_true, hbm, hbv]
    cases hm : g.lookup mesh with
    | none => exact ⟨bm, bv, hbm, hbv, h1, h2, h3, h4, h5, h6, h7, h8⟩
    | some m =>
      simp only
      have hbmlt2 : ∀ o : ccHObject, n + 1 < (g.store n o).length := by
        intro o
        rw [store_length]
        exact hbmlt
      exact ⟨_, _, lookup_store_same _ _ _ (hbmlt2 _),
        (lookup_store_other _ _ _ _ (by omega)).trans (lookup_store_same _ _ _ hbvlt),
        h1, h2, h3, h4, h5, h6, h7, h8⟩

theorem meshLoop_mergedMesh (env : MergeEnv) (sub : Bool) (n : Nat) (meshes : List Nat)
    (i : Nat) (g : Heap) (calls : List (Nat × Bool)) (hinv : MergedMesh n g) :
    MergedMesh n (meshLoop env sub (n + 1) n meshes i g calls).1 := by
  induction meshes generalizing i g calls with
  | nil => exact hinv
  | cons mesh rest ih =>
    simp only [meshLoop]
    split
    · exact ih _ _ _ (meshMerge_mergedMesh true n g mesh hinv)
    · exact hinv

theorem mergeMeshes_mergedMesh (env : MergeEnv) (sub : Bool) (h : Heap) (meshes : List Nat) :
    MergedMesh h.length (mergeMeshes env sub h meshes).heap := by
  have a1 : h.length + 1 < h.length + 1 + 1 := by omega
  have a2 : h.length < h.length + 1 + 1 := by omega
  have a3 : ¬ (h.length + 1 = h.length) := by omega
  have a4 : ¬ (h.length = h.length + 1) := by omega
  have lV : ∀ x : Option ccHObject,
      Heap.lookup ((h ++ [some (newObject .POINT_CLOUD "vertices")]) ++ [x]) h.length =
      some (newObject .POINT_CLOUD "vertices") := by
    intro x
    rw [lookup_append_left _ _ _ (by simp), lookup_append_new]
  have lM : ∀ o : ccHObject,
      Heap.lookup ((h ++ [some (newObject .POINT_CLOUD "vertices")]) ++ [some o])
        (h.length + 1) = some o := by
    intro o
    have := lookup_append_new (h ++ [some (newObject .POINT_CLOUD "vertices")]) o
    simpa using this
  have hfinal : ∀ g : Heap, MergedMesh h.length g →
      MergedMesh h.length (match g.lookup (h.length + 1) with
        | some bm => g.store (h.length + 1) { bm with visible := true }
        | none => g) := by
    intro g hg
    obtain ⟨bm, bv, hbm, hbv, h1, h2, h3, h4, h5, h6, h7, h8⟩ := hg
    simp only [hbm]
    exact ⟨_, _, lookup_store_same _ _ _ (lookup_lt _ _ _ hbm),
      (lookup_store_other _ _ _ _ (by omega)).trans hbv, h1, h2, h3, h4, h5, h6, h7, h8⟩
  simp only [mergeMeshes, Heap.alloc, List.length_append, List.length_singleton, lM, lV,
    lookup_store, store_length, a1, a2, a3, a4, and_self, and_true, true_and, false_and,
    if_true, if_false]
  apply hfinal
  apply meshLoop_mergedMesh
  unfold MergedMesh
  simp only [lM, lV, lookup_store, store_length, List.length_append, List.length_singleton,
    a1, a2, a3, a4, and_self, and_true, true_and, false_and, if_true, if_false]
  exact ⟨_, _, rfl, rfl, rfl, rfl, rfl, rfl, rfl, rfl, rfl, rfl⟩

/-- C21: when every entity of a non-empty input is a mergeable mesh (and none
of the allocations of the classification fails), `MergeEntitiesPy` returns
the address of a new mesh named `Merged mesh`, whose vertex cloud, named
`vertices`, is its only child, has it as parent and is disabled; and the
library `merge` has been called on the input meshes in input order, each with
the `createSubMeshes` flag: on all of them when no call fails, and otherwise
on those up to and including the first one whose call fails. -/
theorem MergeEntitiesPy_meshes (env : MergeEnv) (h : Heap) (entities : List (Option Nat))
    (deleteOriginalClouds createSFcloudIndex createSubMeshes : Bool)
    (halloc : ∀ i, env.badAlloc i = false) (hne : entities ≠ [])
    (hmesh : ∀ e ∈ entities, mergeableMesh h e = true) :
    (MergeEntitiesPy env h entities deleteOriginalClouds createSFcloudIndex
        createSubMeshes).result = some (h.length + 1) ∧
      MergedMesh h.length (MergeEntitiesPy env h entities deleteOriginalClouds
        createSFcloudIndex createSubMeshes).heap ∧
      ((∀ j, j < entities.length → env.meshMergeOk j = true) →
        (MergeEntitiesPy env h entities deleteOriginalClouds createSFcloudIndex
          createSubMeshes).meshMergeCalls =
          (entities.filterMap id).map (fun m => (m, createSubMeshes))) ∧
      ∀ j, j < entities.length → env.meshMergeOk j = false →
        (∀ t, t < j → env.meshMergeOk t = true) →
        (MergeEntitiesPy env h entities deleteOriginalClouds createSFcloudIndex
          createSubMeshes).meshMergeCalls =
          ((entities.filterMap id).take (j + 1)).map (fun m => (m, createSubMeshes)) := by
  have hclass := classify_meshes env h halloc entities hmesh 0 [] []
  have hlen := filterMap_id_length h entities hmesh
  have hnil : (entities.filterMap id).isEmpty = false := by
    cases hfm : entities.filterMap id with
    | nil =>
      rw [hfm] at hlen
      cases entities with
      | nil => exact absurd rfl hne
      | cons a t => simp at hlen
    | cons a t => rfl
  have hrun : MergeEntitiesPy env h entities deleteOriginalClouds createSFcloudIndex
      createSubMeshes = mergeMeshes env createSubMeshes h (entities.filterMap id) := by
    simp [MergeEntitiesPy, hclass, hnil]
  rw [hrun]
  refine ⟨mergeMeshes_result env _ h _, mergeMeshes_mergedMesh env _ h _, ?_, ?_⟩
  · intro hok
    simp only [mergeMeshes, Heap.alloc, List.length_append, List.length_singleton]
    rw [meshLoop_calls_all env _ _ _ _ 0 _ [] (fun j hj => by
      rw [hlen] at hj
      simpa using hok j hj)]
    rfl
  · intro j hj hfail hok
    simp only [mergeMeshes, Heap.alloc, List.length_append, List.length_singleton]
    rw [meshLoop_calls_fail env _ _ _ _ 0 _ [] j (by rw [hlen]; exact hj)
      (fun t ht => by simpa using hok t ht) (by simpa using hfail)]
    rfl

/-- Witness of C21: the two meshes 1 and 3; the merge of the first fails, and
it is the only call made. -/
theorem MergeEntitiesPy_meshes_witness :
    (MergeEntitiesPy firstMeshFailsEnv twoMeshesHeap [some 1, some 3] false false true).result =
        some 5 ∧
      (MergeEntitiesPy firstMeshFailsEnv twoMeshesHeap [some 1, some 3] false false
        true).meshMergeCalls = [(1, true)] ∧
      (MergeEntitiesPy okEnv twoMeshesHeap [some 1, some 3] false false true).meshMergeCalls =
        [(1, true), (3, true)] ∧
      MergedMesh twoMeshesHeap.length
        (MergeEntitiesPy okEnv twoMeshesHeap [some 1, some 3] false false true).heap :=
  ⟨(MergeEntitiesPy_meshes firstMeshFailsEnv twoMeshesHeap [some 1, some 3] false false true
      (fun _ => rfl) (by decide) (by decide)).1,
    (MergeEntitiesPy_meshes firstMeshFailsEnv twoMeshesHeap [some 1, some 3] false false true
      (fun _ => rfl) (by decide) (by decide)).2.2.2 0 (by decide) (by decide) (by decide),
    (MergeEntitiesPy_meshes okEnv twoMeshesHeap [some 1, some 3] false false true
      (fun _ => rfl) (by decide) (by decide)).2.2.1 (fun _ _ => rfl),
    (MergeEntitiesPy_meshes okEnv twoMeshesHeap [some 1, some 3] false false true
      (fun _ => rfl) (by decide) (by decide)).2.1⟩


/-! ## MergeEntitiesPy consuming the originals: the accumulator is kept -/

theorem childrenListed_spec (h : Heap) (htree : childrenListed h = true) (a p : Nat)
    (hp : getParent h a = some p) : ∃ o, h.lookup p = some o ∧ a ∈ o.children := by
  have ha : a < h.length := by
    unfold getParent at hp
    cases hl : h.lookup a with
    | none => simp [hl] at hp
    | some o => exact lookup_lt h a o hl
  have := List.all_eq_true.mp htree a (List.mem_range.mpr ha)
  simp only [hp] at this
  cases hl : h.lookup p with
  | none => simp [hl] at this
  | some o =>
    simp only [hl] at this
    exact ⟨o, rfl, by simpa using this⟩

theorem pushCloud_perm (h : Heap) (l : List Nat) (c : Nat) :
    (pushCloud h l c).Perm (l ++ [c]) := by
  cases l with
  | nil =>
    rw [pushCloud_nil]
    exact List.Perm.refl _
  | cons f t =>
    rw [pushCloud_cons]
    split
    · have h1 : (c :: (t ++ [f])).Perm (c :: f :: t) :=
        List.Perm.cons c (List.perm_append_singleton f t)
      have h2 : (f :: (t ++ [c])).Perm (f :: c :: t) :=
        List.Perm.cons f (List.perm_append_singleton c t)
      exact h1.trans ((List.Perm.swap f c t).trans h2.symm)
    · exact List.Perm.refl _

theorem classify_perm (env : MergeEnv) (h : Heap) (entities : List (Option Nat)) (i : Nat)
    (clouds meshes : List Nat) (res : List Nat × List Nat)
    (hres : classify env h entities i clouds meshes = some res) :
    res.1.Perm (clouds ++ (cloudsOnly h entities).filterMap id) := by
  induction entities generalizing i clouds meshes with
  | nil =>
    simp only [classify, Option.some.injEq] at hres
    subst hres
    simp [cloudsOnly]
  | cons e rest ih =>
    cases e with
    | none =>
      have hf : cloudsOnly h (none :: rest) = cloudsOnly h rest := by simp [cloudsOnly]
      rw [hf]
      exact ih _ _ _ (by simpa [classify] using hres)
    | some a =>
      by_cases ha : isA h a .POINT_CLOUD = true
      · have hf : cloudsOnly h (some a :: rest) = some a :: cloudsOnly h rest := by
          simp [cloudsOnly, ha]
        rw [hf]
        simp only [classify, ha, if_true] at hres
        split at hres
        · exact Option.noConfusion hres
        · refine (ih _ _ _ hres).trans ?_
          simp only [List.filterMap_cons, id]
          refine ((pushCloud_perm h clouds a).append_right _).trans ?_
          simp
      · have hf : cloudsOnly h (some a :: rest) = cloudsOnly h rest := by
          simp [cloudsOnly, ha]
        rw [hf]
        simp only [classify, ha, if_false, Bool.false_eq_true] at hres
        split at hres
        · split at hres
          · split at hres
            · exact Option.noConfusion hres
            · exact ih _ _ _ hres
          · exact ih _ _ _ hres
        · exact ih _ _ _ hres

theorem nodup_filterMap_id (l : List (Option Nat)) (hl : l.Nodup) : (l.filterMap id).Nodup := by
  apply List.Nodup.filterMap _ hl
  intro a a1 b hb hb1
  simp only [id, Option.mem_def] at hb hb1
  rw [hb, hb1]

theorem ancestor_link (h : Heap) (hac : acyclic h = true) (p x : Nat)
    (hanc : isAncestorOf h p x = true) :
    ∃ y, getParent h y = some p ∧ (y = x ∨ isAncestorOf h y x = true) := by
  obtain ⟨k, hk⟩ := (isAncestorOf_iff h hac p x).mp hanc
  rw [nthParent_add h k 1 x] at hk
  cases hy : nthParent h k x with
  | none => simp [hy] at hk
  | some y =>
    rw [hy] at hk
    have hpy : getParent h y = some p := by
      simp only [Option.some_bind, nthParent] at hk
      cases hg : getParent h y with
      | none => simp [hg] at hk
      | some q =>
        simp only [hg, Option.some_bind, Option.some.injEq] at hk
        rw [hk]
    refine ⟨y, hpy, ?_⟩
    cases k with
    | zero =>
      simp only [nthParent, Option.some.injEq] at hy
      exact Or.inl hy.symm
    | succ k => exact Or.inr ((isAncestorOf_iff h hac y x).mpr ⟨k, hy⟩)

theorem chosen_safe (h : Heap) (hac : acyclic h = true) (htree : childrenListed h = true)
    (c0 c : Nat) (o0 : ccHObject) (hl0 : h.lookup c0 = some o0)
    (hcls : o0.classId = .POINT_CLOUD) (hne : c ≠ c0) (hnanc : isAncestorOf h c c0 = false) :
    selectToRemove h c ≠ c0 ∧ isAncestorOf h (selectToRemove h c) c0 = false := by
  unfold selectToRemove
  cases hp : getParent h c with
  | none => exact ⟨hne, hnanc⟩
  | some p =>
    simp only
    split
    · rename_i hcond
      simp only [Bool.and_eq_true, beq_iff_eq] at hcond
      obtain ⟨hisa, hnum⟩ := hcond
      refine ⟨?_, ?_⟩
      · intro hpc
        rw [hpc] at hisa
        simp [isA, hl0, hcls] at hisa
      · cases hanc : isAncestorOf h p c0 with
        | false => rfl
        | true =>
          obtain ⟨y, hy, hyc⟩ := ancestor_link h hac p c0 hanc
          obtain ⟨o, hlo, hcmem⟩ := childrenListed_spec h htree c p hp
          obtain ⟨o1, hlo1, hymem⟩ := childrenListed_spec h htree y p hy
          rw [hlo] at hlo1
          have ho : o1 = o := (Option.some.inj hlo1).symm
          subst ho
          have hlen : o1.children.length = 1 := by
            simpa [getChildrenNumber, hlo] using hnum
          obtain ⟨z, hz⟩ := List.length_eq_one.mp hlen
          rw [hz] at hcmem hymem
          simp only [List.mem_singleton] at hcmem hymem
          have hyeq : y = c := hymem.trans hcmem.symm
          rcases hyc with h1 | h1
          · exact absurd (hyeq.symm.trans h1) hne
          · rw [hyeq, hnanc] at h1
            exact absurd h1 (by simp)
    · exact ⟨hne, hnanc⟩

theorem mergeFirst_merged (env : MergeEnv) (del sf : Bool) (pc : Nat) (st : MergeState) :
    (mergeFirst env del sf pc st).1.merged = st.merged := by
  unfold mergeFirst
  simp only
  split
  · split
    · rfl
    · split <;> rfl
  · rfl

theorem mergeFirst_true_firstCloud (env : MergeEnv) (sf : Bool) (pc : Nat) (st : MergeState) :
    (mergeFirst env true sf pc st).1.firstCloud = some pc := by
  unfold mergeFirst
  simp only [if_true]
  split
  · split
    · rfl
    · split <;> rfl
  · rfl

theorem mergeNext_merged (env : MergeEnv) (del : Bool) (i pc fc : Nat) (st : MergeState) :
    (mergeNext env del i pc fc st).1.merged = st.merged ∨
      (mergeNext env del i pc fc st).1.merged = st.merged ++ [pc] := by
  unfold mergeNext
  simp only
  split
  · split
    · exact Or.inr rfl
    · exact Or.inr rfl
  · exact Or.inl rfl

theorem mergeLoop_merged (env : MergeEnv) (del sf : Bool) (clouds : List Nat) (i : Nat)
    (st : MergeState) (x : Nat) (hx : x ∈ (mergeLoop env del sf clouds i st).1.merged) :
    x ∈ st.merged ∨ x ∈ clouds := by
  induction clouds generalizing i st with
  | nil => exact Or.inl hx
  | cons pc rest ih =>
    simp only [mergeLoop] at hx
    cases hf : st.firstCloud with
    | none =>
      have hm := mergeFirst_merged env del sf pc st
      simp only [hf] at hx
      cases hmf : mergeFirst env del sf pc st with
      | mk st1 b =>
        rw [hmf] at hm hx
        simp only at hm
        cases b with
        | true =>
          simp only at hx
          exact Or.inl (hm ▸ hx)
        | false =>
          simp only at hx
          rcases ih _ _ hx with h1 | h1
          · exact Or.inl (hm ▸ h1)
          · exact Or.inr (List.mem_cons_of_mem _ h1)
    | some fc =>
      have hm := mergeNext_merged env del i pc fc st
      simp only [hf] at hx
      cases hmn : mergeNext env del i pc fc st with
      | mk st1 b =>
        rw [hmn] at hm hx
        simp only at hm
        have hst1 : ∀ y ∈ st1.merged, y ∈ st.merged ∨ y ∈ pc :: rest := by
          intro y hy
          rcases hm with h1 | h1
          · exact Or.inl (h1 ▸ hy)
          · rw [h1] at hy
            rcases List.mem_append.mp hy with h2 | h2
            · exact Or.inl h2
            · simp only [List.mem_singleton] at h2
              exact Or.inr (by simp [h2])
        cases b with
        | true =>
          simp only at hx
          exact hst1 x hx
        | false =>
          simp only at hx
          rcases ih _ _ hx with h1 | h1
          · exact hst1 x h1
          · exact Or.inr (List.mem_cons_of_mem _ h1)

theorem mergeClouds_first (env : MergeEnv) (sf : Bool) (h : Heap) (c0 : Nat)
    (rest : List Nat) :
    (∀ a, (mergeClouds env true sf h (c0 :: rest)).result = some a → a = c0) ∧
      ∀ x ∈ (mergeClouds env true sf h (c0 :: rest)).merged, x ∈ rest := by
  have hm := mergeFirst_merged env true sf c0 (initialMergeState h)
  have hfc := mergeFirst_true_firstCloud env sf c0 (initialMergeState h)
  have hi : (initialMergeState h).firstCloud = none := rfl
  unfold mergeClouds
  simp only [mergeLoop, hi]
  cases hmf : mergeFirst env true sf c0 (initialMergeState h) with
  | mk st1 b =>
    rw [hmf] at hm hfc
    simp only at hm hfc
    cases b with
    | true =>
      simp only
      refine ⟨fun a ha => by simp at ha, fun x hx => ?_⟩
      rw [hm] at hx
      simp [initialMergeState] at hx
    | false =>
      simp only
      obtain ⟨hfin, hfirst⟩ := mergeLoop_firstCloud env true sf rest 1 st1 c0 hfc
      have hmem := mergeLoop_merged env true sf rest 1 st1
      cases hml : mergeLoop env true sf rest 1 st1 with
      | mk st e =>
        rw [hml] at hfin hfirst hmem
        simp only at hfin hfirst hmem
        subst hfin
        simp only
        refine ⟨fun a ha => ?_, fun x hx => ?_⟩
        · rw [hfirst] at ha
          exact (Option.some.inj ha).symm
        · rcases hmem x hx with h1 | h1
          · rw [hm] at h1
            simp [initialMergeState] at h1
          · exact h1

theorem removeScheduled_frame (g : Heap) (l : List Nat) (x : Nat) (hx : x ∉ l) :
    getParent (removeScheduled g l).1 x = getParent g x ∧
      ((removeScheduled g l).1.lookup x).isSome = (g.lookup x).isSome := by
  induction l generalizing g with
  | nil => exact ⟨rfl, rfl⟩
  | cons y rest ih =>
    have hyx : ¬ y = x := fun hc => hx (by simp [hc])
    have hrest : x ∉ rest := fun hc => hx (List.mem_cons_of_mem _ hc)
    rcases removeScheduled_cons g y rest with ⟨_, h0⟩ | ⟨_, h0⟩ | ⟨p, _, h0⟩
    · rw [h0]
      exact ⟨rfl, rfl⟩
    · rw [h0]
      obtain ⟨h1, h2⟩ := ih (g.free y) hrest
      rw [h1, h2, getParent_free, lookup_free, if_neg hyx, if_neg hyx]
      exact ⟨rfl, rfl⟩
    · rw [h0]
      obtain ⟨h1, h2⟩ := ih (removeChild g p y) hrest
      rw [h1, h2, getParent_removeChild, if_neg hyx]
      refine ⟨rfl, ?_⟩
      unfold removeChild
      rw [lookup_clearParent, if_neg hyx, lookup_dropChild]
      split
      · cases g.lookup x <;> rfl
      · rfl

/-! ## MergeEntitiesPy consuming the originals: no node is met twice -/

theorem castFloat32_exact (n : Nat) (hn : n ≤ 16777216) : castFloat32 n = n := by
  unfold castFloat32
  rw [if_pos hn]

theorem scheduleOf_antichain (h : Heap) (merged : List Nat) :
    Antichain h (scheduleOf h merged) := by
  induction merged using List.reverseRecOn with
  | nil => simp [scheduleOf, Antichain]
  | append_singleton l a ih =>
    rw [scheduleOf_append]
    exact run_antichain h _ _ 0 _ (by omega) ih (by intro e he; simp at he)

theorem isAncestorOf_parent (h : Heap) (x p : Nat) (hp : getParent h x = some p) :
    isAncestorOf h p x = true := by
  have hx : x < h.length := by
    unfold getParent at hp
    cases hl : h.lookup x with
    | none => simp [hl] at hp
    | some o => exact lookup_lt h x o hl
  unfold isAncestorOf
  cases hn : h.length with
  | zero => omega
  | succ n => simp [isAncestorOfAux, hp]

theorem antichain_parent (h : Heap) (l : List Nat) (ha : Antichain h l) (x p : Nat)
    (hx : x ∈ l) (hpl : p ∈ l) (hp : getParent h x = some p) : p = x := by
  by_contra hne
  have hsym : Symmetric
      (fun a b => isAncestorOf h a b = false ∧ isAncestorOf h b a = false) :=
    fun a b hab => ⟨hab.2, hab.1⟩
  have := (List.Pairwise.forall hsym ha hpl hx hne).1
  rw [isAncestorOf_parent h x p hp] at this
  exact absurd this (by simp)

theorem lookup_removeChild_isSome (g : Heap) (p y b : Nat) :
    ((removeChild g p y).lookup b).isSome = (g.lookup b).isSome := by
  unfold removeChild
  rw [lookup_clearParent, lookup_dropChild]
  split <;> split <;> cases g.lookup b <;> rfl

theorem removeScheduled_ok (g : Heap) (l : List Nat) (hnd : l.Nodup)
    (halive : ∀ x ∈ l, (g.lookup x).isSome = true)
    (hpar : ∀ x ∈ l, ∀ p, getParent g x = some p →
      (g.lookup p).isSome = true ∧ (p ∈ l → p = x)) :
    (removeScheduled g l).2 = none := by
  induction l generalizing g with
  | nil => rfl
  | cons y rest ih =>
    obtain ⟨hy, hndr⟩ := List.nodup_cons.mp hnd
    have hne : ∀ x ∈ rest, ¬ y = x := fun x hx hc => hy (hc ▸ hx)
    rcases removeScheduled_cons g y rest with ⟨hcause, _⟩ | ⟨hp, h1⟩ | ⟨p, hp, h1⟩
    · rcases hcause with hc | ⟨p, hp, hc⟩
      · have := halive y (List.mem_cons_self _ _)
        rw [hc] at this
        exact absurd this (by simp)
      · have := (hpar y (List.mem_cons_self _ _) p hp).1
        rw [hc] at this
        exact absurd this (by simp)
    · rw [h1]
      apply ih _ hndr
      · intro x hx
        rw [lookup_free, if_neg (hne x hx)]
        exact halive x (List.mem_cons_of_mem _ hx)
      · intro x hx q hq
        rw [getParent_free, if_neg (hne x hx)] at hq
        obtain ⟨h2, h3⟩ := hpar x (List.mem_cons_of_mem _ hx) q hq
        have hyq : ¬ y = q := by
          intro hc
          have := h3 (by rw [← hc]; exact List.mem_cons_self _ _)
          exact hne x hx (hc.trans this)
        rw [lookup_free, if_neg hyq]
        exact ⟨h2, fun hqr => h3 (List.mem_cons_of_mem _ hqr)⟩
    · rw [h1]
      apply ih _ hndr
      · intro x hx
        rw [lookup_removeChild_isSome]
        exact halive x (List.mem_cons_of_mem _ hx)
      · intro x hx q hq
        rw [getParent_removeChild, if_neg (hne x hx)] at hq
        obtain ⟨h2, h3⟩ := hpar x (List.mem_cons_of_mem _ hx) q hq
        rw [lookup_removeChild_isSome]
        exact ⟨h2, fun hqr => h3 (List.mem_cons_of_mem _ hqr)⟩

theorem treeEq_isSome (h g : Heap) (he : TreeEq h g) (a : Nat) :
    (g.lookup a).isSome = (h.lookup a).isSome := by
  have hd := he.2 a
  cases hg : g.lookup a <;> cases hh : h.lookup a <;> simp [hg, hh, treeData] at hd ⊢

theorem selectToRemove_spec (h : Heap) (c : Nat) :
    selectToRemove h c = c ∨
      ∃ p, getParent h c = some p ∧ isA h p .HIERARCHY_OBJECT = true ∧
        getChildrenNumber h p = 1 ∧ selectToRemove h c = p := by
  unfold selectToRemove
  cases hp : getParent h c with
  | none => exact Or.inl rfl
  | some p =>
    simp only
    split
    · rename_i hc
      simp only [Bool.and_eq_true, beq_iff_eq] at hc
      exact Or.inr ⟨p, rfl, hc.1, hc.2, rfl⟩
    · exact Or.inl rfl

theorem chosen_injective (h : Heap) (htree : childrenListed h = true) (c1 c2 : Nat)
    (h1 : isA h c1 .POINT_CLOUD = true) (h2 : isA h c2 .POINT_CLOUD = true)
    (heq : selectToRemove h c1 = selectToRemove h c2) : c1 = c2 := by
  have hcloud : ∀ c p, isA h c .POINT_CLOUD = true → isA h p .HIERARCHY_OBJECT = true →
      c ≠ p := by
    intro c p hc hp hcp
    subst hcp
    obtain ⟨o, hl, hcls⟩ := isA_lookup h c _ hc
    simp [isA, hl, hcls] at hp
  rcases selectToRemove_spec h c1 with e1 | ⟨p1, hp1, hisa1, hnum1, e1⟩ <;>
    rcases selectToRemove_spec h c2 with e2 | ⟨p2, hp2, hisa2, hnum2, e2⟩
  · rw [e1, e2] at heq
    exact heq
  · rw [e1, e2] at heq
    exact absurd heq (hcloud c1 p2 h1 hisa2)
  · rw [e1, e2] at heq
    exact absurd heq.symm (hcloud c2 p1 h2 hisa1)
  · rw [e1, e2] at heq
    subst heq
    obtain ⟨o, hlo, hm1⟩ := childrenListed_spec h htree c1 p1 hp1
    obtain ⟨o2, hlo2, hm2⟩ := childrenListed_spec h htree c2 p1 hp2
    rw [hlo] at hlo2
    have ho : o2 = o := (Option.some.inj hlo2).symm
    subst ho
    have hlen : o2.children.length = 1 := by
      simpa [getChildrenNumber, hlo] using hnum1
    obtain ⟨z, hz⟩ := List.length_eq_one.mp hlen
    rw [hz] at hm1 hm2
    simp only [List.mem_singleton] at hm1 hm2
    exact hm1.trans hm2.symm

theorem chosen_nodup (h : Heap) (htree : childrenListed h = true) (l : List Nat)
    (hcl : ∀ c ∈ l, isA h c .POINT_CLOUD = true) (hnd : l.Nodup) :
    (l.map (selectToRemove h)).Nodup :=
  List.Nodup.map_on
    (fun x hx y hy hxy => chosen_injective h htree x y (hcl x hx) (hcl y hy) hxy) hnd

theorem mergeLoop_merged_sublist (env : MergeEnv) (del sf : Bool) (clouds : List Nat) (i : Nat)
    (st : MergeState) :
    ∃ l, l.Sublist clouds ∧ (mergeLoop env del sf clouds i st).1.merged = st.merged ++ l := by
  induction clouds generalizing i st with
  | nil => exact ⟨[], List.Sublist.refl _, by simp [mergeLoop]⟩
  | cons pc rest ih =>
    simp only [mergeLoop]
    cases hf : st.firstCloud with
    | none =>
      have hm := mergeFirst_merged env del sf pc st
      simp only
      cases hmf : mergeFirst env del sf pc st with
      | mk st1 b =>
        rw [hmf] at hm
        simp only at hm
        cases b with
        | true => exact ⟨[], List.nil_sublist _, by simp [hm]⟩
        | false =>
          simp only
          obtain ⟨l, hl, hml⟩ := ih (i + 1) st1
          exact ⟨l, List.Sublist.cons _ hl, by rw [hml, hm]⟩
    | some fc =>
      have hm := mergeNext_merged env del i pc fc st
      simp only
      cases hmn : mergeNext env del i pc fc st with
      | mk st1 b =>
        rw [hmn] at hm
        simp only at hm
        cases b with
        | true =>
          simp only
          rcases hm with h1 | h1
          · exact ⟨[], List.nil_sublist _, by simp [h1]⟩
          · exact ⟨[pc], List.Sublist.cons₂ _ (List.nil_sublist _), h1⟩
        | false =>
          simp only
          obtain ⟨l, hl, hml⟩ := ih (i + 1) st1
          rcases hm with h1 | h1
          · exact ⟨l, List.Sublist.cons _ hl, by rw [hml, h1]⟩
          · exact ⟨pc :: l, List.Sublist.cons₂ _ hl, by rw [hml, h1]; simp⟩

theorem mergeClouds_merged_sublist (env : MergeEnv) (del sf : Bool) (h : Heap)
    (clouds : List Nat) : (mergeClouds env del sf h clouds).merged.Sublist clouds := by
  obtain ⟨l, hl, hml⟩ := mergeLoop_merged_sublist env del sf clouds 0 (initialMergeState h)
  have hm : (mergeClouds env del sf h clouds).merged =
      (mergeLoop env del sf clouds 0 (initialMergeState h)).1.merged := by
    unfold mergeClouds
    cases mergeLoop env del sf clouds 0 (initialMergeState h) with
    | mk st e => cases e <;> rfl
  rw [hm, hml]
  simpa [initialMergeState] using hl

theorem mergeClouds_keep_no_fault (env : MergeEnv) (sf : Bool) (h : Heap) (clouds : List Nat) :
    (mergeClouds env false sf h clouds).fault = none := by
  unfold mergeClouds
  cases mergeLoop env false sf clouds 0 (initialMergeState h) with
  | mk st e => cases e <;> rfl

theorem mergeClouds_no_fault (env : MergeEnv) (sf : Bool) (h : Heap) (clouds : List Nat)
    (hvalid : ∀ c ∈ clouds, isA h c .POINT_CLOUD = true)
    (htree : childrenListed h = true)
    (hsel : ((mergeClouds env true sf h clouds).merged.map (selectToRemove h)).Nodup) :
    (mergeClouds env true sf h clouds).fault = none := by
  obtain ⟨g, hg, hs, _, hfault⟩ := mergeClouds_schedule env sf h clouds
  rw [hfault, hs]
  apply removeScheduled_ok g _ (scheduleOf_nodup h _ hsel)
  · intro x hx
    obtain ⟨c, hc, hxc⟩ := scheduleOf_mem h _ x hx
    have hcc := hvalid c ((mergeClouds_merged_sublist env true sf h clouds).subset hc)
    rw [treeEq_isSome h g hg]
    rcases selectToRemove_cases h c with h1 | h1
    · rw [hxc, h1]
      obtain ⟨o, hl, _⟩ := isA_lookup h c _ hcc
      rw [hl]
      rfl
    · rw [← hxc] at h1
      obtain ⟨o, hl, _⟩ := isA_lookup h x _ h1
      rw [hl]
      rfl
  · intro x hx p hp
    rw [treeEq_getParent h g hg] at hp
    refine ⟨?_, fun hpl => antichain_parent h _ (scheduleOf_antichain h _) x p hx hpl hp⟩
    obtain ⟨o, hl, _⟩ := childrenListed_spec h htree x p hp
    rw [treeEq_isSome h g hg, hl]
    rfl

theorem mergeClouds_distinct_no_fault (env : MergeEnv) (del sf : Bool) (h : Heap)
    (clouds : List Nat) (hvalid : ∀ c ∈ clouds, isA h c .POINT_CLOUD = true)
    (hdist : del = true → clouds.Nodup ∧ childrenListed h = true) :
    (mergeClouds env del sf h clouds).fault = none := by
  cases del with
  | false => exact mergeClouds_keep_no_fault env sf h clouds
  | true =>
    obtain ⟨hnd, htree⟩ := hdist rfl
    apply mergeClouds_no_fault env sf h clouds hvalid htree
    exact ((chosen_nodup h htree clouds hvalid hnd).sublist
      ((mergeClouds_merged_sublist env true sf h clouds).map _))

theorem classified_isA (env : MergeEnv) (h : Heap) (entities : List (Option Nat))
    (clouds meshes : List Nat)
    (hclass : classify env h entities 0 [] [] = some (clouds, meshes)) :
    ∀ c ∈ clouds, isA h c .POINT_CLOUD = true := by
  intro c hc
  rcases classify_clouds_valid env h entities 0 [] [] _ hclass c hc with h1 | h1
  · simp at h1
  · exact h1

theorem MergeEntitiesPy_no_fault (env : MergeEnv) (h : Heap) (entities : List (Option Nat))
    (sf sub : Bool) (htree : childrenListed h = true)
    (hsel : ((MergeEntitiesPy env h entities true sf sub).merged.map
      (selectToRemove h)).Nodup) :
    (MergeEntitiesPy env h entities true sf sub).fault = none := by
  revert hsel
  unfold MergeEntitiesPy
  cases hclass : classify env h entities 0 [] [] with
  | none => exact fun _ => rfl
  | some cm =>
    obtain ⟨clouds, meshes⟩ := cm
    simp only
    split
    · exact fun _ => rfl
    · split
      · exact fun hsel => mergeClouds_no_fault env sf h clouds
          (classified_isA env h entities clouds meshes hclass) htree hsel
      · intro _
        simp [mergeMeshes]

theorem MergeEntitiesPy_distinct_no_fault (env : MergeEnv) (h : Heap)
    (entities : List (Option Nat)) (del sf sub : Bool) (c0 : Nat) (rest meshes : List Nat)
    (hclass : classify env h entities 0 [] [] = some (c0 :: rest, meshes))
    (hdist : del = true → (c0 :: rest).Nodup ∧ childrenListed h = true) :
    (MergeEntitiesPy env h entities del sf sub).fault = none := by
  rw [MergeEntitiesPy_clouds env h entities del sf sub c0 rest meshes hclass]
  exact mergeClouds_distinct_no_fault env del sf h (c0 :: rest)
    (classified_isA env h entities _ _ hclass) hdist


/-- C23: on an acyclic object tree in which every node is listed among the
children of its parent, for an input whose clouds are pairwise distinct, in
`MergeEntitiesPy` with `deleteOriginalClouds` the accumulator `c0`, which is
what is returned when the result is not null, is not an entry of the removal
schedule and no entry is an ancestor of it; the removal loop runs without
fault, and after it the accumulator has the parent it had and is still
there. -/
theorem MergeEntitiesPy_accumulator_kept (env : MergeEnv) (h : Heap)
    (entities : List (Option Nat)) (createSFcloudIndex createSubMeshes : Bool)
    (c0 : Nat) (rest meshes : List Nat)
    (hac : acyclic h = true) (htree : childrenListed h = true)
    (hdistinct : (cloudsOnly h entities).Nodup)
    (hclass : classify env h entities 0 [] [] = some (c0 :: rest, meshes)) :
    (∀ a, (MergeEntitiesPy env h entities true createSFcloudIndex createSubMeshes).result =
        some a → a = c0) ∧
      c0 ∉ (MergeEntitiesPy env h entities true createSFcloudIndex createSubMeshes).scheduled ∧
      (∀ e ∈ (MergeEntitiesPy env h entities true createSFcloudIndex
          createSubMeshes).scheduled, isAncestorOf h e c0 = false) ∧
      getParent (MergeEntitiesPy env h entities true createSFcloudIndex createSubMeshes).heap
        c0 = getParent h c0 ∧
      (MergeEntitiesPy env h entities true createSFcloudIndex createSubMeshes).heap.lookup
        c0 ≠ none ∧
      (MergeEntitiesPy env h entities true createSFcloudIndex createSubMeshes).fault = none := by
  obtain ⟨o0, hl0, hcls⟩ := classified_valid env h entities _ _ hclass c0
    (List.mem_cons_self _ _)
  have hperm := classify_perm env h entities 0 [] [] _ hclass
  simp only [List.nil_append] at hperm
  have hnd : (c0 :: rest).Nodup := hperm.nodup_iff.mpr (nodup_filterMap_id _ hdistinct)
  have htop := classify_frontOnTop env h hac entities 0 [] [] (by intro f hf; simp at hf)
    (c0 :: rest, meshes) hclass c0 rfl
  have hfault := MergeEntitiesPy_distinct_no_fault env h entities true createSFcloudIndex
    createSubMeshes c0 rest meshes hclass (fun _ => ⟨hnd, htree⟩)
  rw [MergeEntitiesPy_clouds env h entities true _ _ c0 rest meshes hclass] at hfault ⊢
  obtain ⟨hres, hmerged⟩ := mergeClouds_first env createSFcloudIndex h c0 rest
  obtain ⟨g, hg, hs, hheap, _⟩ := mergeClouds_schedule env createSFcloudIndex h (c0 :: rest)
  have hsafe : ∀ x ∈ (mergeClouds env true createSFcloudIndex h (c0 :: rest)).scheduled,
      x ≠ c0 ∧ isAncestorOf h x c0 = false := by
    intro x hx
    rw [hs] at hx
    obtain ⟨c, hc, hxc⟩ := scheduleOf_mem h _ x hx
    have hcrest := hmerged c hc
    have hne : c ≠ c0 := by
      intro hcc
      rw [hcc] at hcrest
      exact (List.nodup_cons.mp hnd).1 hcrest
    rw [hxc]
    exact chosen_safe h hac htree c0 c o0 hl0 hcls hne
      (htop c (List.mem_cons_of_mem _ hcrest))
  have hnot : c0 ∉ (mergeClouds env true createSFcloudIndex h (c0 :: rest)).scheduled :=
    fun hc => (hsafe c0 hc).1 rfl
  obtain ⟨hf1, hf2⟩ := removeScheduled_frame g _ c0 hnot
  refine ⟨hres, hnot, fun e he => (hsafe e he).2, ?_, ?_, hfault⟩
  · rw [hheap, hf1, treeEq_getParent h g hg]
  · rw [hheap]
    have hgl : (g.lookup c0).isSome = true := by
      have hd := hg.2 c0
      rw [hl0] at hd
      cases hgc : g.lookup c0 with
      | none => simp [hgc, treeData] at hd
      | some o => rfl
    intro hnone
    rw [hnone, hgl] at hf2
    exact absurd hf2 (by simp)

/-- Witness of C23: the clouds 2, 1, 0 of the chain and the cloud 4 of the
group 3: the accumulator is 0, the schedule is made of 1 and 3, and 0 is
returned with the parent it had (none). -/
theorem MergeEntitiesPy_accumulator_kept_witness :
    (MergeEntitiesPy okEnv chainHeap [some 2, some 1, some 0, some 4] true true false).result =
        some 0 ∧
      (MergeEntitiesPy okEnv chainHeap [some 2, some 1, some 0, some 4] true true
        false).scheduled = [1, 3] ∧
      0 ∉ (MergeEntitiesPy okEnv chainHeap [some 2, some 1, some 0, some 4] true true
        false).scheduled ∧
      (∀ e ∈ (MergeEntitiesPy okEnv chainHeap [some 2, some 1, some 0, some 4] true true
          false).scheduled, isAncestorOf chainHeap e 0 = false) ∧
      getParent (MergeEntitiesPy okEnv chainHeap [some 2, some 1, some 0, some 4] true true
        false).heap 0 = getParent chainHeap 0 ∧
      (MergeEntitiesPy okEnv chainHeap [some 2, some 1, some 0, some 4] true true
        false).heap.lookup 0 ≠ none ∧
      (MergeEntitiesPy okEnv chainHeap [some 2, some 1, some 0, some 4] true true
        false).fault = none :=
  ⟨by decide, by decide,
    (MergeEntitiesPy_accumulator_kept okEnv chainHeap [some 2, some 1, some 0, some 4] true false
      0 [2, 1, 4] [] (by decide) (by decide) (by decide) (by decide)).2⟩

/-! ## MergeEntitiesPy: the index field -/

/-- C1, as amended: for the classified clouds `c0 :: rest` of any input, when
the index field can be allocated, every append succeeds, the first cloud is
well formed, the indices up to the number of clouds are converted to
`ScalarType` without rounding and, if the originals are consumed, the clouds
are pairwise distinct nodes of a heap in which every node is listed among the
children of its parent, `MergeEntitiesPy` with `createSFcloudIndex` runs
without fault and returns a cloud whose size is the sum of the sizes of the
clouds and whose field `Original cloud index` is made of as many zeros as the
first cloud has points, then as many ones as the second has, and so on. -/
theorem MergeEntitiesPy_index_field (env : MergeEnv) (h : Heap)
    (entities : List (Option Nat)) (deleteOriginalClouds createSubMeshes : Bool)
    (c0 : Nat) (rest meshes : List Nat)
    (hclass : classify env h entities 0 [] [] = some (c0 :: rest, meshes))
    (hsf : env.addScalarFieldOk = true) (happ : ∀ i, env.appendOk i = true)
    (hwf : wellFormedCloud h c0 = true)
    (hexact : ∀ k, k ≤ rest.length → env.castIndex k = k)
    (hdist : deleteOriginalClouds = true → (c0 :: rest).Nodup ∧ childrenListed h = true) :
    (MergeEntitiesPy env h entities deleteOriginalClouds true createSubMeshes).fault = none ∧
      ∃ o, (MergeEntitiesPy env h entities deleteOriginalClouds true createSubMeshes).cloud =
          some o ∧
        o.points.length = ((c0 :: rest).map (cloudSize h)).sum ∧
        fieldValues o CC_ORIGINAL_CLOUD_INDEX_SF_NAME =
          some (expectedIndexField ((c0 :: rest).map (cloudSize h)) 0) := by
  obtain ⟨n, o, hn, hcloud, _, hpts, hfield, hstop⟩ := MergeEntitiesPy_spec env h entities
    deleteOriginalClouds createSubMeshes c0 rest meshes hclass hsf hwf
    (fun hd => (List.nodup_cons.mp (hdist hd).1).1) hexact
  have hfull : n = rest.length := by
    by_contra hne
    have := hstop (by omega)
    rw [happ] at this
    exact absurd this (by simp)
  rw [hfull, List.take_length] at hpts hfield
  exact ⟨MergeEntitiesPy_distinct_no_fault env h entities deleteOriginalClouds true
    createSubMeshes c0 rest meshes hclass hdist, o, hcloud, hpts, hfield⟩

/-- Witness of C1 as amended: the clouds 0, 4 and 5 of sizes 2, 2 and 1,
merged into the cloud 0 with the originals consumed, give 5 points with the
field 0, 0, 1, 1, 2, and no fault. -/
theorem MergeEntitiesPy_index_field_witness :
    (MergeEntitiesPy okEnv chainHeap [some 0, some 4, some 5] true true false).fault = none ∧
      ∃ o, (MergeEntitiesPy okEnv chainHeap [some 0, some 4, some 5] true true false).cloud =
          some o ∧
        o.points.length = (([0, 4, 5] : List Nat).map (cloudSize chainHeap)).sum ∧
        fieldValues o CC_ORIGINAL_CLOUD_INDEX_SF_NAME =
          some (expectedIndexField (([0, 4, 5] : List Nat).map (cloudSize chainHeap)) 0) :=
  MergeEntitiesPy_index_field okEnv chainHeap [some 0, some 4, some 5] true false 0 [4, 5] []
    (by decide) rfl (fun _ => rfl) (by decide) (by decide) (fun _ => ⟨by decide, by decide⟩)

/-- Counterexample to C1 as stated. With the originals consumed and the
clouds 1, 5, 1 of sizes 1, 1, 1, the accumulator 1 is appended to itself once
it has grown to 2 points: the result has 4 points, not 3, and the field 0, 1,
2, 2. With the clouds 0, 5, 5 every append succeeds and the cloud 5 is
scheduled twice: the removal loop deletes it and then reads it again. When
the index field cannot be allocated the result is null. And the index
16777217 becomes the `float` 16777216. -/
theorem MergeEntitiesPy_index_field_counterexample :
    classify okEnv chainHeap [some 1, some 5, some 1] 0 [] [] = some ([1, 5, 1], []) ∧
      ([1, 5, 1] : List Nat).map (cloudSize chainHeap) = [1, 1, 1] ∧
      ((MergeEntitiesPy okEnv chainHeap [some 1, some 5, some 1] true true false).cloud.map
        (fun o => o.points.length)) = some 4 ∧
      ((MergeEntitiesPy okEnv chainHeap [some 1, some 5, some 1] true true false).cloud.bind
        (fun o => fieldValues o CC_ORIGINAL_CLOUD_INDEX_SF_NAME)) =
        some [.val 0, .val 1, .val 2, .val 2] ∧
      classify okEnv chainHeap [some 0, some 5, some 5] 0 [] [] = some ([0, 5, 5], []) ∧
      (MergeEntitiesPy okEnv chainHeap [some 0, some 5, some 5] true true false).fault =
        some .useAfterFree ∧
      (MergeEntitiesPy { okEnv with addScalarFieldOk := false } chainHeap [some 5, some 6] false
        true false).result = none ∧
      okEnv.castIndex 16777217 = 16777216 := by
  decide

/-- C10, as amended: for the classified clouds `c0 :: rest` of any input,
when the index field can be allocated, the first cloud is well formed, the
indices up to the number of clouds are converted to `ScalarType` without
rounding and, if the originals are consumed, the clouds are pairwise distinct
nodes of a heap in which every node is listed among the children of its
parent, `MergeEntitiesPy` with `createSFcloudIndex` runs without fault and
the field `Original cloud index` of the cloud it returns has one value for
each point of that cloud; with `k` clouds appended it takes at most `k + 1`
distinct values, and exactly `k + 1` when the first cloud and the appended
ones all have points. -/
theorem MergeEntitiesPy_index_field_distinct (env : MergeEnv) (h : Heap)
    (entities : List (Option Nat)) (deleteOriginalClouds createSubMeshes : Bool)
    (c0 : Nat) (rest meshes : List Nat)
    (hclass : classify env h entities 0 [] [] = some (c0 :: rest, meshes))
    (hsf : env.addScalarFieldOk = true)
    (hwf : wellFormedCloud h c0 = true)
    (hexact : ∀ k, k ≤ rest.length → env.castIndex k = k)
    (hdist : deleteOriginalClouds = true → (c0 :: rest).Nodup ∧ childrenListed h = true) :
    (MergeEntitiesPy env h entities deleteOriginalClouds true createSubMeshes).fault = none ∧
      ∃ o vals,
        (MergeEntitiesPy env h entities deleteOriginalClouds true createSubMeshes).cloud =
          some o ∧
        fieldValues o CC_ORIGINAL_CLOUD_INDEX_SF_NAME = some vals ∧
        vals.length = o.points.length ∧
        distinctValues vals ≤
          (MergeEntitiesPy env h entities deleteOriginalClouds true
            createSubMeshes).merged.length + 1 ∧
        ((∀ c ∈ c0 :: (MergeEntitiesPy env h entities deleteOriginalClouds true
              createSubMeshes).merged, cloudSize h c ≠ 0) →
          distinctValues vals =
            (MergeEntitiesPy env h entities deleteOriginalClouds true
              createSubMeshes).merged.length + 1) := by
  obtain ⟨n, o, hn, hcloud, hmerged, hpts, hfield, _⟩ := MergeEntitiesPy_spec env h entities
    deleteOriginalClouds createSubMeshes c0 rest meshes hclass hsf hwf
    (fun hd => (List.nodup_cons.mp (hdist hd).1).1) hexact
  refine ⟨MergeEntitiesPy_distinct_no_fault env h entities deleteOriginalClouds true
    createSubMeshes c0 rest meshes hclass hdist, o, _, hcloud, hfield, ?_, ?_, ?_⟩
  · rw [expectedIndexField_length, hpts]
  · rw [distinct_expectedIndexField, hmerged]
    have := List.countP_le_length (fun b => decide (b ≠ 0))
      (l := (c0 :: rest.take n).map (cloudSize h))
    simpa using this
  · intro hpos
    rw [distinct_expectedIndexField, hmerged]
    rw [hmerged] at hpos
    have hall : ∀ b ∈ (c0 :: rest.take n).map (cloudSize h),
        (fun b => decide (b ≠ 0)) b = true := by
      intro b hb
      obtain ⟨c, hc, rfl⟩ := List.mem_map.mp hb
      simpa using hpos c hc
    rw [List.countP_eq_length.mpr hall]
    simp

/-- Witness of C10 as amended: the clouds 0, 4 and 5, all with points, give a
field of 5 values, 3 of them distinct, after 2 appends. -/
theorem MergeEntitiesPy_index_field_distinct_witness :
    (MergeEntitiesPy okEnv chainHeap [some 0, some 4, some 5] true true false).merged =
        [4, 5] ∧
      (MergeEntitiesPy okEnv chainHeap [some 0, some 4, some 5] true true false).fault = none ∧
      ∃ o vals,
        (MergeEntitiesPy okEnv chainHeap [some 0, some 4, some 5] true true false).cloud =
          some o ∧
        fieldValues o CC_ORIGINAL_CLOUD_INDEX_SF_NAME = some vals ∧
        vals.length = o.points.length ∧
        distinctValues vals ≤
          (MergeEntitiesPy okEnv chainHeap [some 0, some 4, some 5] true true
            false).merged.length + 1 ∧
        ((∀ c ∈ 0 :: (MergeEntitiesPy okEnv chainHeap [some 0, some 4, some 5] true true
              false).merged, cloudSize chainHeap c ≠ 0) →
          distinctValues vals =
            (MergeEntitiesPy okEnv chainHeap [some 0, some 4, some 5] true true
              false).merged.length + 1) :=
  ⟨by decide,
    MergeEntitiesPy_index_field_distinct okEnv chainHeap [some 0, some 4, some 5] true false 0
      [4, 5] [] (by decide) rfl (by decide) (by decide) (fun _ => ⟨by decide, by decide⟩)⟩

/-- Counterexample to C10 as stated. The cloud 6 has no point; its append to
the clone of cloud 5 succeeds, so one cloud was appended, and the field of
the result has the single value 0, not two distinct values. With the
originals consumed the clouds 2, 5, 5 schedule the cloud 5 twice and the
removal loop reads it after deleting it. And the indices 16777216 and
16777217 become the same `float`. -/
theorem MergeEntitiesPy_index_field_distinct_counterexample :
    (MergeEntitiesPy okEnv chainHeap [some 5, some 6] false true false).merged = [6] ∧
      ((MergeEntitiesPy okEnv chainHeap [some 5, some 6] false true false).cloud.bind
        (fun o => fieldValues o CC_ORIGINAL_CLOUD_INDEX_SF_NAME)) = some [.val 0] ∧
      distinctValues [.val 0] = 1 ∧
      (MergeEntitiesPy okEnv chainHeap [some 2, some 5, some 5] true true false).merged =
        [5, 5] ∧
      (MergeEntitiesPy okEnv chainHeap [some 2, some 5, some 5] true true false).fault =
        some .useAfterFree ∧
      okEnv.castIndex 16777217 = okEnv.castIndex 16777216 := by
  decide

/-! ## MergeEntitiesPy consuming the originals: the schedule and the removal loop -/

/-- C19, as amended: in `MergeEntitiesPy` with `deleteOriginalClouds`, on a
heap in which every node is listed, once, among the children of its parent,
the schedule is what `AddToRemoveListPy` makes of the nodes chosen for the
successfully appended clouds, in order; the node chosen for a cloud is its
parent when that is a hierarchy group with exactly one child, and the cloud
itself otherwise; and when the chosen nodes are pairwise distinct the removal
loop runs without fault, after which every scheduled node is without parent,
is destroyed if it had no parent, and is no longer among the children of the
parent it had. -/
theorem MergeEntitiesPy_schedule (env : MergeEnv) (h : Heap) (entities : List (Option Nat))
    (createSFcloudIndex createSubMeshes : Bool) (hnd : childrenNodup h = true)
    (htree : childrenListed h = true)
    (hsel : ((MergeEntitiesPy env h entities true createSFcloudIndex
      createSubMeshes).merged.map (selectToRemove h)).Nodup) :
    (MergeEntitiesPy env h entities true createSFcloudIndex createSubMeshes).scheduled =
        scheduleOf h
          (MergeEntitiesPy env h entities true createSFcloudIndex createSubMeshes).merged ∧
      (∀ c p, getParent h c = some p → isA h p .HIERARCHY_OBJECT = true →
        getChildrenNumber h p = 1 → selectToRemove h c = p) ∧
      (∀ c, (∀ p, getParent h c = some p →
          ¬ (isA h p .HIERARCHY_OBJECT = true ∧ getChildrenNumber h p = 1)) →
        selectToRemove h c = c) ∧
      (MergeEntitiesPy env h entities true createSFcloudIndex createSubMeshes).fault = none ∧
      ∀ x ∈ (MergeEntitiesPy env h entities true createSFcloudIndex createSubMeshes).scheduled,
        getParent (MergeEntitiesPy env h entities true createSFcloudIndex createSubMeshes).heap
            x = none ∧
          (getParent h x = none →
            (MergeEntitiesPy env h entities true createSFcloudIndex createSubMeshes).heap.lookup
              x = none) ∧
          ∀ p, getParent h x = some p → ∀ c,
            childrenOf (MergeEntitiesPy env h entities true createSFcloudIndex
              createSubMeshes).heap p = some c → x ∉ c := by
  have hsel1 : ∀ c p, getParent h c = some p → isA h p .HIERARCHY_OBJECT = true →
      getChildrenNumber h p = 1 → selectToRemove h c = p := by
    intro c p hp hisa hnum
    simp [selectToRemove, hp, hisa, hnum]
  have hsel2 : ∀ c, (∀ p, getParent h c = some p →
      ¬ (isA h p .HIERARCHY_OBJECT = true ∧ getChildrenNumber h p = 1)) →
      selectToRemove h c = c := by
    intro c hc
    unfold selectToRemove
    cases hp : getParent h c with
    | none => rfl
    | some p =>
      have := hc p hp
      simp only
      rw [if_neg]
      simpa using this
  have hclouds : ∀ clouds,
      (mergeClouds env true createSFcloudIndex h clouds).fault = none →
      ∀ x ∈ (mergeClouds env true createSFcloudIndex h clouds).scheduled,
        getParent (mergeClouds env true createSFcloudIndex h clouds).heap x = none ∧
          (getParent h x = none →
            (mergeClouds env true createSFcloudIndex h clouds).heap.lookup x = none) ∧
          ∀ p, getParent h x = some p → ∀ c,
            childrenOf (mergeClouds env true createSFcloudIndex h clouds).heap p = some c →
              x ∉ c := by
    intro clouds hok x hx
    obtain ⟨g, hg, _, hheap, hfault⟩ := mergeClouds_schedule env createSFcloudIndex h clouds
    rw [hfault] at hok
    rw [hheap]
    refine ⟨removeScheduled_getParent g _ x hx hok, fun hroot => ?_, fun p hp => ?_⟩
    · exact removeScheduled_destroys g _ x hx (by rw [treeEq_getParent h g hg]; exact hroot) hok
    · exact removeScheduled_detaches g _ x p hx (by rw [treeEq_getParent h g hg]; exact hp)
        (fun b c hc => childrenNodup_spec h hnd b c (by rw [← treeEq_childrenOf h g hg]; exact hc))
        hok
  have hok := MergeEntitiesPy_no_fault env h entities createSFcloudIndex createSubMeshes htree
    hsel
  refine ⟨MergeEntitiesPy_scheduled env h entities createSFcloudIndex createSubMeshes, hsel1,
    hsel2, hok, ?_⟩
  revert hok
  unfold MergeEntitiesPy
  cases classify env h entities 0 [] [] with
  | none => exact fun _ x hx => by simp at hx
  | some cm =>
    obtain ⟨clouds, meshes⟩ := cm
    simp only
    split
    · exact fun _ x hx => by simp at hx
    · split
      · exact hclouds clouds
      · intro _ x hx
        simp [mergeMeshes] at hx

/-- Witness of C19 as amended: the clouds 5, 2 and 4 are merged into 5; the
cloud 2 is scheduled itself, its parent 1 being a cloud, and detached; for
the cloud 4 its parent, the group 3 with one child, is scheduled, and
destroyed. -/
theorem MergeEntitiesPy_schedule_witness :
    (MergeEntitiesPy okEnv chainHeap [some 5, some 2, some 4] true false false).merged = [2, 4] ∧
      (MergeEntitiesPy okEnv chainHeap [some 5, some 2, some 4] true false false).scheduled =
        [2, 3] ∧
      (MergeEntitiesPy okEnv chainHeap [some 5, some 2, some 4] true false false).fault = none ∧
      ∀ x ∈ (MergeEntitiesPy okEnv chainHeap [some 5, some 2, some 4] true false false).scheduled,
        getParent (MergeEntitiesPy okEnv chainHeap [some 5, some 2, some 4] true false
            false).heap x = none ∧
          (getParent chainHeap x = none →
            (MergeEntitiesPy okEnv chainHeap [some 5, some 2, some 4] true false
              false).heap.lookup x = none) ∧
          ∀ p, getParent chainHeap x = some p → ∀ c,
            childrenOf (MergeEntitiesPy okEnv chainHeap [some 5, some 2, some 4] true false
              false).heap p = some c → x ∉ c :=
  ⟨by decide, by decide,
    (MergeEntitiesPy_schedule okEnv chainHeap [some 5, some 2, some 4] false false
      (by decide) (by decide) (by decide)).2.2.2⟩

/-- Counterexample to C19 as stated: the cloud 4, child of the group 3, is
listed twice after the cloud 0. Both appends succeed and the group 3 is
handed to the schedule twice; it has no parent, so the removal loop deletes
it, then reads its parent link again and would delete it again. -/
theorem MergeEntitiesPy_schedule_counterexample :
    (MergeEntitiesPy okEnv chainHeap [some 0, some 4, some 4] true false false).merged =
        [4, 4] ∧
      selectToRemove chainHeap 4 = 3 ∧ getParent chainHeap 3 = none ∧
      (MergeEntitiesPy okEnv chainHeap [some 0, some 4, some 4] true false false).scheduled =
        [3, 3] ∧
      (MergeEntitiesPy okEnv chainHeap [some 0, some 4, some 4] true false false).fault =
        some .useAfterFree := by
  decide

/-- C20, as amended: let the classified clouds be `c0 :: rest`, let the index
field be allocated when requested and, when the originals are consumed, let
the clouds be pairwise distinct nodes of a heap in which every node is listed
among the children of its parent. When the appends of the first `n` clouds of
`rest` pass the size test (each has its memory, or the cloud is empty) and
the append of the next one, a cloud with points, has not its memory, so that
the size test fails for it, then `MergeEntitiesPy` runs without fault and
returns the accumulator, not null; the clouds merged are the first `n` of
`rest` exactly; the accumulator has the points of `c0` and these `n` clouds
and no more; with the index field requested on a well-formed first cloud and
indices converted without rounding, the field holds the indices 0 to `n` of
these clouds only; and no cloud of `rest` from the failing one on is
scheduled for removal. -/
theorem MergeEntitiesPy_append_failure (env : MergeEnv) (h : Heap)
    (entities : List (Option Nat))
    (deleteOriginalClouds createSFcloudIndex createSubMeshes : Bool)
    (c0 : Nat) (rest meshes : List Nat) (n pcn : Nat)
    (hclass : classify env h entities 0 [] [] = some (c0 :: rest, meshes))
    (hsf : createSFcloudIndex = true → env.addScalarFieldOk = true)
    (hdist : deleteOriginalClouds = true → (c0 :: rest).Nodup ∧ childrenListed h = true)
    (hget : rest[n]? = some pcn)
    (hpre : ∀ j, j < n →
      env.appendOk (1 + j) = true ∨ (rest[j]?).map (cloudSize h) = some 0)
    (hfail : env.appendOk (1 + n) = false) (hsize : cloudSize h pcn ≠ 0) :
    (MergeEntitiesPy env h entities deleteOriginalClouds createSFcloudIndex
        createSubMeshes).fault = none ∧
      (MergeEntitiesPy env h entities deleteOriginalClouds createSFcloudIndex
        createSubMeshes).result = some (accumulatorOf h deleteOriginalClouds c0) ∧
      (MergeEntitiesPy env h entities deleteOriginalClouds createSFcloudIndex
        createSubMeshes).merged = rest.take n ∧
      (∃ o, (MergeEntitiesPy env h entities deleteOriginalClouds createSFcloudIndex
          createSubMeshes).cloud = some o ∧
        o.points.length = ((c0 :: rest.take n).map (cloudSize h)).sum ∧
        (createSFcloudIndex = true → wellFormedCloud h c0 = true →
          (∀ k, k ≤ rest.length → env.castIndex k = k) →
          fieldValues o CC_ORIGINAL_CLOUD_INDEX_SF_NAME =
            some (expectedIndexField ((c0 :: rest.take n).map (cloudSize h)) 0))) ∧
      ∀ c ∈ rest.drop n,
        c ∉ (MergeEntitiesPy env h entities deleteOriginalClouds createSFcloudIndex
          createSubMeshes).scheduled := by
  have hval := classified_valid env h entities _ _ hclass
  obtain ⟨o0, hl, hcls⟩ := hval c0 (List.mem_cons_self _ _)
  have hvalid : ∀ pc ∈ rest, ∃ op, h.lookup pc = some op :=
    fun pc hpc => (hval pc (List.mem_cons_of_mem _ hpc)).imp (fun _ hx => hx.1)
  have hc0 : deleteOriginalClouds = true → c0 ∉ rest :=
    fun hd => (List.nodup_cons.mp (hdist hd).1).1
  have hfault := MergeEntitiesPy_distinct_no_fault env h entities deleteOriginalClouds
    createSFcloudIndex createSubMeshes c0 rest meshes hclass hdist
  rw [MergeEntitiesPy_clouds env h entities _ _ _ c0 rest meshes hclass] at hfault ⊢
  obtain ⟨hres, hmerged, o, hcloud, hpts⟩ := mergeClouds_fail env deleteOriginalClouds
    createSFcloudIndex h c0 rest o0 n pcn hl hcls hvalid hsf hc0 hget hpre hfail hsize
  refine ⟨hfault, hres, hmerged, ⟨o, hcloud, hpts, ?_⟩, ?_⟩
  · intro hsft hwf hexact
    subst hsft
    obtain ⟨n1, o1, _, _, hcloud1, hmerged1, _, hfield, _⟩ :=
      mergeClouds_spec env deleteOriginalClouds h c0 rest o0 hl hcls hvalid hwf (hsf rfl) hc0
        hexact
    rw [hcloud] at hcloud1
    rw [← Option.some.inj hcloud1, ← hmerged1, hmerged] at hfield
    exact hfield
  · intro c hc
    obtain ⟨oc, hlc, hclsc⟩ := hval c (List.mem_cons_of_mem _ (List.mem_of_mem_drop hc))
    cases deleteOriginalClouds with
    | false =>
      rw [(mergeClouds_extends env createSFcloudIndex h (c0 :: rest)).2.1]
      simp
    | true =>
      obtain ⟨_, _, hs, _⟩ := mergeClouds_schedule env createSFcloudIndex h (c0 :: rest)
      rw [hs, hmerged]
      apply scheduleOf_not_cloud h _ c oc hlc hclsc
      have hnd : rest.Nodup := (List.nodup_cons.mp (hdist rfl).1).2
      rw [← List.take_append_drop n rest] at hnd
      exact fun hct => (List.nodup_append.mp hnd).2.2 hct hc

/-- Witness of C20 as amended: the clouds 0, 4, 5 and 2, the originals
consumed and the index field requested; the append of the cloud 5 fails. The
result is the accumulator 0 with the points of 0 and 4, and only 4 is
merged. -/
theorem MergeEntitiesPy_append_failure_witness :
    (MergeEntitiesPy secondAppendFailsEnv chainHeap [some 0, some 4, some 5, some 2] true true
        false).fault = none ∧
      (MergeEntitiesPy secondAppendFailsEnv chainHeap [some 0, some 4, some 5, some 2] true true
        false).result = some (accumulatorOf chainHeap true 0) ∧
      (MergeEntitiesPy secondAppendFailsEnv chainHeap [some 0, some 4, some 5, some 2] true true
        false).merged = ([4, 5, 2] : List Nat).take 1 ∧
      (∃ o, (MergeEntitiesPy secondAppendFailsEnv chainHeap [some 0, some 4, some 5, some 2] true
          true false).cloud = some o ∧
        o.points.length = ((0 :: ([4, 5, 2] : List Nat).take 1).map (cloudSize chainHeap)).sum ∧
        (true = true → wellFormedCloud chainHeap 0 = true →
          (∀ k, k ≤ ([4, 5, 2] : List Nat).length → secondAppendFailsEnv.castIndex k = k) →
          fieldValues o CC_ORIGINAL_CLOUD_INDEX_SF_NAME =
            some (expectedIndexField
              ((0 :: ([4, 5, 2] : List Nat).take 1).map (cloudSize chainHeap)) 0))) ∧
      ∀ c ∈ ([4, 5, 2] : List Nat).drop 1,
        c ∉ (MergeEntitiesPy secondAppendFailsEnv chainHeap [some 0, some 4, some 5, some 2] true
          true false).scheduled :=
  MergeEntitiesPy_append_failure secondAppendFailsEnv chainHeap
    [some 0, some 4, some 5, some 2] true true false 0 [4, 5, 2] [] 1 5
    (by decide) (fun _ => rfl) (fun _ => ⟨by decide, by decide⟩) (by decide) (by decide)
    (by decide) (by decide)

/-- Counterexample to C20 as stated: the clouds 0, 5, 5 and 4 with the
originals consumed, the append of the cloud 4 failing. The loop stops there
with the cloud 5 scheduled twice, and the removal loop that follows deletes
the cloud 5 and then reads it again: nothing can be said of what is
returned. -/
theorem MergeEntitiesPy_append_failure_counterexample :
    classify thirdAppendFailsEnv chainHeap [some 0, some 5, some 5, some 4] 0 [] [] =
        some ([0, 5, 5, 4], []) ∧
      thirdAppendFailsEnv.appendOk 3 = false ∧ cloudSize chainHeap 4 ≠ 0 ∧
      (MergeEntitiesPy thirdAppendFailsEnv chainHeap [some 0, some 5, some 5, some 4] true false
        false).merged = [5, 5] ∧
      (MergeEntitiesPy thirdAppendFailsEnv chainHeap [some 0, some 5, some 5, some 4] true false
        false).scheduled = [5, 5] ∧
      (MergeEntitiesPy thirdAppendFailsEnv chainHeap [some 0, some 5, some 5, some 4] true false
        false).fault = some .useAfterFree := by
  decide


/-! ## ExtractConnectedComponents_py: the label field -/

end CloudComPy
